import Mathlib

/-!
Delta inverter gateway (`delta_reader/src/user_main.c`, `string_builder.c`).

A shallow embedding of the serial polling engine of the gateway: the CRC-16
routine, the command catalog, the growable string builder, the request encoder,
the reply validator and the byte-driven exchange state machine, followed by the
properties proved about them.

Conventions of the embedding.

* `uint8_t` / `uint16_t` / `uint32_t` values are natural numbers; every
  assignment that truncates in C carries an explicit `% 2^w`.
* Static arrays are lists; a read or write outside a static array is undefined
  behaviour in C and makes the embedded function return `none`.
* Calls into the SDK are recorded in trace fields of the state (`uart1_tx`,
  `posted`, `net`, `log`); results the SDK decides (`os_malloc`, `espconn_connect`) are
  read from oracle fields (`heap`, `espconn_connect_results`).
-/

namespace DeltaReader

/-! ## Command catalog -/

/-- The table `COMMANDS[][2]` (47 rows). -/
def COMMANDS : List (Nat × Nat) :=
  [ (0x10, 0x01), (0x10, 0x02), (0x10, 0x03), (0x11, 0x01), (0x11, 0x02), (0x11, 0x03),
    (0x20, 0x05), (0x21, 0x08), (0x10, 0x07), (0x10, 0x08), (0x10, 0x09), (0x10, 0x0A),
    (0x11, 0x07), (0x11, 0x08), (0x11, 0x09), (0x11, 0x0A), (0x13, 0x03), (0x13, 0x04),
    (0x14, 0x03), (0x14, 0x04), (0x15, 0x03), (0x15, 0x04), (0x16, 0x03), (0x16, 0x04),
    (0x17, 0x03), (0x17, 0x04), (0x12, 0x01), (0x12, 0x02), (0x12, 0x03), (0x12, 0x07),
    (0x12, 0x08), (0x12, 0x09), (0x12, 0x0A), (0x12, 0x0B), (0x12, 0x0C), (0x03, 0x05),
    (0x03, 0x06), (0x03, 0x07), (0x08, 0x02), (0x08, 0x02), (0x08, 0x02), (0x08, 0x02),
    (0x08, 0x02), (0x08, 0x02), (0x08, 0x02), (0x08, 0x02), (0x08, 0x02) ]

/-- The table `COMMAND_LENGTHS[]`: payload bytes in the reply of each command. -/
def COMMAND_LENGTHS : List Nat :=
  [ 2, 2, 2, 2, 2, 2, 2, 2, 2, 2, 2, 2, 2, 2, 2, 2, 2, 2, 2, 2, 2, 2, 4, 4, 4, 4,
    2, 2, 2, 2, 2, 2, 2, 2, 2, 2, 2, 2, 2, 2, 1, 1, 2, 2, 2, 1, 2 ]

/-- The table `COMMAND_TAGS[]`. -/
def COMMAND_TAGS : List String :=
  [ "instant-current-i1", "instant-voltage-i1", "instant-power-i1",
    "average-current-i1", "average-voltage-i1", "average-power-i1",
    "internal-temp-ac", "internal-temp-dc",
    "instant-current-ac", "instant-voltage-ac", "instant-power-ac", "instant-frequency-ac",
    "average-current-ac", "average-voltage-ac", "average-power-ac", "average-frequency-ac",
    "day-energy", "day-run-time", "week-energy", "week-run-time",
    "month-energy", "month-run-time", "year-energy", "year-run-time",
    "total-energy", "total-run-time",
    "solar-current-limit", "solar-voltage-limit", "solar-power-limit",
    "current-max-ac", "voltage-min-ac", "voltage-max-ac", "power-ac",
    "frequency-min-ac", "frequency-max-ac",
    "starting-voltage", "under-voltage-1", "under-voltage-2",
    "mpp-min", "mpp-max", "increment", "exp-factor", "mpp-power-min", "mpp-sampling",
    "mpp-scan-rate", "mpp-tracker-count", "startup-emmissions" ]

/-- `#define COMMAND_COUNT 38`. -/
def COMMAND_COUNT : Nat := 38

/-- Bytes of a packet that are neither command nor data. -/
def PACKET_OVERHEAD : Nat := 7

/-- Bytes in each command. -/
def COMMAND_LEN : Nat := 2

/-- `#define RX_BUFFER_LENGTH 16`. -/
def RX_BUFFER_LENGTH : Nat := 16

/-- Start of text. -/
def STX : Nat := 0x02

/-- Address used when sending to the inverter. -/
def INVERTER_ADDR : Nat := 0x05

/-- Address expected in packets from the inverter. -/
def GATEWAY_ADDR : Nat := 0x06

/-- Chain id of the inverter. -/
def INVERTER_ID : Nat := 0x01

/-- End of text. -/
def ETX : Nat := 0x03

/-! ## Integer conversions -/

/-- Conversion of a C integer to `uint8_t`. -/
def to_u8 (x : Int) : Nat := (x % 256).toNat

/-- Conversion of a C integer to `unsigned int` / `uint32_t`. -/
def to_u32 (x : Int) : Nat := (x % 4294967296).toNat

/-- Conversion of a C integer to `int` / `int32_t` (two's complement wrap). -/
def to_i32 (x : Int) : Int := (x + 2147483648) % 4294967296 - 2147483648

/-- The bytes of a C string literal (terminator not included). -/
def cstr (s : String) : List Nat := s.toList.map Char.toNat

/-! ## Checksum engine: `calculate_crc16` -/

/-- The constant `POLY` of `calculate_crc16`. -/
def POLY : Nat := 0x0A001

/-- Body of the inner `jj` loop: one shift of the `uint16_t` accumulator. -/
def crc_shift (crc : Nat) : Nat :=
  if crc &&& 0x01 ≠ 0 then ((crc >>> 1) ^^^ POLY) % 65536 else (crc >>> 1) % 65536

/-- The inner loop `for (jj = 0; jj < 8; jj++)`, with the number of iterations
still to run as first argument. -/
def crc_inner : Nat → Nat → Nat
  | 0, crc => crc
  | n + 1, crc => crc_inner n (crc_shift crc)

/-- The outer loop `for (ii = 1; ii < end; ii++)`: first argument is the number
of iterations still to run, `ii` the current index. -/
def crc_outer (packet : List Nat) : Nat → Nat → Nat → Nat
  | 0, _, crc => crc
  | n + 1, ii, crc =>
    crc_outer packet n (ii + 1) (crc_inner 8 ((crc ^^^ packet.getD ii 0) % 65536))

/-- The function `calculate_crc16(packet, end)`. The loop starts at index 1 and
runs `end - 1` times (not at all when `end` is 0 or 1). The caller supplies at
least `end` bytes. -/
def calculate_crc16 (packet : List Nat) (end_ : Nat) : Nat :=
  crc_outer packet (end_ - 1) 1 0

/-- One of the eight iterations the specification describes: if the low bit is
set, shift right by one and exclusive-or with `0xA001`, otherwise shift right
by one. -/
def crc16_spec_step (a : Nat) : Nat :=
  if a % 2 = 1 then (a >>> 1) ^^^ 0xA001 else a >>> 1

/-- One byte of the checksum as the specification words it: exclusive-or the
byte into the accumulator, then perform the eight iterations. -/
def crc16_spec_byte (acc byte : Nat) : Nat :=
  crc16_spec_step (crc16_spec_step (crc16_spec_step (crc16_spec_step
    (crc16_spec_step (crc16_spec_step (crc16_spec_step (crc16_spec_step (acc ^^^ byte))))))))

/-- The checksum as the specification words it: start from 0 and fold
`crc16_spec_byte` over the bytes at indices `1 .. end - 1`. -/
def crc16_spec (packet : List Nat) (end_ : Nat) : Nat :=
  ((packet.take end_).drop 1).foldl crc16_spec_byte 0

/-! ## Growable buffer: `string_builder.c` -/

/-- Oracle for `os_malloc`: the outcomes of the future calls, in order.
`none` is a failed allocation; `some g` a block whose uninitialised bytes are
read from `g` (padded with zeros). An exhausted oracle always succeeds. -/
abbrev Heap := List (Option (List Nat))

/-- The SDK call `os_malloc(size)`: the new block (or `none` for `NULL`) and
the remaining oracle. -/
def os_malloc (heap : Heap) (size : Nat) : Option (List Nat) × Heap :=
  match heap with
  | [] => (some (List.replicate size 0), [])
  | none :: rest => (none, rest)
  | some g :: rest => (some ((g ++ List.replicate size 0).take size), rest)

/-- The struct `string_builder`: `buf` is the content of the allocated block
(`allocated` bytes), `len` the number of characters used. -/
structure string_builder where
  buf : List Nat
  allocated : Nat
  len : Nat
deriving DecidableEq

/-- `sizeof(string_builder)` on the 32-bit target. -/
def SIZEOF_STRING_BUILDER : Nat := 12

/-- Store `src` into the block `mem` from offset `idx` on (`os_memmove` into a
block, or a single store); `none` when a byte falls outside the block. -/
def mem_write (mem : List Nat) (idx : Nat) (src : List Nat) : Option (List Nat) :=
  if idx + src.length ≤ mem.length then
    some (mem.take idx ++ src ++ mem.drop (idx + src.length))
  else none

/-- Read `n` bytes of the block `mem` from offset 0 (source of `os_memmove`);
`none` when a byte falls outside the block. -/
def mem_read (mem : List Nat) (n : Nat) : Option (List Nat) :=
  if n ≤ mem.length then some (mem.take n) else none

/-- The SDK call `os_strlen(str)`: number of bytes before the first NUL. -/
def os_strlen (str : List Nat) : Nat := (str.takeWhile (fun c => c ≠ 0)).length

/-- The SDK call `os_sprintf(str, "%d", val)` for an `int32_t` value: its
decimal numeral, with a leading minus sign when negative. -/
def sprintf_d (val : Int) : List Nat := cstr (toString val)

/-- The function `create_string_builder(initial_len)`: `none` for `NULL`. -/
def create_string_builder (heap : Heap) (initial_len : Int) :
    Option string_builder × Heap :=
  match os_malloc heap SIZEOF_STRING_BUILDER with
  | (none, heap1) => (none, heap1)
  | (some _, heap1) =>
    let allocated : Nat := if initial_len < 16 then 16 else initial_len.toNat
    match os_malloc heap1 allocated with
    | (none, heap2) => (none, heap2)
    | (some block, heap2) =>
      (some { buf := block.set 0 0, allocated := allocated, len := 0 }, heap2)

/-- The function `resize_string_builder(buf, additional_required)`. The result
is the return value, the builder afterwards and the remaining oracle. -/
def resize_string_builder (heap : Heap) (b : string_builder) (additional_required : Nat) :
    Option (Bool × string_builder × Heap) :=
  let new_size : Nat :=
    if to_u32 ((b.allocated : Int) + b.allocated - b.len) < additional_required then
      (b.len + additional_required) % 4294967296
    else
      b.allocated + b.allocated
  match os_malloc heap new_size with
  | (none, heap1) => some (false, b, heap1)
  | (some new_string, heap1) =>
    (mem_read b.buf b.len).bind fun old =>
    (mem_write new_string 0 old).bind fun copied =>
    some (true, { buf := copied, allocated := new_size, len := b.len }, heap1)

/-- The function `append_string_builder(buf, str)`. -/
def append_string_builder (heap : Heap) (b : string_builder) (str : List Nat) :
    Option (Bool × string_builder × Heap) :=
  let len : Int := (os_strlen str : Int) + 1
  let free : Int := (b.allocated : Int) - b.len - 1
  let grown : Option (Bool × string_builder × Heap) :=
    if free < len then resize_string_builder heap b (to_u32 (len - free))
    else some (true, b, heap)
  grown.bind fun r =>
    if r.1 = false then some (false, r.2.1, r.2.2)
    else
      (mem_write r.2.1.buf r.2.1.len (str.take (os_strlen str))).bind fun m1 =>
      (mem_write m1 (r.2.1.len + (os_strlen str + 1)) [0]).bind fun m2 =>
      some (true, { r.2.1 with buf := m2, len := r.2.1.len + os_strlen str }, r.2.2)

/-- The function `append_string_builder_to_string_builder(buf, source)`. -/
def append_string_builder_to_string_builder (heap : Heap) (b source : string_builder) :
    Option (Bool × string_builder × Heap) :=
  let free : Int := (b.allocated : Int) - b.len - 1
  let grown : Option (Bool × string_builder × Heap) :=
    if free < (source.len : Int) + 1 then
      resize_string_builder heap b (to_u32 ((source.len : Int) - free + 1))
    else some (true, b, heap)
  grown.bind fun r =>
    if r.1 = false then some (false, r.2.1, r.2.2)
    else
      (mem_read source.buf (source.len + 1)).bind fun src =>
      (mem_write r.2.1.buf r.2.1.len src).bind fun m =>
      some (true, { r.2.1 with buf := m, len := r.2.1.len + source.len }, r.2.2)

/-- The function `append_int32_string_builder(buf, val)`; `val` is the
argument after its conversion to `int32_t`. -/
def append_int32_string_builder (heap : Heap) (b : string_builder) (val : Int) :
    Option (Bool × string_builder × Heap) :=
  append_string_builder heap b (sprintf_d val)

/-- The characters a builder holds: the first `len` bytes of its block. -/
def string_builder.text (b : string_builder) : List Nat := b.buf.take b.len

/-! ## Exchange state machine -/

/-- Diagnostics the program prints with `os_printf` that the properties below
refer to. `expected_dump` records the scratch block of the framing-mismatch
branch: the size passed to `os_malloc`, the offsets stored into the block and
the number of bytes printed from it, once `packet_mismatch_dump` has done all
of them inside the block. -/
inductive Diag where
  | packet_mismatch
  | expected_dump (allocated : Nat) (stores : List Nat) (printed : Nat)
  | crc_mismatch (msg_crc crc : Nat)
  | accepted (index : Nat)
  | no_builder
  | prepare_failed
  | connect_result (res : Int)
deriving DecidableEq

/-- Calls made on the `espconn` connection. -/
inductive NetEvent where
  | connect
  | send (bytes : List Nat)
  | disconnect
deriving DecidableEq

/-- The global variables of `user_main.c` (defaults are the C initialisers),
the traces of SDK calls and the oracles of SDK results.

* `serial_rx_timer`: `some (ms, repeat)` while the timer is armed.
* `uart1_tx`: every byte handed to `uart_tx_one_char(UART1, _)`, in order.
* `posted`: the text of every content builder handed to `tagwriter_post`.
* `net`: calls on the HTTP connection.
* `heap`, `espconn_connect_results`: outcomes of the future `os_malloc` and
  `espconn_connect` calls. -/
structure State where
  current_command_index : Nat := 0
  data_len : Nat := 0
  expected_len : Nat := 0
  inverter_values : List Nat := List.replicate 38 0
  rx_buffer : List Nat := List.replicate 16 0
  rx_buffer_len : Nat := 0
  timeout : Bool := true
  awaiting_response : Bool := true
  value_buf : Option string_builder := none
  serial_rx_timer : Option (Nat × Nat) := none
  gpio4 : Bool := false
  uart1_tx : List Nat := []
  posted : List (List Nat) := []
  net : List NetEvent := []
  log : List Diag := []
  heap : Heap := []
  espconn_connect_results : List Int := []
deriving DecidableEq

/-- The state after the C initialisers, before any callback has run. -/
def State.init : State := {}

/-- The function `send_inverter_values()`: registers the callbacks and calls
`espconn_connect`, whose result is only logged. -/
def send_inverter_values (s : State) : State :=
  let res : Int := s.espconn_connect_results.headD 0
  { s with
    net := s.net ++ [NetEvent.connect]
    espconn_connect_results := s.espconn_connect_results.tail
    log := if res = 0 then s.log else s.log ++ [Diag.connect_result res] }

/-- The header text `tagwriter_post` puts before the content length. -/
def HTTP_HEADER : String :=
  "POST /tagwriter HTTP/1.1\r\nContent-Type: application/json\r\nConnection: close\r\nContent-Length: "

/-- The function `tagwriter_post(content)`. -/
def tagwriter_post (s0 : State) (content : string_builder) : Option State :=
  let s : State := { s0 with value_buf := none, posted := s0.posted ++ [content.text] }
  match create_string_builder s.heap ((content.len : Int) + 100) with
  | (none, heap1) => some { s with heap := heap1, log := s.log ++ [Diag.no_builder] }
  | (some sb, heap1) =>
    (append_string_builder heap1 sb (cstr HTTP_HEADER)).bind fun r1 =>
    (append_int32_string_builder r1.2.2 r1.2.1 (to_i32 content.len)).bind fun r2 =>
    (append_string_builder r2.2.2 r2.2.1 (cstr "\r\n\r\n")).bind fun r3 =>
    (append_string_builder_to_string_builder r3.2.2 r3.2.1 content).bind fun r4 =>
    if (r1.1 && r2.1 && r3.1 && r4.1) = true then
      some (send_inverter_values { s with heap := r4.2.2, value_buf := some r4.2.1 })
    else
      some { s with heap := r4.2.2, value_buf := none, log := s.log ++ [Diag.prepare_failed] }

/-- The function `send_data_request()`: builds the 9-byte request for the
current command, sets `data_len` and `expected_len`, re-arms the receive timer
and transmits the packet on UART 1 (GPIO 4 high during the transmission). -/
def send_data_request (s : State) : Option State :=
  (COMMANDS[s.current_command_index]?).bind fun cmd =>
  let crc := calculate_crc16 [STX, INVERTER_ADDR, INVERTER_ID, COMMAND_LEN, cmd.1, cmd.2] 6
  let tx_packet : List Nat :=
    [STX, INVERTER_ADDR, INVERTER_ID, COMMAND_LEN, cmd.1, cmd.2,
     (crc &&& 0x00FF) % 256, ((crc &&& 0xFF00) >>> 8) % 256, ETX]
  (COMMAND_LENGTHS[s.current_command_index]?).bind fun l =>
  some { s with
    data_len := l
    expected_len := (l + PACKET_OVERHEAD + COMMAND_LEN) % 256
    serial_rx_timer := some (10000, 0)
    gpio4 := false
    uart1_tx := s.uart1_tx ++ tx_packet }

/-- The function `transmit_cb()`. -/
def transmit_cb (s : State) : Option State :=
  send_data_request { s with current_command_index := 0 }

/-- The function `serial_timeout_cb()`. -/
def serial_timeout_cb (s0 : State) : Option State :=
  let s : State := { s0 with timeout := true, current_command_index := to_u8 (-1) }
  match create_string_builder s.heap 30 with
  | (none, heap1) => some { s with heap := heap1, log := s.log ++ [Diag.no_builder] }
  | (some content, heap1) =>
    (append_string_builder heap1 content
        (cstr "\x7b\"groups\":\x7b\"2\":\"unhealthy\"\x7d\x7d")).bind fun r =>
    if r.1 = true then tagwriter_post { s with heap := r.2.2 } r.2.1
    else some { s with heap := r.2.2 }

/-- The condition of the first `if` of `process_response`, operand by operand
with the short-circuit of `||`: `some true` when a framing byte differs. -/
def framing_mismatch (s : State) : Option Bool :=
  (s.rx_buffer[0]?).bind fun b0 =>
  if b0 ≠ STX then some true else
  (s.rx_buffer[1]?).bind fun b1 =>
  if b1 ≠ GATEWAY_ADDR then some true else
  (s.rx_buffer[2]?).bind fun b2 =>
  if b2 ≠ INVERTER_ID then some true else
  (s.rx_buffer[3]?).bind fun b3 =>
  (COMMAND_LENGTHS[s.current_command_index]?).bind fun l =>
  if b3 ≠ l + COMMAND_LEN then some true else
  (s.rx_buffer[4]?).bind fun b4 =>
  (COMMANDS[s.current_command_index]?).bind fun cmd =>
  if b4 ≠ cmd.1 then some true else
  (s.rx_buffer[5]?).bind fun b5 =>
  if b5 ≠ cmd.2 then some true else
  (s.rx_buffer[l + 8]?).bind fun e =>
  some (decide (e ≠ ETX))

/-- The body of the first `if` of `process_response`: print the `rx_buffer_len`
received bytes, allocate the scratch block `expected` of
`current_command_index + 8` bytes and, when it is not `NULL`, store the six
header bytes at its indices 0 to 5 and ETX at index
`COMMAND_LENGTHS[current_command_index] + 8`, then print `rx_buffer_len` bytes
of it. `none` when a store or a read falls outside the block (or outside
`rx_buffer` or the tables). What was done with the block is recorded in the
log as `Diag.expected_dump`. -/
def packet_mismatch_dump (s : State) : Option State :=
  if s.rx_buffer_len ≤ s.rx_buffer.length then
    match os_malloc s.heap (s.current_command_index + 8) with
    | (none, heap1) => some { s with heap := heap1, log := s.log ++ [Diag.packet_mismatch] }
    | (some expected, heap1) =>
      (COMMAND_LENGTHS[s.current_command_index]?).bind fun l =>
      (COMMANDS[s.current_command_index]?).bind fun cmd =>
      (mem_write expected 0
          [STX, GATEWAY_ADDR, INVERTER_ID, (l + COMMAND_LEN) % 256, cmd.1, cmd.2]).bind fun e1 =>
      (mem_write e1 (l + 8) [ETX]).bind fun e2 =>
      (mem_read e2 s.rx_buffer_len).bind fun _ =>
      some { s with
        heap := heap1
        log := s.log ++ [Diag.packet_mismatch,
          Diag.expected_dump (s.current_command_index + 8) [0, 1, 2, 3, 4, 5, l + 8]
            s.rx_buffer_len] }
  else none

/-- Store `v` into `inverter_values[current_command_index]`. -/
def set_inverter_value (s : State) (v : Nat) : Option State :=
  if s.current_command_index < s.inverter_values.length then
    some { s with inverter_values := s.inverter_values.set s.current_command_index v }
  else none

/-- The part of `process_response` that stores the received value: big-endian
payload of 1, 2 or 4 bytes from offset 6. The shifts are computed in `int`
(wrapping into the sign bit) and the sum is converted to `uint32_t`. -/
def process_response_store (s : State) : Option State :=
  (COMMAND_LENGTHS[s.current_command_index]?).bind fun l =>
  if l = 1 then
    (s.rx_buffer[6]?).bind fun (b6 : Nat) => set_inverter_value s (to_u32 b6)
  else if l = 2 then
    (s.rx_buffer[6]?).bind fun (b6 : Nat) =>
    (s.rx_buffer[7]?).bind fun (b7 : Nat) =>
    set_inverter_value s (to_u32 (to_i32 (((b6 <<< 8 : Nat) : Int) + b7)))
  else if l = 4 then
    (s.rx_buffer[6]?).bind fun (b6 : Nat) =>
    (s.rx_buffer[7]?).bind fun (b7 : Nat) =>
    (s.rx_buffer[8]?).bind fun (b8 : Nat) =>
    (s.rx_buffer[9]?).bind fun (b9 : Nat) =>
    set_inverter_value s
      (to_u32 (to_i32 (to_i32 (to_i32 (to_i32 ((b6 <<< 24 : Nat) : Int) + ((b7 <<< 16 : Nat) : Int))
        + ((b8 <<< 8 : Nat) : Int)) + b9)))
  else some s

/-- The loop `for (ii = 0; ii < COMMAND_COUNT; ii++)` of `process_response`
that appends one tag entry per command: first argument is the number of
iterations still to run, `acc` is `(add_ok, content, heap)`. -/
def report_tags (values : List Nat) :
    Nat → Nat → Bool × string_builder × Heap → Option (Bool × string_builder × Heap)
  | 0, _, acc => some acc
  | n + 1, ii, acc =>
    (append_string_builder acc.2.2 acc.2.1
        (if ii > 0 then cstr ",\"" else cstr "\"")).bind fun r1 =>
    (COMMAND_TAGS[ii]?).bind fun tag =>
    (append_string_builder r1.2.2 r1.2.1 (cstr tag)).bind fun r2 =>
    (append_string_builder r2.2.2 r2.2.1 (cstr "\":")).bind fun r3 =>
    (values[ii]?).bind fun (v : Nat) =>
    (append_int32_string_builder r3.2.2 r3.2.1 (to_i32 v)).bind fun r4 =>
    report_tags values n (ii + 1) (acc.1 && r1.1 && r2.1 && r3.1 && r4.1, r4.2.1, r4.2.2)

/-- The branch of `process_response` taken after the last command: build the
tag report and hand it to `tagwriter_post`. -/
def process_response_report (s : State) : Option State :=
  match create_string_builder s.heap 128 with
  | (none, heap1) => some { s with heap := heap1, log := s.log ++ [Diag.no_builder] }
  | (some content, heap1) =>
    (append_string_builder heap1 content (cstr "\x7b\"tags\":\x7b")).bind fun r0 =>
    (report_tags s.inverter_values COMMAND_COUNT 0 r0).bind fun r1 =>
    (append_string_builder r1.2.2 r1.2.1
        (if s.timeout = true then cstr "\x7d,\"groups\":\x7b\"2\":\"healthy\"\x7d\x7d"
         else cstr "\x7d\x7d")).bind fun r2 =>
    if (r1.1 && r2.1) = true then
      tagwriter_post { s with timeout := false, heap := r2.2.2 } r2.2.1
    else
      some { s with timeout := false, heap := r2.2.2, log := s.log ++ [Diag.prepare_failed] }

/-- The part of `process_response` from the checksum comparison on: reject
the frame on a mismatch, otherwise store the value and either report (after the
last command) or request the next command. -/
def process_response_check (s1 : State) : Option State :=
  (s1.rx_buffer[s1.data_len + 6]?).bind fun lo =>
  (s1.rx_buffer[s1.data_len + 7]?).bind fun hi =>
  let msg_crc : Nat := ((lo &&& 0xFF) ||| ((hi <<< 8) &&& 0xFF00)) % 65536
  if (s1.data_len + 6) % 256 ≤ s1.rx_buffer.length then
    let crc : Nat := calculate_crc16 s1.rx_buffer ((s1.data_len + 6) % 256)
    if msg_crc ≠ crc then
      if s1.expected_len ≤ s1.rx_buffer.length then
        some { s1 with log := s1.log ++ [Diag.crc_mismatch msg_crc crc] }
      else none
    else
      (process_response_store
          { s1 with log := s1.log ++ [Diag.accepted s1.current_command_index] }).bind fun s2 =>
      if s2.current_command_index = COMMAND_COUNT - 1 then
        process_response_report s2
      else
        send_data_request
          { s2 with current_command_index := (s2.current_command_index + 1) % 256 }
  else none

/-- The function `process_response()`: cancel the receive timer, validate the
framing bytes (a mismatch is only printed), then continue with the checksum
comparison. -/
def process_response (s0 : State) : Option State :=
  let s : State := { s0 with serial_rx_timer := none }
  (framing_mismatch s).bind fun bad =>
  (if bad = true then packet_mismatch_dump s else some s).bind process_response_check

/-- The body of the receive loop of `uart_rx_task` for one byte read from the
UART FIFO. -/
def uart_rx_byte (s : State) (fifo_byte : Nat) : Option State :=
  let rx_char : Nat := fifo_byte % 256
  let s1 : State :=
    if rx_char = 0 ∧ s.rx_buffer_len = 0 then s
    else if s.rx_buffer_len ≥ RX_BUFFER_LENGTH then s
    else { s with
      rx_buffer := s.rx_buffer.set s.rx_buffer_len rx_char
      rx_buffer_len := (s.rx_buffer_len + 1) % 256 }
  if s1.rx_buffer_len ≥ s1.expected_len then
    (process_response s1).map fun s2 => { s2 with rx_buffer_len := 0 }
  else some s1

/-- The function `uart_rx_task(events)`: `sig` is `events->sig` and `fifo` the
`rx_len` bytes waiting in the UART FIFO. The test `current_command_index != -1`
compares the `uint8_t` index, promoted to `int`, with `-1`. -/
def uart_rx_task (s : State) (sig : Nat) (fifo : List Nat) : Option State :=
  if sig = 0 then
    if (s.current_command_index : Int) ≠ -1 then
      fifo.foldlM uart_rx_byte s
    else
      some s
  else some s

/-- Feed bytes one receive event at a time: each byte is delivered by its own
call of `uart_rx_task` with `sig = 0`. -/
def feed_bytes (s : State) (bytes : List Nat) : Option State :=
  bytes.foldlM (fun st b => uart_rx_task st 0 [b]) s

/-! ## Vocabulary of the properties -/

/-- The big-endian unsigned integer formed by a byte sequence. -/
def be_value (bytes : List Nat) : Nat := bytes.foldl (fun acc b => acc * 256 + b) 0

/-- The request frame the specification gives for catalog entry `i`:
`[STX, inverter-address, chain-id, 2, cmd-high, cmd-low, crc-low, crc-high, ETX]`
with the checksum `c` of the first six bytes, `crc-low = c & 0xFF` and
`crc-high = c >> 8`. -/
def request_frame (i : Nat) : List Nat :=
  let cmd := COMMANDS.getD i (0, 0)
  let c := calculate_crc16 [0x02, 0x05, 0x01, 0x02, cmd.1, cmd.2] 6
  [0x02, 0x05, 0x01, 0x02, cmd.1, cmd.2, c &&& 0xFF, c >>> 8, 0x03]

/-- A well-formed reply frame for catalog entry `i` carrying `payload`:
`[STX, gateway-address, chain-id, L + 2, cmd-high, cmd-low] ++ payload ++
[crc-low, crc-high, ETX]`, the checksum taken over the first `L + 6` bytes. -/
def reply_frame (i : Nat) (payload : List Nat) : List Nat :=
  let cmd := COMMANDS.getD i (0, 0)
  let l := COMMAND_LENGTHS.getD i 0
  let c := calculate_crc16 ([0x02, 0x06, 0x01, l + 2, cmd.1, cmd.2] ++ payload) (l + 6)
  [0x02, 0x06, 0x01, l + 2, cmd.1, cmd.2] ++ payload ++ [c % 256, c / 256, 0x03]

/-- The static arrays have their declared sizes and element types:
`rx_buffer` holds 16 bytes and `inverter_values` holds 38 `uint32_t`. -/
def State.wf (s : State) : Prop :=
  s.rx_buffer.length = RX_BUFFER_LENGTH ∧ (∀ b ∈ s.rx_buffer, b < 256) ∧
  s.inverter_values.length = COMMAND_COUNT ∧ (∀ v ∈ s.inverter_values, v < 4294967296)

instance (s : State) : Decidable s.wf := by
  unfold State.wf; infer_instance

/-- The state `Awaiting(i)` of the specification: the request for catalog
entry `i` has been sent by `send_data_request`, so the index is `i`, the
payload length is `COMMAND_LENGTHS[i]` and the expected frame length is
`COMMAND_LENGTHS[i] + 9`. -/
def Awaiting (s : State) (i : Nat) : Prop :=
  i < COMMAND_COUNT ∧ s.wf ∧ s.current_command_index = i ∧
  s.data_len = COMMAND_LENGTHS.getD i 0 ∧ s.expected_len = COMMAND_LENGTHS.getD i 0 + 9

instance (s : State) (i : Nat) : Decidable (Awaiting s i) := by
  unfold Awaiting; infer_instance

/-- The scratch block `expected` of the framing-mismatch branch of
`process_response` is large enough for what the branch does with it: the store
at index `COMMAND_LENGTHS[current_command_index] + 8` and the `rx_buffer_len`
bytes printed are inside its `current_command_index + 8` bytes. -/
def expected_block_fits (s : State) : Prop :=
  COMMAND_LENGTHS.getD s.current_command_index 0 + 8 < s.current_command_index + 8 ∧
  s.rx_buffer_len ≤ s.current_command_index + 8

instance (s : State) : Decidable (expected_block_fits s) := by
  unfold expected_block_fits; infer_instance

/-- The framing-mismatch branch of `process_response` does not leave its
scratch block: the framing bytes match (the branch is not taken), or the block
is not allocated (`os_malloc` answers `NULL`), or the block is large enough. -/
def framing_dump_defined (s : State) : Prop :=
  framing_mismatch s = some false ∨
  (os_malloc s.heap (s.current_command_index + 8)).1 = none ∨ expected_block_fits s

instance (s : State) : Decidable (framing_dump_defined s) := by
  unfold framing_dump_defined; infer_instance

/-- Every allocation the oracle still holds succeeds. -/
def heap_succeeds (heap : Heap) : Prop := ∀ r ∈ heap, r ≠ none

instance (heap : Heap) : Decidable (heap_succeeds heap) := by
  unfold heap_succeeds; infer_instance

/-- Invariant of a string builder between calls: the block has `allocated`
bytes and the characters used leave room for the terminator. -/
def string_builder.wf (b : string_builder) : Prop :=
  b.buf.length = b.allocated ∧ b.len < b.allocated

instance (b : string_builder) : Decidable b.wf := by
  unfold string_builder.wf; infer_instance

/-- One tag entry of the report as the specification words it:
`"<tag>":<decimal of v>`, the value as an unsigned decimal numeral. -/
def tag_entry_spec (tag : String) (v : Nat) : List Nat :=
  cstr "\"" ++ cstr tag ++ cstr "\":" ++ cstr (toString v)

/-- The 38 tag entries of the report, in catalog order. -/
def tag_entries_spec (values : List Nat) : List (List Nat) :=
  (List.range COMMAND_COUNT).map fun k =>
    tag_entry_spec (COMMAND_TAGS.getD k "") (values.getD k 0)

/-- The normal report body as the specification words it: the tag entries
separated by single commas inside `\x7b"tags":\x7b ... \x7d\x7d`, with the `groups`
field marking group 2 healthy when the degraded flag was set. -/
def report_body_spec (values : List Nat) (degraded : Bool) : List Nat :=
  cstr "\x7b\"tags\":\x7b" ++ List.intercalate (cstr ",") (tag_entries_spec values) ++
    (if degraded = true then cstr "\x7d,\"groups\":\x7b\"2\":\"healthy\"\x7d\x7d"
     else cstr "\x7d\x7d")

/-- The HTTP request `tagwriter_post` wraps around a report body. -/
def http_request_spec (body : List Nat) : List Nat :=
  cstr HTTP_HEADER ++ cstr (toString body.length) ++ cstr "\r\n\r\n" ++ body

/-- The variables of the exchange session and of the serial link: what a
callback may change besides the report it posts. -/
def State.exchange (s : State) :
    Nat × Nat × Nat × List Nat × List Nat × Nat × List Nat :=
  (s.current_command_index, s.data_len, s.expected_len, s.inverter_values, s.rx_buffer,
    s.rx_buffer_len, s.uart1_tx)

/-- The characters iteration `ii` of the report loop appends: the separator,
the tag, the colon and the `%d` rendering of `inverter_values[ii]` passed as
`int32_t`. -/
def report_entry_text (values : List Nat) (ii : Nat) : List Nat :=
  (if ii > 0 then cstr ",\"" else cstr "\"") ++ cstr (COMMAND_TAGS.getD ii "") ++ cstr "\":" ++
    sprintf_d (to_i32 (values.getD ii 0))

/-- The report body the code builds from the result table: like
`report_body_spec`, with every value rendered by `%d` as an `int32_t`. -/
def report_body_code (values : List Nat) (degraded : Bool) : List Nat :=
  cstr "\x7b\"tags\":\x7b" ++
    ((List.range' 0 COMMAND_COUNT).map (report_entry_text values)).flatten ++
    (if degraded = true then cstr "\x7d,\"groups\":\x7b\"2\":\"healthy\"\x7d\x7d"
     else cstr "\x7d\x7d")

/-- Proof invariant of the report builder: well formed, at least the initial
128 bytes, capacity at most twice the content plus a constant, and at most `k`
characters used. -/
def string_builder.bounded (b : string_builder) (k : Nat) : Prop :=
  b.wf ∧ 128 ≤ b.allocated ∧ b.allocated ≤ 2 * b.len + 256 ∧ b.len ≤ k

/-- A concrete state `Awaiting(i)`: the initial state after the request for
catalog entry `i` has been sent (traces left empty). -/
def example_awaiting (i : Nat) : State :=
  { State.init with
    current_command_index := i
    data_len := COMMAND_LENGTHS.getD i 0
    expected_len := COMMAND_LENGTHS.getD i 0 + 9 }

/-- A frame made of `body`, the checksum of `body` (low byte first) and a
last byte. -/
def frame_with_crc (body : List Nat) (last : Nat) : List Nat :=
  body ++ [calculate_crc16 body body.length % 256, calculate_crc16 body body.length / 256, last]

/-- The concrete state `example_awaiting i` once the bytes of `frame` have been
accumulated (the rest of `rx_buffer` is zero). -/
def example_completed (i : Nat) (frame : List Nat) : State :=
  { example_awaiting i with
    rx_buffer := frame ++ List.replicate (16 - frame.length) 0
    rx_buffer_len := frame.length }

/-! ## Vocabulary of the checksum properties -/

/-- The packet with the bytes at positions `j` and `k` exchanged. -/
def swap_bytes (packet : List Nat) (j k : Nat) : List Nat :=
  (packet.set j (packet.getD k 0)).set k (packet.getD j 0)

/-- The checksum loop over a packet given as a function from index to byte:
the loop of `calculate_crc16` with `packet[ii]` read from `g` and the loop body
in the form `crc16_spec_byte`. -/
def crc_run (g : Nat → Nat) : Nat → Nat → Nat → Nat
  | 0, _, crc => crc
  | n + 1, ii, crc => crc_run g n (ii + 1) (crc16_spec_byte crc (g ii))

/-- The function `crc16_spec_step`, evaluating its argument first. -/
def step_forced : Nat → Nat
  | 0 => 0
  | y + 1 => crc16_spec_step (y + 1)

/-- The accumulator update for a zero byte (eight steps), evaluating the
argument of every step first. -/
def zero_byte_forced (x : Nat) : Nat :=
  step_forced (step_forced (step_forced (step_forced
    (step_forced (step_forced (step_forced (step_forced x)))))))

/-- Whether none of the next `n` accumulator values reached from `x` by
zero bytes equals `d0`. -/
def orbit_avoids (d0 : Nat) : Nat → Nat → Bool
  | 0, _ => true
  | n + 1, x =>
    match zero_byte_forced x with
    | 0 => (0 != d0) && orbit_avoids d0 n 0
    | y + 1 => (y + 1 != d0) && orbit_avoids d0 n (y + 1)

/-- Whether `orbit_avoids d 253 d` holds for every `d` from 1 to `m`. -/
def orbit_all : Nat → Bool
  | 0 => true
  | m + 1 => orbit_avoids (m + 1) 253 (m + 1) && orbit_all m

/-! ## Vocabulary of the report properties -/

/-- Whether a report text carries a `groups` field: the key `"groups"` occurs
in it. -/
def has_groups (body : List Nat) : Prop := cstr "\"groups\"" <:+: body

instance (body : List Nat) : Decidable (has_groups body) := by
  unfold has_groups; infer_instance

/-- Whether the characters `g` and `r` occur next to each other in a text. -/
def has_gr : List Nat → Bool
  | a :: b :: rest => (a == 103 && b == 114) || has_gr (b :: rest)
  | _ => false

/-- The characters iteration `ii` of the report loop appends before the value. -/
def report_entry_key (ii : Nat) : List Nat :=
  (if ii > 0 then cstr ",\"" else cstr "\"") ++ cstr (COMMAND_TAGS.getD ii "") ++ cstr "\":"

/-- The bytes of consecutive well-formed replies: the reply frames for the
catalog entries `i`, `i + 1`, ... carrying the given payloads. -/
def reply_frames : Nat → List (List Nat) → List Nat
  | _, [] => []
  | i, p :: ps => reply_frame i p ++ reply_frames (i + 1) ps

/-- Whether the payloads have the lengths the catalog declares from entry `i`
on and consist of bytes. -/
def valid_payloads : Nat → List (List Nat) → Bool
  | _, [] => true
  | i, p :: ps =>
    decide (p.length = COMMAND_LENGTHS.getD i 0) && p.all (fun b => decide (b < 256)) &&
      valid_payloads (i + 1) ps

/-- The result table after the payloads have been stored from entry `i` on. -/
def store_payloads (values : List Nat) : Nat → List (List Nat) → List Nat
  | _, [] => values
  | i, p :: ps => store_payloads (values.set i (be_value p)) (i + 1) ps

/-! ## Executions -/

/-- The events that drive the gateway: the transmit timer fires, the response
timer fires, one byte arrives on the serial port. -/
inductive Event where
  | transmit
  | timeout
  | rx (byte : Nat)
deriving DecidableEq

/-- The callback an event runs. -/
def step (s : State) : Event → Option State
  | Event.transmit => transmit_cb s
  | Event.timeout => serial_timeout_cb s
  | Event.rx b => uart_rx_task s 0 [b]

/-- The boot state with given outcomes of the future allocations and
connection attempts. -/
def boot (heap : Heap) (results : List Int) : State :=
  { State.init with heap := heap, espconn_connect_results := results }

/-- History of an execution. `timed_out`: a response timeout occurred since
boot and after the previous normal report. `reported`: a normal report was
posted since boot. `reports`: the normal reports posted so far, each with the
values `timed_out` and `reported` had when it was posted. -/
structure History where
  timed_out : Bool := false
  reported : Bool := false
  reports : List (List Nat × Bool × Bool) := []
deriving DecidableEq

/-- Record one normal report in the history. -/
def History.record (h : History) (body : List Nat) : History :=
  { timed_out := false, reported := true,
    reports := h.reports ++ [(body, h.timed_out, h.reported)] }

/-- The history after the receive events that took the state from `s` to `t`:
every report posted in between is recorded. -/
def History.observe_posted (h : History) (s t : State) : History :=
  (t.posted.drop s.posted.length).foldl History.record h

/-- The history after an event took the state from `s` to `t`. The reports a
receive event posts are the normal reports. -/
def History.observe (h : History) (s : State) (e : Event) (t : State) : History :=
  match e with
  | Event.transmit => h
  | Event.timeout => { h with timed_out := true }
  | Event.rx _ => h.observe_posted s t

/-- Run a sequence of events, keeping the history. -/
def run : State → History → List Event → Option (State × History)
  | s, h, [] => some (s, h)
  | s, h, e :: es => (step s e).bind fun t => run t (h.observe s e t) es

/-- The payloads of the replies of the example sweep: every payload byte is
`1`, the lengths are those of the catalog. -/
def first_sweep_payloads : List (List Nat) :=
  (COMMAND_LENGTHS.take 38).map fun l => List.replicate l 1

/-- The events of a first sweep without timeout: the transmit timer fires and
the bytes of the 38 replies arrive. -/
def first_sweep_events : List Event :=
  Event.transmit :: (reply_frames 0 first_sweep_payloads).map Event.rx

/-- Invariant of an execution with its history: the degraded flag is set only
if a response timeout occurred after the previous normal report or no normal
report was posted since boot; every recorded report with a `groups` field was
posted in such a situation. -/
def history_invariant (s : State) (h : History) : Prop :=
  (s.timeout = true → h.timed_out = true ∨ h.reported = false) ∧
  ∀ r ∈ h.reports, has_groups r.1 → r.2.1 = true ∨ r.2.2 = false

/-- The report of the first sweep: the text the report loop builds from the
table of the values `01 01` and `01 01 01 01` with the degraded flag set. -/
def first_sweep_report : List Nat :=
  report_body_code (store_payloads State.init.inverter_values 0 first_sweep_payloads) true

/-! ## Vocabulary of the builder properties -/

/-- The growth step of `append_string_builder`: the value of `grown`, the
builder after the call of `resize_string_builder` when the string does not
fit. -/
def append_growth (heap : Heap) (b : string_builder) (str : List Nat) :
    Option (Bool × string_builder × Heap) :=
  let len : Int := (os_strlen str : Int) + 1
  let free : Int := (b.allocated : Int) - b.len - 1
  if free < len then resize_string_builder heap b (to_u32 (len - free))
  else some (true, b, heap)

/-- The capacity after a growth as the specification words it: the larger of
twice the old capacity and the exact size needed for the old content, the
appended bytes and the terminator. -/
def grown_capacity_spec (allocated len appended : Nat) : Nat :=
  max (2 * allocated) (len + appended + 1)

/-- A builder as `create_string_builder(16)` leaves it when the allocator
hands out blocks filled with the byte `fill`. -/
def fresh_builder (fill : Nat) : string_builder :=
  { buf := 0 :: List.replicate 15 fill, allocated := 16, len := 0 }

/-! ## Transport callbacks -/

/-- The function `connect_cb(arg)`: sets `awaiting_response` and, when
`value_buf` is not `NULL`, hands the first `value_buf->len` bytes of its block
to `espconn_send`. -/
def connect_cb (s : State) : Option State :=
  let s1 : State := { s with awaiting_response := true }
  match s1.value_buf with
  | some vb =>
    (mem_read vb.buf vb.len).map fun bytes => { s1 with net := s1.net ++ [NetEvent.send bytes] }
  | none => some s1

/-- The function `disconnect_task(event)`: calls `espconn_disconnect` and
releases `value_buf` when it is not `NULL`. -/
def disconnect_task (s : State) : State :=
  { s with net := s.net ++ [NetEvent.disconnect], value_buf := none }

/-- The function `disconnect_cb(arg)`: releases `value_buf` when it is not
`NULL`. -/
def disconnect_cb (s : State) : State :=
  { s with value_buf := none }

/-- The function `reconnect_cb(arg, err)`: releases `value_buf` when it is not
`NULL`; the error code is only printed. -/
def reconnect_cb (s : State) (_err : Int) : State :=
  { s with value_buf := none }

/-! ## Lifetime of the report buffers

The string builders of the transport path, identified by the order of their
creation, with every `free_string_builder` and `espconn_send` recorded. The
functions below are the buffer operations of the functions of the same name in
`user_main.c`; what the allocator and the appends answer is a parameter. -/

/-- What happens to a string builder. -/
inductive BufferEvent where
  | created (id : Nat)
  | released (id : Nat)
  | sent (id : Nat)
deriving DecidableEq

/-- The variables of the transport path: `value_buf` holds the number of the
builder it points to (`none` for `NULL`), `count` is the number of builders
created so far, `events` the record of creations, releases and sends. -/
structure Gate where
  value_buf : Option Nat := none
  awaiting_response : Bool := true
  count : Nat := 0
  events : List BufferEvent := []
deriving DecidableEq

/-- A call of `create_string_builder`: a new builder when `ok`, `NULL`
otherwise. -/
def Gate.create_string_builder (g : Gate) (ok : Bool) : Option Nat × Gate :=
  if ok = true then
    (some g.count,
      { g with count := g.count + 1, events := g.events ++ [BufferEvent.created g.count] })
  else (none, g)

/-- A call of `free_string_builder(buf)`: nothing for `NULL`. -/
def Gate.free_string_builder (g : Gate) (buf : Option Nat) : Gate :=
  match buf with
  | some id => { g with events := g.events ++ [BufferEvent.released id] }
  | none => g

/-- The statement `if (value_buf != NULL) { free_string_builder(value_buf);
value_buf = NULL; }` shared by four functions. -/
def Gate.release_value_buf (g : Gate) : Gate :=
  match g.value_buf with
  | some id => { g.free_string_builder (some id) with value_buf := none }
  | none => g

/-- The buffer operations of `tagwriter_post(content)`; `sb_ok` tells whether
the request builder is created, `add_ok` whether the four appends succeed. -/
def Gate.tagwriter_post (g : Gate) (content : Nat) (sb_ok add_ok : Bool) : Gate :=
  match g.release_value_buf.create_string_builder sb_ok with
  | (none, g2) => g2.free_string_builder (some content)
  | (some sb, g2) =>
    let g3 := g2.free_string_builder (some content)
    if add_ok = true then { g3 with value_buf := some sb }
    else { g3 with value_buf := none }.free_string_builder (some sb)

/-- The buffer operations of the two callers of `tagwriter_post`
(`serial_timeout_cb` and the report branch of `process_response`): create the
content builder, fill it, and post it when every append succeeded. -/
def Gate.report (g : Gate) (content_ok fill_ok sb_ok add_ok : Bool) : Gate :=
  match g.create_string_builder content_ok with
  | (none, g1) => g1
  | (some content, g1) =>
    if fill_ok = true then g1.tagwriter_post content sb_ok add_ok else g1

/-- The buffer operations of `connect_cb`. -/
def Gate.connect_cb (g : Gate) : Gate :=
  let g1 : Gate := { g with awaiting_response := true }
  match g1.value_buf with
  | some id => { g1 with events := g1.events ++ [BufferEvent.sent id] }
  | none => g1

/-- The function `response_cb` as far as the buffers go: it touches none, and
only clears `awaiting_response`. -/
def Gate.response_cb (g : Gate) : Gate :=
  if g.awaiting_response = false then g else { g with awaiting_response := false }

/-- The buffer operations of `disconnect_task`. -/
def Gate.disconnect_task (g : Gate) : Gate := g.release_value_buf

/-- The buffer operations of `disconnect_cb`. -/
def Gate.disconnect_cb (g : Gate) : Gate := g.release_value_buf

/-- The buffer operations of `reconnect_cb`. -/
def Gate.reconnect_cb (g : Gate) : Gate := g.release_value_buf

/-- The events of the transport path. -/
inductive GateOp where
  | report (content_ok fill_ok sb_ok add_ok : Bool)
  | connect
  | response
  | disconnect_task
  | disconnect
  | reconnect
deriving DecidableEq

/-- The function an event of the transport path runs. -/
def Gate.step (g : Gate) : GateOp → Gate
  | GateOp.report c f s a => g.report c f s a
  | GateOp.connect => g.connect_cb
  | GateOp.response => g.response_cb
  | GateOp.disconnect_task => g.disconnect_task
  | GateOp.disconnect => g.disconnect_cb
  | GateOp.reconnect => g.reconnect_cb

/-- The transport path after a sequence of events, from boot. -/
def Gate.run (ops : List GateOp) : Gate := ops.foldl Gate.step {}

/-- The builders released in a record, in order (with repetitions). -/
def released_ids : List BufferEvent → List Nat
  | [] => []
  | BufferEvent.released id :: rest => id :: released_ids rest
  | _ :: rest => released_ids rest

/-- No builder is handed to `espconn_send` after it was released. -/
def never_sent_after_release (events : List BufferEvent) : Prop :=
  ∀ (i j id : Nat), events[i]? = some (BufferEvent.released id) →
    events[j]? = some (BufferEvent.sent id) → j < i

/-- A record of buffer events is in order for `count` builders created and a
`value_buf` pointing to `vb`: every released builder was created before, the
released builders are pairwise distinct, `vb` was created and not released,
and no builder was sent after its release. -/
def ledger_ok (count : Nat) (events : List BufferEvent) (vb : Option Nat) : Prop :=
  (∀ id ∈ released_ids events, id < count) ∧ (released_ids events).Nodup ∧
  (∀ id, vb = some id → id < count ∧ id ∉ released_ids events) ∧
  never_sent_after_release events

/-- Invariant of the transport path. -/
def Gate.inv (g : Gate) : Prop := ledger_ok g.count g.events g.value_buf

/-! ## Executions without history -/

/-- Run a sequence of events. -/
def exec (s : State) (evs : List Event) : Option State := evs.foldlM step s

/-- The if-chain of the receive loop that stores or discards one received
character: the state afterwards and the index of `rx_buffer` stored into, if
any. -/
def uart_rx_accumulate (s : State) (rx_char : Nat) : State × Option Nat :=
  if rx_char = 0 ∧ s.rx_buffer_len = 0 then (s, none)
  else if s.rx_buffer_len ≥ RX_BUFFER_LENGTH then (s, none)
  else
    ({ s with
        rx_buffer := s.rx_buffer.set s.rx_buffer_len rx_char
        rx_buffer_len := (s.rx_buffer_len + 1) % 256 },
      some s.rx_buffer_len)

/-- Invariant of the exchange: the index is a valid catalog index or the
sentinel `(uint8_t)-1`, the receive buffer has its 16 bytes, the expected
frame length fits the buffer and the accumulator is not full. -/
def exchange_invariant (s : State) : Prop :=
  (s.current_command_index < COMMAND_COUNT ∨ s.current_command_index = to_u8 (-1)) ∧
  s.rx_buffer.length = RX_BUFFER_LENGTH ∧ s.expected_len ≤ RX_BUFFER_LENGTH ∧
  s.rx_buffer_len < RX_BUFFER_LENGTH

/-! ## The server's answer: `response_cb` -/

/-- `static const uint8_t DISCONNECT_PRI = 1`. -/
def DISCONNECT_PRI : Nat := 1

/-- What `response_cb` prints: the first eight bytes of an answer whose header
is not the expected one, or the error message for a status other than 200
(with the status accumulated). -/
inductive ResponseDiag where
  | unexpected_header (bytes : List Nat)
  | server_error (status : Nat)
deriving DecidableEq

/-- The condition of the header test of `response_cb`, operand by operand with
the short-circuit of `||` (the byte at offset 7 is not read): `some true` when
the answer does not start with `HTTP/1.? `. -/
def header_mismatch (data : List Nat) : Option Bool :=
  (data[0]?).bind fun d0 =>
  if d0 ≠ 'H'.toNat then some true else
  (data[1]?).bind fun d1 =>
  if d1 ≠ 'T'.toNat then some true else
  (data[2]?).bind fun d2 =>
  if d2 ≠ 'T'.toNat then some true else
  (data[3]?).bind fun d3 =>
  if d3 ≠ 'P'.toNat then some true else
  (data[4]?).bind fun d4 =>
  if d4 ≠ '/'.toNat then some true else
  (data[5]?).bind fun d5 =>
  if d5 ≠ '1'.toNat then some true else
  (data[6]?).bind fun d6 =>
  if d6 ≠ '.'.toNat then some true else
  (data[8]?).bind fun d8 =>
  some (decide (d8 ≠ ' '.toNat))

/-- The loop `for (uint16_t ii = 9; ii < len; ii++)` of `response_cb`: first
argument is the number of iterations still to run, `status` the `uint16_t`
accumulator; the loop is left at the first byte that is not a digit. -/
def status_loop (data : List Nat) : Nat → Nat → Nat → Option Nat
  | 0, _, status => some status
  | n + 1, ii, status =>
    (data[ii]?).bind fun c =>
    if '0'.toNat ≤ c ∧ c ≤ '9'.toNat then
      status_loop data n (ii + 1) ((status * 10 + (c - '0'.toNat)) % 65536)
    else some status

/-- The function `response_cb(arg, data, len)`; `len` is a `uint16_t`. The
result is the state afterwards, what was printed and the tasks posted with
`system_os_post` (priority, signal, parameter). `none` when a byte outside
`data` is read. -/
def response_cb (s : State) (data : List Nat) (len : Nat) :
    Option (State × List ResponseDiag × List (Nat × Nat × Nat)) :=
  if s.awaiting_response = false then some (s, [], [])
  else
    let s1 : State := { s with awaiting_response := false }
    (header_mismatch data).bind fun bad =>
    if bad = true then
      (mem_read data 8).bind fun bytes =>
      some (s1, [ResponseDiag.unexpected_header bytes], [(DISCONNECT_PRI, 0, 0)])
    else
      (status_loop data (len % 65536 - 9) 9 0).bind fun status =>
      if status ≠ 200 then
        some (s1, [ResponseDiag.server_error status], [(DISCONNECT_PRI, 0, 0)])
      else some (s1, [], [(DISCONNECT_PRI, 0, 0)])

/-- The number a run of decimal digit characters denotes. -/
def decimal_value (digits : List Nat) : Nat :=
  digits.foldl (fun acc c => acc * 10 + (c - '0'.toNat)) 0

/-- An answer of the server: `HTTP/1.`, any character `x`, a blank, a run of
characters `digits` and the characters `rest`. -/
def http_response (x : Nat) (digits rest : List Nat) : List Nat :=
  cstr "HTTP/1." ++ [x] ++ cstr " " ++ digits ++ rest

/-! ## Stores of an append -/

/-- The indices of `buf->buf` that `append_string_builder` stores into once the
builder has been grown: the `os_memmove` of the characters of `str` to
`&buf->buf[buf->len]` and the store `buf->buf[buf->len + len] = 0` with
`len = os_strlen(str) + 1`. -/
def append_string_builder_stores (b : string_builder) (str : List Nat) : List Nat :=
  (List.range (os_strlen str)).map (fun k => b.len + k) ++ [b.len + (os_strlen str + 1)]

/-- The indices of `buf->buf` that `append_string_builder_to_string_builder`
stores into once the builder has been grown: the `os_memmove` of
`source->len + 1` bytes to `&buf->buf[buf->len]`. -/
def append_string_builder_to_string_builder_stores (b source : string_builder) : List Nat :=
  (List.range (source.len + 1)).map (fun k => b.len + k)

/-- The growth step of `append_string_builder_to_string_builder`: the builder
after the call of `resize_string_builder` when the source does not fit. -/
def append_to_growth (heap : Heap) (b source : string_builder) :
    Option (Bool × string_builder × Heap) :=
  let free : Int := (b.allocated : Int) - b.len - 1
  if free < (source.len : Int) + 1 then
    resize_string_builder heap b (to_u32 ((source.len : Int) - free + 1))
  else some (true, b, heap)

/-! # Properties -/

set_option maxRecDepth 4000

theorem crc_shift_lt (c : Nat) : crc_shift c < 65536 := by
  unfold crc_shift
  split <;> exact Nat.mod_lt _ (by norm_num)

theorem crc_shift_eq_spec (c : Nat) (h : c < 65536) : crc_shift c = crc16_spec_step c := by
  unfold crc_shift crc16_spec_step POLY
  have h1 : c >>> 1 < 2 ^ 16 := by
    rw [Nat.shiftRight_eq_div_pow]; omega
  have h2 : (c >>> 1) ^^^ 40961 < 2 ^ 16 := Nat.xor_lt_two_pow h1 (by norm_num)
  have h3 : c &&& 1 = c % 2 := Nat.and_one_is_mod c
  rw [h3]
  by_cases hc : c % 2 = 1
  · have : c % 2 ≠ 0 := by omega
    simp only [hc, this, ne_eq, not_false_eq_true, if_true]
    exact Nat.mod_eq_of_lt h2
  · have : c % 2 = 0 := by omega
    simp only [this, ne_eq, not_true_eq_false, if_false]
    rw [if_neg (by omega)]
    exact Nat.mod_eq_of_lt h1

theorem crc16_spec_step_lt (c : Nat) (h : c < 65536) : crc16_spec_step c < 65536 := by
  rw [← crc_shift_eq_spec c h]; exact crc_shift_lt c

theorem crc_inner_lt (n c : Nat) (h : c < 65536) : crc_inner n c < 65536 := by
  induction n generalizing c with
  | zero => simpa [crc_inner] using h
  | succ n ih => simp only [crc_inner]; exact ih _ (crc_shift_lt c)

theorem crc_inner_eight (c : Nat) (h : c < 65536) :
    crc_inner 8 c = crc16_spec_step (crc16_spec_step (crc16_spec_step (crc16_spec_step
      (crc16_spec_step (crc16_spec_step (crc16_spec_step (crc16_spec_step c))))))) := by
  have e := crc_shift_eq_spec
  have l := crc16_spec_step_lt
  simp only [crc_inner]
  rw [e c h, e _ (l _ h), e _ (l _ (l _ h)), e _ (l _ (l _ (l _ h))),
    e _ (l _ (l _ (l _ (l _ h)))), e _ (l _ (l _ (l _ (l _ (l _ h))))),
    e _ (l _ (l _ (l _ (l _ (l _ (l _ h)))))), e _ (l _ (l _ (l _ (l _ (l _ (l _ (l _ h)))))))]

theorem crc_byte_eq_spec (c b : Nat) (hc : c < 65536) (hb : b < 256) :
    crc_inner 8 ((c ^^^ b) % 65536) = crc16_spec_byte c b := by
  have hx : c ^^^ b < 2 ^ 16 := Nat.xor_lt_two_pow (by simpa using hc) (by norm_num; omega)
  rw [Nat.mod_eq_of_lt (by simpa using hx), crc_inner_eight _ (by simpa using hx)]
  rfl

theorem crc16_spec_byte_lt (c b : Nat) (hc : c < 65536) (hb : b < 256) :
    crc16_spec_byte c b < 65536 := by
  rw [← crc_byte_eq_spec c b hc hb]
  exact crc_inner_lt _ _ (Nat.mod_lt _ (by norm_num))

theorem crc_outer_lt (packet : List Nat) (n ii c : Nat) (h : c < 65536) :
    crc_outer packet n ii c < 65536 := by
  induction n generalizing ii c with
  | zero => simpa [crc_outer] using h
  | succ n ih =>
    simp only [crc_outer]
    exact ih _ _ (crc_inner_lt _ _ (Nat.mod_lt _ (by norm_num)))

theorem calculate_crc16_lt (packet : List Nat) (end_ : Nat) :
    calculate_crc16 packet end_ < 65536 :=
  crc_outer_lt packet _ _ 0 (by norm_num)

theorem crc_outer_eq_foldl (packet : List Nat) (hb : ∀ b ∈ packet, b < 256) (n ii c : Nat)
    (hc : c < 65536) (hlen : ii + n ≤ packet.length) :
    crc_outer packet n ii c = ((packet.drop ii).take n).foldl crc16_spec_byte c := by
  induction n generalizing ii c with
  | zero => simp [crc_outer]
  | succ n ih =>
    have hii : ii < packet.length := by omega
    have hd : packet.drop ii = packet[ii] :: packet.drop (ii + 1) := by
      rw [List.drop_eq_getElem_cons hii]
    have hg : packet.getD ii 0 = packet[ii] := by
      simp [List.getD_eq_getElem?_getD, List.getElem?_eq_getElem hii]
    have hlt : packet[ii] < 256 := hb _ (List.getElem_mem hii)
    simp only [crc_outer]
    rw [hg, crc_byte_eq_spec c _ hc hlt, ih (ii + 1) _ (crc16_spec_byte_lt c _ hc hlt) (by omega),
      hd, List.take_succ_cons, List.foldl_cons]

theorem calculate_crc16_eq_spec (packet : List Nat) (end_ : Nat)
    (hb : ∀ b ∈ packet, b < 256) (hlen : end_ ≤ packet.length) :
    calculate_crc16 packet end_ = crc16_spec packet end_ := by
  unfold calculate_crc16 crc16_spec
  rcases Nat.eq_zero_or_pos end_ with h0 | hpos
  · subst h0; simp [crc_outer]
  · rw [crc_outer_eq_foldl packet hb _ 1 0 (by norm_num) (by omega)]
    congr 1
    rw [List.drop_take]

theorem crc_outer_append (a rest : List Nat) (n ii c : Nat) (h : ii + n ≤ a.length) :
    crc_outer (a ++ rest) n ii c = crc_outer a n ii c := by
  induction n generalizing ii c with
  | zero => simp [crc_outer]
  | succ n ih =>
    have hii : ii < a.length := by omega
    simp only [crc_outer]
    rw [ih _ _ (by omega)]
    congr 3
    simp [List.getD_eq_getElem?_getD, List.getElem?_append_left hii]

theorem crc_outer_cons (b0 b1 : Nat) (l : List Nat) (n ii c : Nat) :
    crc_outer (b0 :: l) n (ii + 1) c = crc_outer (b1 :: l) n (ii + 1) c := by
  induction n generalizing ii c with
  | zero => simp [crc_outer]
  | succ n ih =>
    simp only [crc_outer, List.getD_cons_succ]
    exact ih _ _

/-! ### Bit arithmetic of the checksum bytes -/

theorem and_ff_eq_mod (c : Nat) : c &&& 0xFF = c % 256 :=
  Nat.and_pow_two_sub_one_eq_mod c 8

theorem shiftRight_and_ff00 (c : Nat) : (c &&& 0xFF00) >>> 8 = (c >>> 8) &&& 0xFF := by
  have h1 : (0xFF00 : Nat) = 0xFF <<< 8 := by decide
  rw [h1]
  apply Nat.eq_of_testBit_eq
  intro j
  simp only [Nat.testBit_shiftRight, Nat.testBit_and, Nat.testBit_shiftLeft]
  have h2 : decide (8 + j ≥ 8) = true := by simp
  rw [h2, Nat.add_sub_cancel_left, Bool.true_and]

theorem shiftLeft_and_ff00 (hi : Nat) : (hi <<< 8) &&& 0xFF00 = (hi &&& 0xFF) <<< 8 := by
  have h1 : (0xFF00 : Nat) = 0xFF <<< 8 := by decide
  rw [h1]
  apply Nat.eq_of_testBit_eq
  intro j
  simp only [Nat.testBit_shiftRight, Nat.testBit_and, Nat.testBit_shiftLeft]
  cases decide (j ≥ 8) <;> simp

theorem and_ff00_shift (c : Nat) (h : c < 65536) : (c &&& 0xFF00) >>> 8 = c / 256 := by
  rw [shiftRight_and_ff00, and_ff_eq_mod, Nat.shiftRight_eq_div_pow]
  omega

theorem shift_eight (c : Nat) : c >>> 8 = c / 256 := by
  rw [Nat.shiftRight_eq_div_pow]

theorem or_shift_eq_add (lo hi : Nat) (hlo : lo < 256) : lo ||| (hi <<< 8) = lo + 256 * hi := by
  have h4 : 2 ^ 8 * hi + lo = 2 ^ 8 * hi ||| lo := Nat.mul_add_lt_is_or (by omega) hi
  rw [Nat.shiftLeft_eq, Nat.lor_comm, Nat.mul_comm hi, ← h4]
  omega

theorem msg_crc_eq (lo hi : Nat) (hlo : lo < 256) (hhi : hi < 256) :
    ((lo &&& 0xFF) ||| ((hi <<< 8) &&& 0xFF00)) % 65536 = lo + 256 * hi := by
  have h2 : lo &&& 0xFF = lo := by rw [and_ff_eq_mod]; omega
  have h3 : hi &&& 0xFF = hi := by rw [and_ff_eq_mod]; omega
  rw [shiftLeft_and_ff00, h2, h3, or_shift_eq_add lo hi hlo]
  omega

theorem crc_bytes_recompose (c : Nat) (h : c < 65536) :
    ((c % 256 &&& 0xFF) ||| (((c / 256) <<< 8) &&& 0xFF00)) % 65536 = c := by
  rw [msg_crc_eq _ _ (by omega) (by omega)]; omega

/-! ### The catalog tables -/

theorem getElem?_eq_some_getD {α : Type} (l : List α) (i : Nat) (d : α) (h : i < l.length) :
    l[i]? = some (l.getD i d) := by
  simp [List.getD_eq_getElem?_getD, List.getElem?_eq_getElem h]

theorem COMMANDS_length : COMMANDS.length = 47 := by decide

theorem COMMAND_LENGTHS_length : COMMAND_LENGTHS.length = 47 := by decide

theorem COMMAND_TAGS_length : COMMAND_TAGS.length = 47 := by decide

theorem COMMANDS_get (i : Nat) (h : i < COMMAND_COUNT) :
    COMMANDS[i]? = some (COMMANDS.getD i (0, 0)) :=
  getElem?_eq_some_getD _ _ _ (by rw [COMMANDS_length]; unfold COMMAND_COUNT at h; omega)

theorem COMMAND_LENGTHS_get (i : Nat) (h : i < COMMAND_COUNT) :
    COMMAND_LENGTHS[i]? = some (COMMAND_LENGTHS.getD i 0) :=
  getElem?_eq_some_getD _ _ _ (by rw [COMMAND_LENGTHS_length]; unfold COMMAND_COUNT at h; omega)

theorem COMMAND_LENGTHS_two_or_four :
    ∀ i < COMMAND_COUNT, COMMAND_LENGTHS.getD i 0 = 2 ∨ COMMAND_LENGTHS.getD i 0 = 4 := by
  decide

theorem COMMANDS_bytes :
    ∀ i < COMMAND_COUNT, (COMMANDS.getD i (0, 0)).1 < 256 ∧ (COMMANDS.getD i (0, 0)).2 < 256 := by
  decide

/-! ### `send_data_request` -/

theorem send_data_request_eq (s : State) (i : Nat) (hi : i < COMMAND_COUNT)
    (hidx : s.current_command_index = i) :
    send_data_request s = some { s with
      data_len := COMMAND_LENGTHS.getD i 0
      expected_len := COMMAND_LENGTHS.getD i 0 + 9
      serial_rx_timer := some (10000, 0)
      gpio4 := false
      uart1_tx := s.uart1_tx ++ request_frame i } := by
  have hc := calculate_crc16_lt
    [STX, INVERTER_ADDR, INVERTER_ID, COMMAND_LEN, (COMMANDS.getD i (0, 0)).1,
      (COMMANDS.getD i (0, 0)).2] 6
  have hl : (COMMAND_LENGTHS.getD i 0 + PACKET_OVERHEAD + COMMAND_LEN) % 256
      = COMMAND_LENGTHS.getD i 0 + 9 := by
    rcases COMMAND_LENGTHS_two_or_four i hi with h | h <;> rw [h] <;> decide
  unfold send_data_request
  rw [hidx, COMMANDS_get i hi, COMMAND_LENGTHS_get i hi]
  simp only [Option.some_bind, hl]
  rw [and_ff00_shift _ hc, and_ff_eq_mod]
  unfold request_frame
  simp only [and_ff_eq_mod, shift_eight]
  have e1 : ∀ c : Nat, c % 256 % 256 = c % 256 := fun c => by omega
  have e2 : ∀ c : Nat, c < 65536 → c / 256 % 256 = c / 256 := fun c h => by omega
  rw [e1, e2 _ hc]
  rfl

/-! ### The receive loop -/

theorem index_ne_sentinel (n : Nat) : ((n : Int) ≠ -1) = True := by
  simp only [ne_eq, eq_iff_iff, iff_true]; omega

theorem uart_rx_task_single (s : State) (b : Nat) :
    uart_rx_task s 0 [b] = uart_rx_byte s b := by
  unfold uart_rx_task
  simp only [index_ne_sentinel, if_true, List.foldlM_cons, List.foldlM_nil, bind_pure]

theorem feed_bytes_cons (s : State) (b : Nat) (bs : List Nat) :
    feed_bytes s (b :: bs) = (uart_rx_byte s b).bind fun t => feed_bytes t bs := by
  unfold feed_bytes
  simp only [List.foldlM_cons, uart_rx_task_single]
  rfl

theorem feed_bytes_nil (s : State) : feed_bytes s [] = some s := rfl

theorem set_eq_take_cons_drop (buf : List Nat) (n b : Nat) (h : n < buf.length) :
    buf.set n b = buf.take n ++ b :: buf.drop (n + 1) := by
  rw [List.set_eq_take_append_cons_drop, if_pos h]

theorem uart_rx_byte_store (s : State) (b : Nat) (hb : b < 256)
    (hlen : s.rx_buffer_len < s.rx_buffer.length) (h16 : s.rx_buffer.length = 16)
    (hz : s.rx_buffer_len = 0 → b ≠ 0) (hexp : s.rx_buffer_len + 1 < s.expected_len) :
    uart_rx_byte s b = some { s with
      rx_buffer := s.rx_buffer.take s.rx_buffer_len ++ b :: s.rx_buffer.drop (s.rx_buffer_len + 1)
      rx_buffer_len := s.rx_buffer_len + 1 } := by
  unfold uart_rx_byte RX_BUFFER_LENGTH
  have h1 : b % 256 = b := Nat.mod_eq_of_lt hb
  have h2 : ¬ (b = 0 ∧ s.rx_buffer_len = 0) := fun h => hz h.2 h.1
  have h3 : ¬ s.rx_buffer_len ≥ 16 := by omega
  have h4 : (s.rx_buffer_len + 1) % 256 = s.rx_buffer_len + 1 := by omega
  simp only [h1, h2, h3, h4, if_false, set_eq_take_cons_drop _ _ _ hlen]
  rw [if_neg (by simp only [ge_iff_le, not_le]; exact hexp)]

theorem uart_rx_byte_complete (s : State) (b : Nat) (hb : b < 256)
    (hlen : s.rx_buffer_len < s.rx_buffer.length) (h16 : s.rx_buffer.length = 16)
    (hz : s.rx_buffer_len = 0 → b ≠ 0) (hexp : s.rx_buffer_len + 1 = s.expected_len) :
    uart_rx_byte s b = (process_response { s with
      rx_buffer := s.rx_buffer.take s.rx_buffer_len ++ b :: s.rx_buffer.drop (s.rx_buffer_len + 1)
      rx_buffer_len := s.rx_buffer_len + 1 }).map fun t => { t with rx_buffer_len := 0 } := by
  unfold uart_rx_byte RX_BUFFER_LENGTH
  have h1 : b % 256 = b := Nat.mod_eq_of_lt hb
  have h2 : ¬ (b = 0 ∧ s.rx_buffer_len = 0) := fun h => hz h.2 h.1
  have h3 : ¬ s.rx_buffer_len ≥ 16 := by omega
  have h4 : (s.rx_buffer_len + 1) % 256 = s.rx_buffer_len + 1 := by omega
  simp only [h1, h2, h3, h4, if_false, set_eq_take_cons_drop _ _ _ hlen]
  rw [if_pos (by simp only [ge_iff_le]; omega)]

theorem take_succ_of_splice (buf : List Nat) (n b : Nat) (h : n < buf.length) :
    (buf.take n ++ b :: buf.drop (n + 1)).take (n + 1) = buf.take n ++ [b] := by
  have hl : (buf.take n).length = n := by rw [List.length_take]; omega
  rw [List.take_append_eq_append_take, hl, List.take_of_length_le (by omega)]
  simp

theorem drop_of_splice (buf : List Nat) (n b k : Nat) (h : n < buf.length) :
    (buf.take n ++ b :: buf.drop (n + 1)).drop (n + 1 + k) = buf.drop (n + 1 + k) := by
  have hl : (buf.take n).length = n := by rw [List.length_take]; omega
  rw [List.drop_append_eq_append_drop, hl, List.drop_of_length_le (by omega)]
  have : n + 1 + k - n = (k + 1) := by omega
  rw [this, List.nil_append, List.drop_succ_cons, List.drop_drop]

theorem length_of_splice (buf : List Nat) (n b : Nat) (h : n < buf.length) :
    (buf.take n ++ b :: buf.drop (n + 1)).length = buf.length := by
  simp only [List.length_append, List.length_take, List.length_cons, List.length_drop]
  omega

/-- Feeding the bytes of a complete frame one by one stores them into the
accumulator and runs `process_response` on the last one. -/
theorem feed_bytes_frame (bs : List Nat) : ∀ (s : State) (n : Nat),
    s.rx_buffer_len = n → bs ≠ [] → n + bs.length = s.expected_len →
    n + bs.length ≤ 16 → s.rx_buffer.length = 16 → (∀ b ∈ bs, b < 256) →
    (n = 0 → bs.head? ≠ some 0) →
    feed_bytes s bs = (process_response { s with
      rx_buffer := s.rx_buffer.take n ++ bs ++ s.rx_buffer.drop (n + bs.length)
      rx_buffer_len := n + bs.length }).map fun t => { t with rx_buffer_len := 0 } := by
  induction bs with
  | nil => intro s n _ h; exact absurd rfl h
  | cons b bs ih =>
    intro s n hn _ hexp h16 hbuf hbytes hz
    have hb : b < 256 := hbytes b (List.mem_cons_self _ _)
    have hlen : s.rx_buffer_len < s.rx_buffer.length := by
      simp only [List.length_cons] at h16; omega
    have hz' : s.rx_buffer_len = 0 → b ≠ 0 := by
      intro h0 hb0
      apply hz (by omega)
      simp [hb0]
    rw [feed_bytes_cons]
    by_cases hbs : bs = []
    · subst hbs
      rw [uart_rx_byte_complete s b hb hlen hbuf hz' (by simp at hexp; omega)]
      simp only [feed_bytes_nil, List.length_cons, List.length_nil, hn]
      cases h : process_response _ <;> simp [h, List.append_assoc]
    · rw [uart_rx_byte_store s b hb hlen hbuf hz' (by
        have : 0 < bs.length := List.length_pos.mpr hbs
        simp only [List.length_cons] at hexp; omega)]
      simp only [Option.some_bind]
      rw [ih _ (n + 1) (by simp [hn]) hbs (by simp only [List.length_cons] at hexp ⊢; omega)
        (by simp only [List.length_cons] at h16; omega)
        (by simp only; rw [hn]; rw [length_of_splice _ _ _ (by omega)]; exact hbuf)
        (fun x hx => hbytes x (List.mem_cons_of_mem _ hx)) (by omega)]
      simp only [hn, List.length_cons]
      rw [take_succ_of_splice _ _ _ (by omega), drop_of_splice _ _ _ _ (by omega)]
      have e1 : n + 1 + bs.length = n + (bs.length + 1) := by omega
      simp only [e1, List.append_assoc, List.singleton_append]

/-! ### `process_response` on a well-formed reply -/

theorem calculate_crc16_append (a rest : List Nat) (n : Nat) (h : n ≤ a.length) :
    calculate_crc16 (a ++ rest) n = calculate_crc16 a n := by
  unfold calculate_crc16
  rcases Nat.eq_zero_or_pos n with h0 | hpos
  · subst h0; simp [crc_outer]
  · exact crc_outer_append a rest _ 1 0 (by omega)

theorem length_eq_four {l : List Nat} (h : l.length = 4) : ∃ a b c d, l = [a, b, c, d] := by
  match l, h with
  | [a, b, c, d], _ => exact ⟨a, b, c, d, rfl⟩

theorem be_value_two (p0 p1 : Nat) : be_value [p0, p1] = p0 * 256 + p1 := by
  simp [be_value]

theorem be_value_four (p0 p1 p2 p3 : Nat) :
    be_value [p0, p1, p2, p3] = ((p0 * 256 + p1) * 256 + p2) * 256 + p3 := by
  simp [be_value]

theorem to_u32_to_i32_add (x z : Int) : to_u32 (to_i32 x + z) = to_u32 (x + z) := by
  unfold to_u32 to_i32
  congr 1
  omega

theorem to_u32_to_i32 (x : Int) : to_u32 (to_i32 x) = to_u32 x := by
  have h := to_u32_to_i32_add x 0
  simpa using h

theorem to_u32_of_lt (n : Nat) (h : n < 4294967296) : to_u32 (n : Int) = n := by
  unfold to_u32
  omega

theorem store_two (p0 p1 : Nat) (h0 : p0 < 256) (h1 : p1 < 256) :
    to_u32 (to_i32 (((p0 <<< 8 : Nat) : Int) + p1)) = be_value [p0, p1] := by
  rw [be_value_two, Nat.shiftLeft_eq, to_u32_to_i32]
  have e : (((p0 * 2 ^ 8 : Nat) : Int) + (p1 : Int)) = ((p0 * 256 + p1 : Nat) : Int) := by
    push_cast; ring
  rw [e, to_u32_of_lt _ (by omega)]

theorem store_four (p0 p1 p2 p3 : Nat) (h0 : p0 < 256) (h1 : p1 < 256) (h2 : p2 < 256)
    (h3 : p3 < 256) :
    to_u32 (to_i32 (to_i32 (to_i32 (to_i32 ((p0 <<< 24 : Nat) : Int) + ((p1 <<< 16 : Nat) : Int))
        + ((p2 <<< 8 : Nat) : Int)) + p3)) = be_value [p0, p1, p2, p3] := by
  rw [be_value_four, to_u32_to_i32, to_u32_to_i32_add, Int.add_assoc, to_u32_to_i32_add,
    Int.add_assoc, to_u32_to_i32_add]
  simp only [Nat.shiftLeft_eq]
  have e : (((p0 * 2 ^ 24 : Nat) : Int) + (((p1 * 2 ^ 16 : Nat) : Int)
      + (((p2 * 2 ^ 8 : Nat) : Int) + (p3 : Int))))
      = ((((p0 * 256 + p1) * 256 + p2) * 256 + p3 : Nat) : Int) := by
    push_cast; ring
  rw [e, to_u32_of_lt _ (by omega)]

theorem process_response_accept (s : State) (i : Nat) (payload rest : List Nat)
    (hi : i < COMMAND_COUNT) (hpl : payload.length = COMMAND_LENGTHS.getD i 0)
    (hbytes : ∀ b ∈ payload, b < 256)
    (hbuf : s.rx_buffer = reply_frame i payload ++ rest)
    (hidx : s.current_command_index = i) (hdl : s.data_len = COMMAND_LENGTHS.getD i 0)
    (hval : s.inverter_values.length = COMMAND_COUNT) :
    process_response s =
      if i = COMMAND_COUNT - 1 then
        process_response_report { s with
          serial_rx_timer := none
          log := s.log ++ [Diag.accepted i]
          inverter_values := s.inverter_values.set i (be_value payload) }
      else
        send_data_request { s with
          serial_rx_timer := none
          log := s.log ++ [Diag.accepted i]
          inverter_values := s.inverter_values.set i (be_value payload)
          current_command_index := i + 1 } := by
  obtain ⟨hc1, hc2⟩ := COMMANDS_bytes i hi
  have hC := COMMANDS_get i hi
  have hLget := COMMAND_LENGTHS_get i hi
  have hL := COMMAND_LENGTHS_two_or_four i hi
  have hi1 : (i + 1) % 256 = i + 1 := by unfold COMMAND_COUNT at hi; omega
  have hcrc : calculate_crc16 s.rx_buffer (COMMAND_LENGTHS.getD i 0 + 6)
      = calculate_crc16 ([0x02, 0x06, 0x01, COMMAND_LENGTHS.getD i 0 + 2,
          (COMMANDS.getD i (0, 0)).1, (COMMANDS.getD i (0, 0)).2] ++ payload)
          (COMMAND_LENGTHS.getD i 0 + 6) := by
    rw [hbuf]
    unfold reply_frame
    simp only [List.append_assoc]
    rw [← List.append_assoc]
    exact calculate_crc16_append _ _ _ (by simp [hpl])
  have hclt := calculate_crc16_lt ([0x02, 0x06, 0x01, COMMAND_LENGTHS.getD i 0 + 2,
          (COMMANDS.getD i (0, 0)).1, (COMMANDS.getD i (0, 0)).2] ++ payload)
          (COMMAND_LENGTHS.getD i 0 + 6)
  unfold reply_frame at hbuf
  simp only [] at hbuf
  generalize calculate_crc16 ([0x02, 0x06, 0x01, COMMAND_LENGTHS.getD i 0 + 2,
          (COMMANDS.getD i (0, 0)).1, (COMMANDS.getD i (0, 0)).2] ++ payload)
          (COMMAND_LENGTHS.getD i 0 + 6) = c at hcrc hclt hbuf
  generalize COMMANDS.getD i (0, 0) = cmd at hC hc1 hc2 hbuf
  generalize COMMAND_LENGTHS.getD i 0 = l at hpl hdl hLget hL hcrc hbuf
  have hrec := crc_bytes_recompose c hclt
  unfold COMMAND_COUNT at hval
  have hlt : i < s.inverter_values.length := by rw [hval]; exact hi
  rw [hbuf] at hcrc
  rcases hL with rfl | rfl
  · obtain ⟨p0, p1, rfl⟩ := List.length_eq_two.mp hpl
    have hp0 : p0 < 256 := hbytes p0 (by simp)
    have hp1 : p1 < 256 := hbytes p1 (by simp)
    simp only [List.cons_append, List.nil_append, Nat.reduceAdd] at hbuf hcrc
    unfold process_response framing_mismatch process_response_check process_response_store
      set_inverter_value
    simp [hbuf, hidx, hdl, hC, hLget, hcrc, hrec, STX, GATEWAY_ADDR, INVERTER_ID, ETX,
      COMMAND_LEN, COMMAND_COUNT, hi1, store_two p0 p1 hp0 hp1, hlt]
  · obtain ⟨p0, p1, p2, p3, rfl⟩ := length_eq_four hpl
    have hp0 : p0 < 256 := hbytes p0 (by simp)
    have hp1 : p1 < 256 := hbytes p1 (by simp)
    have hp2 : p2 < 256 := hbytes p2 (by simp)
    have hp3 : p3 < 256 := hbytes p3 (by simp)
    simp only [List.cons_append, List.nil_append, Nat.reduceAdd] at hbuf hcrc
    unfold process_response framing_mismatch process_response_check process_response_store
      set_inverter_value
    simp [hbuf, hidx, hdl, hC, hLget, hcrc, hrec, STX, GATEWAY_ADDR, INVERTER_ID, ETX,
      COMMAND_LEN, COMMAND_COUNT, hi1, store_four p0 p1 p2 p3 hp0 hp1 hp2 hp3, hlt]

/-! ### A complete exchange -/

theorem reply_frame_length (i : Nat) (payload : List Nat)
    (hpl : payload.length = COMMAND_LENGTHS.getD i 0) :
    (reply_frame i payload).length = COMMAND_LENGTHS.getD i 0 + 9 := by
  unfold reply_frame
  simp [hpl]

theorem reply_frame_bytes (i : Nat) (payload : List Nat) (hi : i < COMMAND_COUNT)
    (hbytes : ∀ b ∈ payload, b < 256) : ∀ b ∈ reply_frame i payload, b < 256 := by
  obtain ⟨hc1, hc2⟩ := COMMANDS_bytes i hi
  have hL := COMMAND_LENGTHS_two_or_four i hi
  have hclt := calculate_crc16_lt ([0x02, 0x06, 0x01, COMMAND_LENGTHS.getD i 0 + 2,
    (COMMANDS.getD i (0, 0)).1, (COMMANDS.getD i (0, 0)).2] ++ payload)
    (COMMAND_LENGTHS.getD i 0 + 6)
  intro b hb
  unfold reply_frame at hb
  simp only [List.mem_append, List.mem_cons, List.mem_singleton, List.not_mem_nil,
    or_false] at hb
  rcases hb with (h | h) | h
  · rcases h with h | h | h | h | h | h <;> omega
  · exact hbytes b h
  · rcases h with h | h | h <;> omega

theorem feed_reply_frame (s : State) (i : Nat) (payload : List Nat)
    (hi : i < COMMAND_COUNT) (hA : Awaiting s i) (hempty : s.rx_buffer_len = 0)
    (hpl : payload.length = COMMAND_LENGTHS.getD i 0) (hbytes : ∀ b ∈ payload, b < 256) :
    feed_bytes s (reply_frame i payload) =
      (if i = COMMAND_COUNT - 1 then
        process_response_report { s with
          rx_buffer := reply_frame i payload ++ s.rx_buffer.drop (COMMAND_LENGTHS.getD i 0 + 9)
          rx_buffer_len := COMMAND_LENGTHS.getD i 0 + 9
          serial_rx_timer := none
          log := s.log ++ [Diag.accepted i]
          inverter_values := s.inverter_values.set i (be_value payload) }
      else
        send_data_request { s with
          rx_buffer := reply_frame i payload ++ s.rx_buffer.drop (COMMAND_LENGTHS.getD i 0 + 9)
          rx_buffer_len := COMMAND_LENGTHS.getD i 0 + 9
          serial_rx_timer := none
          log := s.log ++ [Diag.accepted i]
          inverter_values := s.inverter_values.set i (be_value payload)
          current_command_index := i + 1 }).map fun t => { t with rx_buffer_len := 0 } := by
  obtain ⟨_, ⟨hbuf, _, hval, _⟩, hidx, hdl, hexp⟩ := hA
  have hlen := reply_frame_length i payload hpl
  have hL := COMMAND_LENGTHS_two_or_four i hi
  have hne : reply_frame i payload ≠ [] := by
    intro h; rw [h] at hlen; simp at hlen
  have hhead : (reply_frame i payload).head? ≠ some 0 := by
    unfold reply_frame; simp
  unfold RX_BUFFER_LENGTH at hbuf
  rw [feed_bytes_frame (reply_frame i payload) s 0 hempty hne (by rw [hlen, hexp]; omega)
    (by rw [hlen]; omega) hbuf (reply_frame_bytes i payload hi hbytes) (fun _ => hhead)]
  simp only [List.take_zero, List.nil_append, Nat.zero_add, hlen]
  refine congrArg _ ?_
  exact process_response_accept _ i payload _ hi hpl hbytes rfl hidx hdl hval

/-- A well-formed reply to a command that is not the last one: the value is
stored, the index advances and the next request is sent. -/
theorem feed_reply_advances (s : State) (i : Nat) (payload : List Nat)
    (hi : i < COMMAND_COUNT - 1) (hA : Awaiting s i) (hempty : s.rx_buffer_len = 0)
    (hpl : payload.length = COMMAND_LENGTHS.getD i 0) (hbytes : ∀ b ∈ payload, b < 256) :
    ∃ s', feed_bytes s (reply_frame i payload) = some s' ∧
      s'.current_command_index = i + 1 ∧
      s'.inverter_values[i]? = some (be_value payload) ∧
      (∀ k, k ≠ i → s'.inverter_values[k]? = s.inverter_values[k]?) ∧
      s'.inverter_values.length = s.inverter_values.length ∧
      s'.rx_buffer_len = 0 ∧
      s'.uart1_tx = s.uart1_tx ++ request_frame (i + 1) ∧
      s'.expected_len = COMMAND_LENGTHS.getD (i + 1) 0 + 9 ∧
      s'.data_len = COMMAND_LENGTHS.getD (i + 1) 0 := by
  have hi' : i < COMMAND_COUNT := by unfold COMMAND_COUNT at hi ⊢; omega
  have hi1 : i + 1 < COMMAND_COUNT := by unfold COMMAND_COUNT at hi ⊢; omega
  have hne : i ≠ COMMAND_COUNT - 1 := by unfold COMMAND_COUNT at hi ⊢; omega
  have hval : i < s.inverter_values.length := by rw [hA.2.1.2.2.1]; exact hi'
  rw [feed_reply_frame s i payload hi' hA hempty hpl hbytes, if_neg hne,
    send_data_request_eq _ (i + 1) hi1 rfl]
  refine ⟨_, rfl, rfl, ?_, ?_, ?_, rfl, rfl, rfl, rfl⟩
  · simp [List.getElem?_set, hval]
  · intro k hk
    simp [List.getElem?_set, Ne.symm hk]
  · simp

/-! ### C strings -/

theorem os_strlen_of_nul_free (str : List Nat) (h : ∀ c ∈ str, c ≠ 0) :
    os_strlen str = str.length ∧ str.take (os_strlen str) = str := by
  have e : str.takeWhile (fun c => decide (c ≠ 0)) = str := by
    rw [List.takeWhile_eq_self_iff]
    intro c hc
    simpa using h c hc
  unfold os_strlen
  rw [e]
  exact ⟨rfl, List.take_length _⟩

theorem digitChar_ne_nul (d : Nat) (h : d < 10) : (Nat.digitChar d).toNat ≠ 0 := by
  interval_cases d <;> decide

theorem toDigitsCore_nul_free (fuel : Nat) : ∀ (n : Nat) (ds : List Char),
    (∀ c ∈ ds, c.toNat ≠ 0) → ∀ c ∈ Nat.toDigitsCore 10 fuel n ds, c.toNat ≠ 0 := by
  induction fuel with
  | zero => intro n ds h; simpa [Nat.toDigitsCore] using h
  | succ fuel ih =>
    intro n ds h
    have hd : (Nat.digitChar (n % 10)).toNat ≠ 0 := digitChar_ne_nul _ (Nat.mod_lt _ (by norm_num))
    have hds : ∀ c ∈ Nat.digitChar (n % 10) :: ds, c.toNat ≠ 0 := by
      intro c hc
      rcases List.mem_cons.mp hc with rfl | hc
      · exact hd
      · exact h c hc
    unfold Nat.toDigitsCore
    simp only
    split
    · exact hds
    · exact ih _ _ hds

theorem cstr_nat_nul_free (n : Nat) : ∀ c ∈ cstr (toString n), c ≠ 0 := by
  intro c hc
  unfold cstr at hc
  obtain ⟨ch, hch, rfl⟩ := List.mem_map.mp hc
  have : ch ∈ Nat.toDigits 10 n := by
    simpa [toString, Nat.repr, String.toList] using hch
  exact toDigitsCore_nul_free _ _ _ (by simp) ch this

theorem cstr_nat_length (n : Nat) (h : n < 10 ^ 10) : (cstr (toString n)).length ≤ 10 := by
  unfold cstr
  rw [List.length_map]
  exact Nat.repr_length n 10 (by norm_num) h

theorem sprintf_d_of_nonneg (n : Nat) : sprintf_d (n : Int) = cstr (toString n) := rfl

theorem sprintf_d_negSucc (n : Nat) :
    sprintf_d (Int.negSucc n) = 45 :: cstr (toString (n + 1)) := by
  unfold sprintf_d cstr
  show List.map Char.toNat ("-" ++ toString (n + 1)).toList = _
  simp [String.toList]

theorem sprintf_d_spec (val : Int) (hlo : -2147483648 ≤ val) (hhi : val < 2147483648) :
    (∀ c ∈ sprintf_d val, c ≠ 0) ∧ (sprintf_d val).length ≤ 11 := by
  cases val with
  | ofNat n =>
    have hn : n < 10 ^ 10 := by
      have : (n : Int) < 2147483648 := hhi
      norm_num; omega
    exact ⟨cstr_nat_nul_free n, Nat.le_succ_of_le (cstr_nat_length n hn)⟩
  | negSucc n =>
    rw [sprintf_d_negSucc]
    have hn : n + 1 < 10 ^ 10 := by
      have h1 : -2147483648 ≤ Int.negSucc n := hlo
      rw [Int.negSucc_eq] at h1
      norm_num; omega
    refine ⟨?_, ?_⟩
    · intro c hc
      rcases List.mem_cons.mp hc with rfl | hc
      · decide
      · exact cstr_nat_nul_free _ c hc
    · simp only [List.length_cons]
      have := cstr_nat_length (n + 1) hn
      omega

theorem to_i32_range (x : Int) : -2147483648 ≤ to_i32 x ∧ to_i32 x < 2147483648 := by
  unfold to_i32; omega

theorem to_i32_of_lt (n : Nat) (h : n < 2147483648) : to_i32 (n : Int) = n := by
  unfold to_i32; omega

/-! ### The string builder -/

theorem heap_succeeds_tail (r : Option (List Nat)) (rest : Heap)
    (h : heap_succeeds (r :: rest)) : heap_succeeds rest :=
  fun x hx => h x (List.mem_cons_of_mem _ hx)

theorem os_malloc_cases (heap : Heap) (n : Nat) :
    (∃ heap1, os_malloc heap n = (none, heap1) ∧ ¬ heap_succeeds heap) ∨
    (∃ blk heap1, os_malloc heap n = (some blk, heap1) ∧ blk.length = n ∧
      (heap_succeeds heap → heap_succeeds heap1)) := by
  match heap with
  | [] => exact Or.inr ⟨_, _, rfl, by simp, fun h => h⟩
  | none :: rest =>
    exact Or.inl ⟨rest, rfl, fun h => h none (List.mem_cons_self _ _) rfl⟩
  | some g :: rest =>
    refine Or.inr ⟨_, rest, rfl, ?_, heap_succeeds_tail _ _⟩
    simp

theorem create_string_builder_cases (heap : Heap) (initial_len : Int) (h16 : 16 ≤ initial_len) :
    (∃ heap1, create_string_builder heap initial_len = (none, heap1) ∧ ¬ heap_succeeds heap) ∨
    (∃ b heap1, create_string_builder heap initial_len = (some b, heap1) ∧ b.wf ∧
      b.len = 0 ∧ b.allocated = initial_len.toNat ∧ (heap_succeeds heap → heap_succeeds heap1)) := by
  unfold create_string_builder
  have hn : ¬ initial_len < 16 := by omega
  simp only [hn, if_false]
  rcases os_malloc_cases heap SIZEOF_STRING_BUILDER with ⟨heap1, h1, hf1⟩ | ⟨_, heap1, h1, _, hs1⟩
  · left; exact ⟨heap1, by rw [h1], hf1⟩
  · rw [h1]
    simp only
    rcases os_malloc_cases heap1 initial_len.toNat with ⟨heap2, h2, hf2⟩ | ⟨blk, heap2, h2, hl, hs2⟩
    · left; exact ⟨heap2, by rw [h2], fun h => hf2 (hs1 h)⟩
    · right
      refine ⟨_, heap2, by rw [h2], ⟨?_, ?_⟩, rfl, rfl, fun h => hs2 (hs1 h)⟩
      · simp [hl]
      · show 0 < initial_len.toNat
        omega

theorem resize_spec (heap : Heap) (b : string_builder) (add : Nat) (hwf : b.wf)
    (hbound : b.allocated ≤ 1073741824) (hadd : add ≤ b.allocated) :
    (∃ heap1, resize_string_builder heap b add = some (false, b, heap1) ∧ ¬ heap_succeeds heap) ∨
    (∃ b1 heap1, resize_string_builder heap b add = some (true, b1, heap1) ∧ b1.wf ∧
      b1.text = b.text ∧ b1.len = b.len ∧ b1.allocated = 2 * b.allocated ∧
      (heap_succeeds heap → heap_succeeds heap1)) := by
  obtain ⟨hlen, hlt⟩ := hwf
  have hu : ¬ to_u32 ((b.allocated : Int) + b.allocated - b.len) < add := by
    unfold to_u32; omega
  unfold resize_string_builder
  simp only [hu, if_false]
  rcases os_malloc_cases heap (b.allocated + b.allocated) with
    ⟨heap1, h1, hf1⟩ | ⟨blk, heap1, h1, hl, hs1⟩
  · left; exact ⟨heap1, by rw [h1], hf1⟩
  · right
    have hr : mem_read b.buf b.len = some (b.buf.take b.len) := by
      unfold mem_read; rw [if_pos (by omega)]
    have htl : (b.buf.take b.len).length = b.len := by rw [List.length_take]; omega
    have hw : mem_write blk 0 (b.buf.take b.len)
        = some (b.buf.take b.len ++ blk.drop b.len) := by
      unfold mem_write
      rw [if_pos (by rw [htl]; omega)]
      simp [htl]
    rw [h1]
    simp only [hr, hw, Option.some_bind]
    refine ⟨_, heap1, rfl, ⟨?_, ?_⟩, ?_, rfl, by simp only; omega, hs1⟩
    · simp only [List.length_append, htl, List.length_drop, hl]; omega
    · simp only; omega
    · unfold string_builder.text
      simp only
      rw [List.take_append_eq_append_take, htl, Nat.sub_self, List.take_zero, List.append_nil,
        List.take_take, Nat.min_self]

/-- The growth step shared by the append functions: `n` is the number of
characters to add and `add` the argument passed to `resize_string_builder`. -/
theorem grow_spec (heap : Heap) (b : string_builder) (n add : Nat) (hwf : b.wf)
    (hbound : b.allocated ≤ 1073741824) (hshort : n + 2 ≤ b.allocated)
    (hadd : (b.allocated : Int) - b.len - 1 < (n : Int) + 1 → add ≤ b.allocated) :
    (∃ heap1, (if (b.allocated : Int) - b.len - 1 < (n : Int) + 1
        then resize_string_builder heap b add else some (true, b, heap))
          = some (false, b, heap1) ∧ ¬ heap_succeeds heap) ∨
    (∃ b1 heap1, (if (b.allocated : Int) - b.len - 1 < (n : Int) + 1
        then resize_string_builder heap b add else some (true, b, heap))
          = some (true, b1, heap1) ∧ b1.wf ∧
      b1.text = b.text ∧ b1.len = b.len ∧ b.len + n + 2 ≤ b1.allocated ∧
      (b1.allocated = b.allocated ∨
        (b1.allocated = 2 * b.allocated ∧ b.allocated < b.len + n + 2)) ∧
      (heap_succeeds heap → heap_succeeds heap1)) := by
  by_cases hc : (b.allocated : Int) - b.len - 1 < (n : Int) + 1
  · simp only [hc, if_true]
    rcases resize_spec heap b add hwf hbound (hadd hc) with ⟨heap1, h1, hf⟩ | ⟨b1, heap1, h1, hw, ht, hl, ha, hs⟩
    · left; exact ⟨heap1, h1, hf⟩
    · right
      have := hwf.2
      exact ⟨b1, heap1, h1, hw, ht, hl, by omega, Or.inr ⟨ha, by omega⟩, hs⟩
  · simp only [hc, if_false]
    right
    exact ⟨b, heap, rfl, hwf, rfl, rfl, by omega, Or.inl rfl, fun h => h⟩

theorem append_string_builder_spec (heap : Heap) (b : string_builder) (str : List Nat)
    (hwf : b.wf) (hbound : b.allocated ≤ 1073741824) (hshort : os_strlen str + 2 ≤ b.allocated) :
    (∃ heap1, append_string_builder heap b str = some (false, b, heap1) ∧
      ¬ heap_succeeds heap) ∨
    (∃ b1 heap1, append_string_builder heap b str = some (true, b1, heap1) ∧ b1.wf ∧
      b1.text = b.text ++ str.take (os_strlen str) ∧ b1.len = b.len + os_strlen str ∧
      (b1.allocated = b.allocated ∨
        (b1.allocated = 2 * b.allocated ∧ b.allocated < b.len + os_strlen str + 2)) ∧
      (heap_succeeds heap → heap_succeeds heap1)) := by
  have hadd : (b.allocated : Int) - b.len - 1 < (os_strlen str : Int) + 1 →
      to_u32 ((os_strlen str : Int) + 1 - ((b.allocated : Int) - b.len - 1))
      ≤ b.allocated := by
    intro hc
    have := hwf.2
    unfold to_u32; omega
  unfold append_string_builder
  simp only []
  rcases grow_spec heap b (os_strlen str) _ hwf hbound hshort hadd with
    ⟨heap1, h1, hf⟩ | ⟨b1, heap1, h1, ⟨hbl, hlt⟩, ht, hl, hroom, ha, hs⟩
  · left
    refine ⟨heap1, ?_, hf⟩
    rw [h1]; rfl
  · right
    rw [h1]
    have hsl : (str.take (os_strlen str)).length = os_strlen str := by
      rw [List.length_take]
      have : os_strlen str ≤ str.length := by
        unfold os_strlen; exact (List.takeWhile_sublist _).length_le
      omega
    have hw1 : mem_write b1.buf b1.len (str.take (os_strlen str))
        = some (b1.buf.take b1.len ++ str.take (os_strlen str)
            ++ b1.buf.drop (b1.len + os_strlen str)) := by
      unfold mem_write
      rw [hsl, if_pos (by omega)]
    have hm1 : (b1.buf.take b1.len ++ str.take (os_strlen str)
        ++ b1.buf.drop (b1.len + os_strlen str)).length = b1.allocated := by
      simp only [List.length_append, List.length_take, hsl, List.length_drop]
      omega
    have hw2 : ∀ m : List Nat, m.length = b1.allocated →
        mem_write m (b1.len + (os_strlen str + 1)) [0]
          = some (m.take (b1.len + (os_strlen str + 1)) ++ [0]
            ++ m.drop (b1.len + (os_strlen str + 1) + 1)) := by
      intro m hm
      unfold mem_write
      rw [if_pos (by simp only [List.length_singleton]; omega)]
      rfl
    simp only [Option.some_bind, Bool.true_eq_false, if_false, hw1, hw2 _ hm1]
    refine ⟨_, heap1, rfl, ⟨?_, ?_⟩, ?_, by simp only [hl], ha, hs⟩
    · simp only [List.length_append, List.length_take, hm1, List.length_singleton,
        List.length_drop]
      omega
    · simp only; omega
    · unfold string_builder.text at ht ⊢
      simp only
      have htl : (b1.buf.take b1.len).length = b1.len := by rw [List.length_take]; omega
      rw [← ht]
      rw [List.take_append_of_le_length (by
        simp only [List.length_append, List.length_take, hm1, List.length_singleton]; omega)]
      rw [List.take_append_of_le_length (by
        simp only [List.length_take, hm1]; omega)]
      rw [List.take_take, Nat.min_eq_left (by omega)]
      rw [List.take_append_of_le_length (by
        simp only [List.length_append, htl, hsl]; omega)]
      rw [List.take_of_length_le (by simp only [List.length_append, htl, hsl]; omega)]

theorem append_string_builder_to_string_builder_spec (heap : Heap) (b source : string_builder)
    (hwf : b.wf) (hsrc : source.wf) (hbound : b.allocated ≤ 1073741824)
    (hshort : source.len + 2 ≤ b.allocated) :
    (∃ heap1, append_string_builder_to_string_builder heap b source = some (false, b, heap1) ∧
      ¬ heap_succeeds heap) ∨
    (∃ b1 heap1, append_string_builder_to_string_builder heap b source
        = some (true, b1, heap1) ∧ b1.wf ∧
      b1.text = b.text ++ source.text ∧ b1.len = b.len + source.len ∧
      (b1.allocated = b.allocated ∨
        (b1.allocated = 2 * b.allocated ∧ b.allocated < b.len + source.len + 2)) ∧
      (heap_succeeds heap → heap_succeeds heap1)) := by
  have hadd : (b.allocated : Int) - b.len - 1 < (source.len : Int) + 1 →
      to_u32 ((source.len : Int) - ((b.allocated : Int) - b.len - 1) + 1)
      ≤ b.allocated := by
    intro hc
    have := hwf.2
    unfold to_u32; omega
  unfold append_string_builder_to_string_builder
  simp only []
  rcases grow_spec heap b source.len _ hwf hbound hshort hadd with
    ⟨heap1, h1, hf⟩ | ⟨b1, heap1, h1, ⟨hbl, hlt⟩, ht, hl, hroom, ha, hs⟩
  · left
    refine ⟨heap1, ?_, hf⟩
    rw [h1]; rfl
  · right
    rw [h1]
    obtain ⟨hsl, hslt⟩ := hsrc
    have hr : mem_read source.buf (source.len + 1) = some (source.buf.take (source.len + 1)) := by
      unfold mem_read; rw [if_pos (by omega)]
    have hsrcl : (source.buf.take (source.len + 1)).length = source.len + 1 := by
      rw [List.length_take]; omega
    have hw1 : mem_write b1.buf b1.len (source.buf.take (source.len + 1))
        = some (b1.buf.take b1.len ++ source.buf.take (source.len + 1)
            ++ b1.buf.drop (b1.len + (source.len + 1))) := by
      unfold mem_write
      rw [hsrcl, if_pos (by omega)]
    simp only [Option.some_bind, Bool.true_eq_false, if_false, hr, hw1]
    have htl : (b1.buf.take b1.len).length = b1.len := by rw [List.length_take]; omega
    refine ⟨_, heap1, rfl, ⟨?_, ?_⟩, ?_, by simp only [hl], ha, hs⟩
    · simp only [List.length_append, htl, hsrcl, List.length_drop]
      omega
    · simp only; omega
    · unfold string_builder.text at ht ⊢
      simp only
      rw [← ht, List.append_assoc, List.take_append_eq_append_take, htl,
        List.take_of_length_le (by omega : (b1.buf.take b1.len).length ≤ b1.len + source.len)]
      congr 1
      rw [Nat.add_sub_cancel_left, List.take_append_of_le_length (by omega), List.take_take,
        Nat.min_eq_left (by omega)]

/-! ### Sequences of appends -/

/-- One append, whatever the allocator answers: it returns, keeps the builder
well formed, and when every allocation succeeds it adds exactly the string. -/
theorem append_string_builder_total (heap : Heap) (b : string_builder) (str : List Nat)
    (hwf : b.wf) (hbound : b.allocated ≤ 1073741824) (hnul : ∀ c ∈ str, c ≠ 0)
    (hshort : str.length + 2 ≤ b.allocated) :
    ∃ ok b1 heap1, append_string_builder heap b str = some (ok, b1, heap1) ∧ b1.wf ∧
      b.allocated ≤ b1.allocated ∧
      (b1.allocated = b.allocated ∨ b1.allocated ≤ 2 * b1.len + 4) ∧
      b.len ≤ b1.len ∧ b1.len ≤ b.len + str.length ∧
      (heap_succeeds heap → ok = true ∧ heap_succeeds heap1 ∧
        b1.text = b.text ++ str ∧ b1.len = b.len + str.length) := by
  obtain ⟨hsl, hst⟩ := os_strlen_of_nul_free str hnul
  rcases append_string_builder_spec heap b str hwf hbound (by rw [hsl]; exact hshort) with
    ⟨heap1, h1, hf⟩ | ⟨b1, heap1, h1, hw, ht, hl, ha, hs⟩
  · exact ⟨false, b, heap1, h1, hwf, le_refl _, Or.inl rfl, le_refl _, by omega,
      fun h => absurd h hf⟩
  · rw [hsl] at hl ha
    rw [hst] at ht
    refine ⟨true, b1, heap1, h1, hw, ?_, ?_, by omega, by omega,
      fun h => ⟨rfl, hs h, ht, hl⟩⟩
    · rcases ha with h | ⟨h, _⟩ <;> omega
    · rcases ha with h | ⟨h, h'⟩
      · exact Or.inl h
      · right; omega

theorem append_string_builder_to_string_builder_total (heap : Heap) (b source : string_builder)
    (hwf : b.wf) (hsrc : source.wf) (hbound : b.allocated ≤ 1073741824)
    (hshort : source.len + 2 ≤ b.allocated) :
    ∃ ok b1 heap1, append_string_builder_to_string_builder heap b source
        = some (ok, b1, heap1) ∧ b1.wf ∧
      b.allocated ≤ b1.allocated ∧
      (b1.allocated = b.allocated ∨ b1.allocated ≤ 2 * b1.len + 4) ∧
      b.len ≤ b1.len ∧ b1.len ≤ b.len + source.len ∧
      (heap_succeeds heap → ok = true ∧ heap_succeeds heap1 ∧
        b1.text = b.text ++ source.text ∧ b1.len = b.len + source.len) := by
  rcases append_string_builder_to_string_builder_spec heap b source hwf hsrc hbound hshort with
    ⟨heap1, h1, hf⟩ | ⟨b1, heap1, h1, hw, ht, hl, ha, hs⟩
  · exact ⟨false, b, heap1, h1, hwf, le_refl _, Or.inl rfl, le_refl _, by omega,
      fun h => absurd h hf⟩
  · refine ⟨true, b1, heap1, h1, hw, ?_, ?_, by omega, by omega,
      fun h => ⟨rfl, hs h, ht, hl⟩⟩
    · rcases ha with h | ⟨h, _⟩ <;> omega
    · rcases ha with h | ⟨h, h'⟩
      · exact Or.inl h
      · right; omega

theorem append_int32_string_builder_total (heap : Heap) (b : string_builder) (v : Int)
    (hwf : b.wf) (hbound : b.allocated ≤ 1073741824) (hshort : 13 ≤ b.allocated) :
    ∃ ok b1 heap1, append_int32_string_builder heap b (to_i32 v) = some (ok, b1, heap1) ∧
      b1.wf ∧ b.allocated ≤ b1.allocated ∧
      (b1.allocated = b.allocated ∨ b1.allocated ≤ 2 * b1.len + 4) ∧
      b.len ≤ b1.len ∧ b1.len ≤ b.len + 11 ∧
      (heap_succeeds heap → ok = true ∧ heap_succeeds heap1 ∧
        b1.text = b.text ++ sprintf_d (to_i32 v) ∧
        b1.len = b.len + (sprintf_d (to_i32 v)).length) := by
  obtain ⟨hlo, hhi⟩ := to_i32_range v
  obtain ⟨hnul, hlen⟩ := sprintf_d_spec (to_i32 v) hlo hhi
  unfold append_int32_string_builder
  obtain ⟨ok, b1, heap1, h1, hw, ha, hd, hl1, hl2, hs⟩ :=
    append_string_builder_total heap b (sprintf_d (to_i32 v)) hwf hbound hnul (by omega)
  exact ⟨ok, b1, heap1, h1, hw, ha, hd, hl1, by omega, hs⟩

theorem text_length (b : string_builder) (h : b.wf) : b.text.length = b.len := by
  unfold string_builder.text
  rw [List.length_take]
  have := h.1
  have := h.2
  omega

theorem HTTP_HEADER_nul_free : ∀ c ∈ cstr HTTP_HEADER, c ≠ 0 := by decide

theorem HTTP_HEADER_length : (cstr HTTP_HEADER).length = 93 := by decide

/-- The function `tagwriter_post` returns in every state; it touches neither
the exchange variables nor the timeout flag, records the content it was
handed, and when every allocation succeeds it leaves the HTTP request in
`value_buf` and calls `espconn_connect` once. -/
theorem tagwriter_post_spec (s : State) (content : string_builder) (hwf : content.wf)
    (hlen : content.len ≤ 1000000) :
    ∃ s', tagwriter_post s content = some s' ∧ s'.exchange = s.exchange ∧
      s'.timeout = s.timeout ∧ s'.serial_rx_timer = s.serial_rx_timer ∧
      s'.posted = s.posted ++ [content.text] ∧
      (heap_succeeds s.heap → heap_succeeds s'.heap ∧ s'.net = s.net ++ [NetEvent.connect] ∧
        ∃ sb, s'.value_buf = some sb ∧ sb.len = sb.text.length ∧
          sb.text = http_request_spec content.text) := by
  unfold tagwriter_post
  simp only []
  rcases create_string_builder_cases s.heap ((content.len : Int) + 100) (by omega) with
    ⟨heap1, h1, hf⟩ | ⟨sb0, heap1, h1, hw0, hl0, ha0, hs0⟩
  · rw [h1]
    exact ⟨_, rfl, rfl, rfl, rfl, rfl, fun h => absurd h hf⟩
  · rw [h1]
    simp only []
    have ha0' : sb0.allocated = content.len + 100 := by rw [ha0]; omega
    obtain ⟨ok1, b1, hp1, e1, w1, a1, d1, l1, l1', s1⟩ :=
      append_string_builder_total heap1 sb0 (cstr HTTP_HEADER) hw0 (by omega)
        HTTP_HEADER_nul_free (by rw [HTTP_HEADER_length]; omega)
    rw [HTTP_HEADER_length] at l1'
    obtain ⟨ok2, b2, hp2, e2, w2, a2, d2, l2, l2', s2⟩ :=
      append_int32_string_builder_total hp1 b1 (content.len : Int) w1 (by omega) (by omega)
    obtain ⟨ok3, b3, hp3, e3, w3, a3, d3, l3, l3', s3⟩ :=
      append_string_builder_total hp2 b2 (cstr "\r\n\r\n") w2 (by omega) (by decide)
        (by have : (cstr "\r\n\r\n").length = 4 := by decide
            omega)
    have hl4 : (cstr "\r\n\r\n").length = 4 := by decide
    rw [hl4] at l3'
    obtain ⟨ok4, b4, hp4, e4, w4, a4, d4, l4, l4', s4⟩ :=
      append_string_builder_to_string_builder_total hp3 b3 content w3 hwf (by omega) (by omega)
    simp only [e1, e2, e3, e4, Option.some_bind]
    by_cases hok : (ok1 && ok2 && ok3 && ok4) = true
    · rw [if_pos hok]
      refine ⟨_, rfl, rfl, rfl, rfl, rfl, ?_⟩
      intro hh
      obtain ⟨_, hh1, t1, _⟩ := s1 (hs0 hh)
      obtain ⟨_, hh2, t2, _⟩ := s2 hh1
      obtain ⟨_, hh3, t3, _⟩ := s3 hh2
      obtain ⟨_, hh4, t4, _⟩ := s4 hh3
      have ht0 : sb0.text = [] := by unfold string_builder.text; rw [hl0]; rfl
      have hi32 : to_i32 (content.len : Int) = content.len := to_i32_of_lt _ (by omega)
      have hclen : content.text.length = content.len := text_length content hwf
      have htext : b4.text = http_request_spec content.text := by
        unfold http_request_spec
        rw [t4, t3, t2, t1, ht0, hi32, sprintf_d_of_nonneg, hclen, List.nil_append]
      exact ⟨hh4, rfl, b4, rfl, (text_length b4 w4).symm, htext⟩
    · rw [if_neg hok]
      refine ⟨_, rfl, rfl, rfl, rfl, rfl, ?_⟩
      intro hh
      obtain ⟨o1, hh1, _⟩ := s1 (hs0 hh)
      obtain ⟨o2, hh2, _⟩ := s2 hh1
      obtain ⟨o3, hh3, _⟩ := s3 hh2
      obtain ⟨o4, _⟩ := s4 hh3
      rw [o1, o2, o3, o4] at hok
      exact absurd rfl hok

/-! ### `serial_timeout_cb` -/

theorem to_u8_neg_one : to_u8 (-1) = 255 := by decide

theorem serial_timeout_cb_spec (s : State) :
    ∃ s', serial_timeout_cb s = some s' ∧ s'.timeout = true ∧
      s'.current_command_index = 255 ∧ s'.data_len = s.data_len ∧
      s'.expected_len = s.expected_len ∧ s'.inverter_values = s.inverter_values ∧
      s'.rx_buffer = s.rx_buffer ∧ s'.rx_buffer_len = s.rx_buffer_len ∧
      s'.uart1_tx = s.uart1_tx ∧ s'.serial_rx_timer = s.serial_rx_timer ∧
      (heap_succeeds s.heap → heap_succeeds s'.heap ∧
        s'.posted = s.posted ++ [cstr "\x7b\"groups\":\x7b\"2\":\"unhealthy\"\x7d\x7d"] ∧
        s'.net = s.net ++ [NetEvent.connect] ∧
        ∃ sb, s'.value_buf = some sb ∧ sb.len = sb.text.length ∧ sb.text =
          http_request_spec (cstr "\x7b\"groups\":\x7b\"2\":\"unhealthy\"\x7d\x7d")) := by
  unfold serial_timeout_cb
  simp only [to_u8_neg_one]
  rcases create_string_builder_cases s.heap 30 (by norm_num) with
    ⟨heap1, h1, hf⟩ | ⟨c0, heap1, h1, hw0, hl0, ha0, hs0⟩
  · rw [h1]
    exact ⟨_, rfl, rfl, rfl, rfl, rfl, rfl, rfl, rfl, rfl, rfl, fun h => absurd h hf⟩
  · rw [h1]
    simp only []
    have ha0' : c0.allocated = 30 := by rw [ha0]; rfl
    have hlen : (cstr "\x7b\"groups\":\x7b\"2\":\"unhealthy\"\x7d\x7d").length = 28 := by decide
    obtain ⟨ok1, b1, hp1, e1, w1, a1, d1, l1, l1', s1⟩ :=
      append_string_builder_total heap1 c0
        (cstr "\x7b\"groups\":\x7b\"2\":\"unhealthy\"\x7d\x7d") hw0 (by omega)
        (by decide) (by rw [hlen]; omega)
    rw [hlen] at l1'
    simp only [e1, Option.some_bind]
    by_cases hok : ok1 = true
    · rw [if_pos hok]
      obtain ⟨s', hpost, hex, hto, htm, hposted, hrest⟩ :=
        tagwriter_post_spec
          { s with timeout := true, current_command_index := 255, heap := hp1 } b1 w1 (by omega)
      unfold State.exchange at hex
      simp only [Prod.mk.injEq] at hex
      obtain ⟨x1, x2, x3, x4, x5, x6, x7⟩ := hex
      refine ⟨s', hpost, hto, x1, x2, x3, x4, x5, x6, x7, htm, ?_⟩
      intro hh
      obtain ⟨_, hh1, t1, _⟩ := s1 (hs0 hh)
      have ht0 : c0.text = [] := by unfold string_builder.text; rw [hl0]; rfl
      rw [ht0, List.nil_append] at t1
      rw [t1] at hposted hrest
      exact ⟨(hrest hh1).1, hposted, (hrest hh1).2⟩
    · rw [if_neg hok]
      refine ⟨_, rfl, rfl, rfl, rfl, rfl, rfl, rfl, rfl, rfl, rfl, ?_⟩
      intro hh
      exact absurd (s1 (hs0 hh)).1 hok

/-! ### The report loop -/

theorem append_bounded (heap : Heap) (b : string_builder) (str : List Nat) (k j : Nat)
    (hb : b.bounded k) (hnul : ∀ c ∈ str, c ≠ 0) (hj : str.length ≤ j) (hj' : j ≤ 40)
    (hk : k ≤ 100000) :
    ∃ ok b1 heap1, append_string_builder heap b str = some (ok, b1, heap1) ∧
      b1.bounded (k + j) ∧
      (heap_succeeds heap → ok = true ∧ heap_succeeds heap1 ∧ b1.text = b.text ++ str) := by
  obtain ⟨hwf, h128, hcap, hlen⟩ := hb
  obtain ⟨ok, b1, heap1, e, w, a, d, l, l', hs⟩ :=
    append_string_builder_total heap b str hwf (by omega) hnul (by omega)
  refine ⟨ok, b1, heap1, e, ⟨w, by omega, ?_, by omega⟩, fun h => ?_⟩
  · rcases d with d | d <;> omega
  · obtain ⟨h1, h2, h3, _⟩ := hs h
    exact ⟨h1, h2, h3⟩

theorem append_int32_bounded (heap : Heap) (b : string_builder) (v : Int) (k : Nat)
    (hb : b.bounded k) (hk : k ≤ 100000) :
    ∃ ok b1 heap1, append_int32_string_builder heap b (to_i32 v) = some (ok, b1, heap1) ∧
      b1.bounded (k + 11) ∧
      (heap_succeeds heap → ok = true ∧ heap_succeeds heap1 ∧
        b1.text = b.text ++ sprintf_d (to_i32 v)) := by
  obtain ⟨hwf, h128, hcap, hlen⟩ := hb
  obtain ⟨ok, b1, heap1, e, w, a, d, l, l', hs⟩ :=
    append_int32_string_builder_total heap b v hwf (by omega) (by omega)
  refine ⟨ok, b1, heap1, e, ⟨w, by omega, ?_, by omega⟩, fun h => ?_⟩
  · rcases d with d | d <;> omega
  · obtain ⟨h1, h2, h3, _⟩ := hs h
    exact ⟨h1, h2, h3⟩

theorem COMMAND_TAGS_strings :
    ∀ t ∈ COMMAND_TAGS, (∀ c ∈ cstr t, c ≠ 0) ∧ (cstr t).length ≤ 20 := by
  decide

theorem COMMAND_TAGS_get (ii : Nat) (h : ii < COMMAND_COUNT) :
    COMMAND_TAGS[ii]? = some (COMMAND_TAGS.getD ii "") ∧
    (∀ c ∈ cstr (COMMAND_TAGS.getD ii ""), c ≠ 0) ∧
    (cstr (COMMAND_TAGS.getD ii "")).length ≤ 20 := by
  have hl : ii < COMMAND_TAGS.length := by
    rw [COMMAND_TAGS_length]; unfold COMMAND_COUNT at h; omega
  have hg := getElem?_eq_some_getD COMMAND_TAGS ii "" hl
  refine ⟨hg, COMMAND_TAGS_strings _ ?_⟩
  exact List.getElem?_mem hg

theorem separator_strings (ii : Nat) :
    (∀ c ∈ (if ii > 0 then cstr ",\"" else cstr "\""), c ≠ 0) ∧
    (if ii > 0 then cstr ",\"" else cstr "\"").length ≤ 2 := by
  split <;> decide

/-- One iteration of the report loop. -/
theorem report_tags_step (values : List Nat) (hv : values.length = COMMAND_COUNT)
    (ii k : Nat) (hii : ii < COMMAND_COUNT) (hk : k ≤ 50000)
    (acc : Bool × string_builder × Heap) (hb : acc.2.1.bounded k) (n : Nat) :
    ∃ acc' : Bool × string_builder × Heap,
      report_tags values (n + 1) ii acc = report_tags values n (ii + 1) acc' ∧
      acc'.2.1.bounded (k + 35) ∧
      (heap_succeeds acc.2.2 → acc'.1 = acc.1 ∧ heap_succeeds acc'.2.2 ∧
        acc'.2.1.text = acc.2.1.text ++ report_entry_text values ii) := by
  obtain ⟨hsn, hsl⟩ := separator_strings ii
  obtain ⟨htg, htn, htl⟩ := COMMAND_TAGS_get ii hii
  have hvg : values[ii]? = some (values.getD ii 0) :=
    getElem?_eq_some_getD values ii 0 (by rw [hv]; exact hii)
  obtain ⟨ok1, b1, hp1, e1, w1, s1⟩ :=
    append_bounded acc.2.2 acc.2.1 _ k 2 hb hsn hsl (by norm_num) (by omega)
  obtain ⟨ok2, b2, hp2, e2, w2, s2⟩ :=
    append_bounded hp1 b1 _ (k + 2) 20 w1 htn htl (by norm_num) (by omega)
  obtain ⟨ok3, b3, hp3, e3, w3, s3⟩ :=
    append_bounded hp2 b2 (cstr "\":") (k + 2 + 20) 2 w2 (by decide) (by decide) (by norm_num)
      (by omega)
  obtain ⟨ok4, b4, hp4, e4, w4, s4⟩ :=
    append_int32_bounded hp3 b3 ((values.getD ii 0 : Nat) : Int) (k + 2 + 20 + 2) w3 (by omega)
  refine ⟨(acc.1 && ok1 && ok2 && ok3 && ok4, b4, hp4), ?_, ?_, ?_⟩
  · rw [report_tags]
    simp only [e1, htg, e2, e3, hvg, e4, Option.some_bind]
  · exact w4
  · intro hh
    obtain ⟨o1, hh1, t1⟩ := s1 hh
    obtain ⟨o2, hh2, t2⟩ := s2 hh1
    obtain ⟨o3, hh3, t3⟩ := s3 hh2
    obtain ⟨o4, hh4, t4⟩ := s4 hh3
    refine ⟨by simp [o1, o2, o3, o4], hh4, ?_⟩
    show b4.text = _
    rw [t4, t3, t2, t1]
    unfold report_entry_text
    simp only [List.append_assoc]

theorem report_tags_spec (values : List Nat) (hv : values.length = COMMAND_COUNT) :
    ∀ (n ii k : Nat) (acc : Bool × string_builder × Heap),
      ii + n ≤ COMMAND_COUNT → k + 35 * n ≤ 50000 → acc.2.1.bounded k →
      ∃ r : Bool × string_builder × Heap, report_tags values n ii acc = some r ∧
        r.2.1.bounded (k + 35 * n) ∧
        (heap_succeeds acc.2.2 → r.1 = acc.1 ∧ heap_succeeds r.2.2 ∧
          r.2.1.text = acc.2.1.text ++
            ((List.range' ii n).map (report_entry_text values)).flatten) := by
  intro n
  induction n with
  | zero =>
    intro ii k acc _ _ hb
    exact ⟨acc, rfl, by simpa using hb, fun h => ⟨rfl, h, by simp⟩⟩
  | succ n ih =>
    intro ii k acc hii hk hb
    obtain ⟨acc', e, hb', hs'⟩ :=
      report_tags_step values hv ii k (by omega) (by omega) acc hb n
    obtain ⟨r, er, hbr, hsr⟩ := ih (ii + 1) (k + 35) acc' (by omega) (by omega) hb'
    refine ⟨r, by rw [e, er], ?_, fun h => ?_⟩
    · have e35 : k + 35 * (n + 1) = k + 35 + 35 * n := by ring
      rw [e35]; exact hbr
    · obtain ⟨a1, a2, a3⟩ := hs' h
      obtain ⟨r1, r2, r3⟩ := hsr a2
      refine ⟨by rw [r1, a1], r2, ?_⟩
      rw [r3, a3, List.range'_succ, List.map_cons, List.flatten_cons, List.append_assoc]

/-! ### The report branch of `process_response` -/

theorem suffix_strings (degraded : Bool) :
    (∀ c ∈ (if degraded = true then cstr "\x7d,\"groups\":\x7b\"2\":\"healthy\"\x7d\x7d"
      else cstr "\x7d\x7d"), c ≠ 0) ∧
    (if degraded = true then cstr "\x7d,\"groups\":\x7b\"2\":\"healthy\"\x7d\x7d"
      else cstr "\x7d\x7d").length ≤ 27 := by
  cases degraded <;> decide

theorem process_response_report_spec (s : State)
    (hv : s.inverter_values.length = COMMAND_COUNT) :
    ∃ s', process_response_report s = some s' ∧ s'.exchange = s.exchange ∧
      s'.serial_rx_timer = s.serial_rx_timer ∧
      (heap_succeeds s.heap → s'.timeout = false ∧ heap_succeeds s'.heap ∧
        s'.posted = s.posted ++ [report_body_code s.inverter_values s.timeout] ∧
        s'.net = s.net ++ [NetEvent.connect] ∧
        ∃ sb, s'.value_buf = some sb ∧ sb.len = sb.text.length ∧
          sb.text = http_request_spec (report_body_code s.inverter_values s.timeout)) := by
  unfold process_response_report
  rcases create_string_builder_cases s.heap 128 (by norm_num) with
    ⟨heap1, h1, hf⟩ | ⟨c0, heap1, h1, hw0, hl0, ha0, hs0⟩
  · rw [h1]
    exact ⟨_, rfl, rfl, rfl, fun h => absurd h hf⟩
  · rw [h1]
    simp only []
    have hb0 : c0.bounded 0 := by
      have ha0' : c0.allocated = 128 := by rw [ha0]; rfl
      exact ⟨hw0, by omega, by omega, by omega⟩
    obtain ⟨ok0, b0, hp0, e0, w0, s0⟩ :=
      append_bounded heap1 c0 (cstr "\x7b\"tags\":\x7b") 0 9 hb0 (by decide) (by decide)
        (by norm_num) (by norm_num)
    obtain ⟨r1, e1, w1, s1⟩ :=
      report_tags_spec s.inverter_values hv COMMAND_COUNT 0 (0 + 9) (ok0, b0, hp0)
        (by norm_num) (by unfold COMMAND_COUNT; norm_num) w0
    obtain ⟨hsn, hsl⟩ := suffix_strings s.timeout
    obtain ⟨ok2, b2, hp2, e2, w2, s2⟩ :=
      append_bounded r1.2.2 r1.2.1 _ (0 + 9 + 35 * COMMAND_COUNT) 27 w1 hsn hsl (by norm_num)
        (by unfold COMMAND_COUNT; norm_num)
    simp only [e0, e1, e2, Option.some_bind]
    by_cases hok : (r1.1 && ok2) = true
    · rw [if_pos hok]
      obtain ⟨s', hpost, hex, hto, htm, hposted, hrest⟩ :=
        tagwriter_post_spec { s with timeout := false, heap := hp2 } b2 w2.1
          (by have := w2.2.2.2; unfold COMMAND_COUNT at this; omega)
      refine ⟨s', hpost, hex, htm, fun hh => ?_⟩
      obtain ⟨o0, hh0, t0⟩ := s0 (hs0 hh)
      obtain ⟨o1, hh1, t1⟩ := s1 hh0
      obtain ⟨o2, hh2, t2⟩ := s2 hh1
      have ht0 : c0.text = [] := by unfold string_builder.text; rw [hl0]; rfl
      have htext : b2.text = report_body_code s.inverter_values s.timeout := by
        rw [t2, t1]
        show b0.text ++ _ ++ _ = _
        rw [t0, ht0]
        rfl
      rw [htext] at hposted hrest
      exact ⟨hto, (hrest hh2).1, hposted, (hrest hh2).2⟩
    · rw [if_neg hok]
      refine ⟨_, rfl, rfl, rfl, fun hh => ?_⟩
      obtain ⟨o0, hh0, _⟩ := s0 (hs0 hh)
      obtain ⟨o1, hh1, _⟩ := s1 hh0
      obtain ⟨o2, _⟩ := s2 hh1
      rw [o1, o2] at hok
      exact absurd o0 (by simpa using hok)

/-! ### `process_response` on an arbitrary accumulator -/

theorem rx_read (s : State) (k : Nat) (h16 : s.rx_buffer.length = 16) (hk : k < 16) :
    s.rx_buffer[k]? = some (s.rx_buffer.getD k 0) :=
  getElem?_eq_some_getD _ _ _ (by omega)

theorem rx_byte_lt (s : State) (k : Nat) (h16 : s.rx_buffer.length = 16)
    (hb : ∀ b ∈ s.rx_buffer, b < 256) (hk : k < 16) : s.rx_buffer.getD k 0 < 256 :=
  hb _ (List.getElem?_mem (rx_read s k h16 hk))

theorem framing_mismatch_total (s : State) (i : Nat) (hi : i < COMMAND_COUNT)
    (hidx : s.current_command_index = i) (h16 : s.rx_buffer.length = 16) :
    ∃ bad, framing_mismatch s = some bad := by
  have hL := COMMAND_LENGTHS_two_or_four i hi
  have hl8 : COMMAND_LENGTHS.getD i 0 + 8 < 16 := by omega
  unfold framing_mismatch
  rw [hidx, COMMANDS_get i hi, COMMAND_LENGTHS_get i hi, rx_read s 0 h16 (by omega),
    rx_read s 1 h16 (by omega), rx_read s 2 h16 (by omega), rx_read s 3 h16 (by omega),
    rx_read s 4 h16 (by omega), rx_read s 5 h16 (by omega)]
  simp only [Option.some_bind, rx_read s _ h16 hl8]
  split_ifs <;> exact ⟨_, rfl⟩

theorem mem_write_bounds (mem src m : List Nat) (idx : Nat)
    (h : mem_write mem idx src = some m) :
    idx + src.length ≤ mem.length ∧ m.length = mem.length := by
  unfold mem_write at h
  by_cases hle : idx + src.length ≤ mem.length
  · rw [if_pos hle] at h
    cases h
    refine ⟨hle, ?_⟩
    simp only [List.length_append, List.length_take, List.length_drop]
    omega
  · rw [if_neg hle] at h; cases h

theorem framing_mismatch_timer (s : State) :
    framing_mismatch { s with serial_rx_timer := none } = framing_mismatch s := rfl

/-- Whenever the framing-mismatch branch returns, it has only consumed the
allocator oracle and written diagnostics. -/
theorem packet_mismatch_dump_some (s t : State) (h : packet_mismatch_dump s = some t) :
    ∃ heap1 log1, t = { s with heap := heap1, log := log1 } := by
  unfold packet_mismatch_dump at h
  split at h
  · cases hm : os_malloc s.heap (s.current_command_index + 8) with
    | mk blk heap1 =>
      rw [hm] at h
      cases blk with
      | none =>
        simp only [Option.some.injEq] at h
        exact ⟨_, _, h.symm⟩
      | some _ =>
        simp only [Option.bind_eq_some] at h
        obtain ⟨_, _, _, _, _, _, _, _, _, _, hfin⟩ := h
        simp only [Option.some.injEq] at hfin
        exact ⟨_, _, hfin.symm⟩
  · cases h

/-- The framing-mismatch branch returns when the scratch block is not
allocated or is large enough. -/
theorem packet_mismatch_dump_total (s : State) (i : Nat) (hi : i < COMMAND_COUNT)
    (hidx : s.current_command_index = i) (hlen : s.rx_buffer_len ≤ s.rx_buffer.length)
    (hfit : (os_malloc s.heap (s.current_command_index + 8)).1 = none ∨
      expected_block_fits s) :
    ∃ heap1 log1, packet_mismatch_dump s = some { s with heap := heap1, log := log1 } ∧
      (heap_succeeds s.heap → heap_succeeds heap1) := by
  unfold expected_block_fits at hfit
  unfold packet_mismatch_dump
  rw [if_pos hlen]
  rw [hidx] at hfit ⊢
  rw [COMMANDS_get i hi, COMMAND_LENGTHS_get i hi]
  rcases os_malloc_cases s.heap (i + 8) with ⟨heap1, h1, hf⟩ | ⟨blk, heap1, h1, hbl, hs⟩
  · rw [h1]
    exact ⟨heap1, _, rfl, fun h => absurd h hf⟩
  · rw [h1] at hfit ⊢
    rcases hfit with hn | ⟨hst, hrd⟩
    · cases hn
    · simp only [Option.some_bind]
      have w1 : mem_write blk 0 [STX, GATEWAY_ADDR, INVERTER_ID,
          (COMMAND_LENGTHS.getD i 0 + COMMAND_LEN) % 256, (COMMANDS.getD i (0, 0)).1,
          (COMMANDS.getD i (0, 0)).2]
          = some (List.take 0 blk ++ [STX, GATEWAY_ADDR, INVERTER_ID,
            (COMMAND_LENGTHS.getD i 0 + COMMAND_LEN) % 256, (COMMANDS.getD i (0, 0)).1,
            (COMMANDS.getD i (0, 0)).2] ++ List.drop (0 + 6) blk) := by
        unfold mem_write
        rw [if_pos (by simp only [List.length_cons, List.length_nil]; omega)]
        rfl
      rw [w1, Option.some_bind]
      generalize hE : (List.take 0 blk ++ [STX, GATEWAY_ADDR, INVERTER_ID,
            (COMMAND_LENGTHS.getD i 0 + COMMAND_LEN) % 256, (COMMANDS.getD i (0, 0)).1,
            (COMMANDS.getD i (0, 0)).2] ++ List.drop (0 + 6) blk) = e1
      have hl1 : e1.length = i + 8 := by
        rw [← hE]
        simp only [List.length_append, List.length_take, List.length_cons, List.length_nil,
          List.length_drop]
        omega
      have w2 : mem_write e1 (COMMAND_LENGTHS.getD i 0 + 8) [ETX]
          = some (e1.take (COMMAND_LENGTHS.getD i 0 + 8) ++ [ETX]
              ++ e1.drop (COMMAND_LENGTHS.getD i 0 + 8 + 1)) := by
        unfold mem_write
        rw [if_pos (by simp only [List.length_cons, List.length_nil]; omega)]
        rfl
      rw [w2, Option.some_bind]
      have w3 : mem_read (e1.take (COMMAND_LENGTHS.getD i 0 + 8) ++ [ETX]
          ++ e1.drop (COMMAND_LENGTHS.getD i 0 + 8 + 1)) s.rx_buffer_len
          = some ((e1.take (COMMAND_LENGTHS.getD i 0 + 8) ++ [ETX]
          ++ e1.drop (COMMAND_LENGTHS.getD i 0 + 8 + 1)).take s.rx_buffer_len) := by
        unfold mem_read
        rw [if_pos (by
          simp only [List.length_append, List.length_take, List.length_cons, List.length_nil,
            List.length_drop]
          omega)]
      rw [w3, Option.some_bind]
      exact ⟨heap1, _, rfl, hs⟩

/-- The framing-mismatch branch has no result when the scratch block is
allocated and is too small. -/
theorem packet_mismatch_dump_overrun (s : State) (i : Nat) (hi : i < COMMAND_COUNT)
    (hidx : s.current_command_index = i)
    (halloc : (os_malloc s.heap (s.current_command_index + 8)).1 ≠ none)
    (hfit : ¬ expected_block_fits s) :
    packet_mismatch_dump s = none := by
  unfold expected_block_fits at hfit
  unfold packet_mismatch_dump
  split
  · rw [hidx] at hfit halloc ⊢
    rw [COMMANDS_get i hi, COMMAND_LENGTHS_get i hi]
    rcases os_malloc_cases s.heap (i + 8) with ⟨heap1, h1, _⟩ | ⟨blk, heap1, h1, hbl, _⟩
    · rw [h1] at halloc
      exact absurd rfl halloc
    · rw [h1]
      simp only [Option.some_bind]
      cases hw1 : mem_write blk 0 [STX, GATEWAY_ADDR, INVERTER_ID,
          (COMMAND_LENGTHS.getD i 0 + COMMAND_LEN) % 256, (COMMANDS.getD i (0, 0)).1,
          (COMMANDS.getD i (0, 0)).2] with
      | none => rfl
      | some e1 =>
        obtain ⟨_, hl1⟩ := mem_write_bounds _ _ _ _ hw1
        rw [Option.some_bind]
        cases hw2 : mem_write e1 (COMMAND_LENGTHS.getD i 0 + 8) [ETX] with
        | none => rfl
        | some e2 =>
          obtain ⟨hle2, hl2⟩ := mem_write_bounds _ _ _ _ hw2
          rw [Option.some_bind]
          have hrd : mem_read e2 s.rx_buffer_len = none := by
            unfold mem_read
            rw [if_neg]
            intro hc
            apply hfit
            simp only [List.length_cons, List.length_nil] at hle2
            constructor <;> omega
          rw [hrd]
          rfl
  · rfl

/-- The validation prefix of `process_response`: it only consumes the
allocator oracle and writes diagnostics, provided the framing-mismatch branch
stays inside its scratch block. -/
theorem process_response_validate (s : State) (i : Nat) (hi : i < COMMAND_COUNT)
    (hidx : s.current_command_index = i) (h16 : s.rx_buffer.length = 16)
    (hlen : s.rx_buffer_len ≤ 16) (hdump : framing_dump_defined s) :
    ∃ heap1 log1,
      ((framing_mismatch { s with serial_rx_timer := none }).bind fun bad =>
        if bad = true then packet_mismatch_dump { s with serial_rx_timer := none }
        else some { s with serial_rx_timer := none })
        = some { s with serial_rx_timer := none, heap := heap1, log := log1 } ∧
      (heap_succeeds s.heap → heap_succeeds heap1) := by
  obtain ⟨bad, hbad⟩ := framing_mismatch_total { s with serial_rx_timer := none } i hi hidx h16
  rw [hbad]
  simp only [Option.some_bind]
  cases bad with
  | false => exact ⟨s.heap, s.log, rfl, fun h => h⟩
  | true =>
    have hfit : (os_malloc s.heap (s.current_command_index + 8)).1 = none ∨
        expected_block_fits s := by
      rcases hdump with h | h
      · rw [framing_mismatch_timer] at hbad
        rw [hbad] at h
        cases h
      · exact h
    obtain ⟨heap1, log1, e, hs⟩ :=
      packet_mismatch_dump_total { s with serial_rx_timer := none } i hi hidx
        (by simp only; omega) hfit
    exact ⟨heap1, log1, by simpa using e, hs⟩

/-- When the framing bytes do not match, the scratch block is allocated and is
too small, `process_response` has no result: a store or a read of the
framing-mismatch branch falls outside the block. -/
theorem process_response_overrun (s : State) (i : Nat) (hi : i < COMMAND_COUNT)
    (hidx : s.current_command_index = i) (h16 : s.rx_buffer.length = 16)
    (hdump : ¬ framing_dump_defined s) :
    process_response s = none := by
  unfold framing_dump_defined at hdump
  simp only [not_or] at hdump
  obtain ⟨hbad, halloc, hfit⟩ := hdump
  obtain ⟨bad, hb⟩ := framing_mismatch_total s i hi hidx h16
  have hb1 : framing_mismatch { s with serial_rx_timer := none } = some true := by
    rw [framing_mismatch_timer, hb]
    cases bad with
    | false => exact absurd hb hbad
    | true => rfl
  have hd := packet_mismatch_dump_overrun { s with serial_rx_timer := none } i hi hidx
    halloc hfit
  unfold process_response
  simp only []
  rw [hb1, Option.some_bind, if_pos rfl, hd]
  rfl

/-! ### Rejected and accepted frames -/

theorem process_response_eq_check (s : State) (i : Nat) (hi : i < COMMAND_COUNT)
    (hidx : s.current_command_index = i) (h16 : s.rx_buffer.length = 16)
    (hlen : s.rx_buffer_len ≤ 16) (hdump : framing_dump_defined s) :
    ∃ heap1 log1, (heap_succeeds s.heap → heap_succeeds heap1) ∧
      process_response s = process_response_check
        { s with serial_rx_timer := none, heap := heap1, log := log1 } := by
  obtain ⟨heap1, log1, e, hs⟩ := process_response_validate s i hi hidx h16 hlen hdump
  refine ⟨heap1, log1, hs, ?_⟩
  unfold process_response
  simp only []
  rw [← Option.bind_assoc, e, Option.some_bind]

theorem process_response_check_reject (s : State) (i : Nat) (hi : i < COMMAND_COUNT)
    (h16 : s.rx_buffer.length = 16) (hb : ∀ b ∈ s.rx_buffer, b < 256)
    (hdl : s.data_len = COMMAND_LENGTHS.getD i 0) (hexp : s.expected_len ≤ 16)
    (hcrc : s.rx_buffer.getD (COMMAND_LENGTHS.getD i 0 + 6) 0
        + 256 * s.rx_buffer.getD (COMMAND_LENGTHS.getD i 0 + 7) 0
      ≠ calculate_crc16 s.rx_buffer (COMMAND_LENGTHS.getD i 0 + 6)) :
    ∃ log1, process_response_check s = some { s with log := log1 } := by
  have hL := COMMAND_LENGTHS_two_or_four i hi
  have h6 : COMMAND_LENGTHS.getD i 0 + 6 < 16 := by omega
  have h7 : COMMAND_LENGTHS.getD i 0 + 7 < 16 := by omega
  have hm : (COMMAND_LENGTHS.getD i 0 + 6) % 256 = COMMAND_LENGTHS.getD i 0 + 6 := by omega
  unfold process_response_check
  rw [hdl, rx_read s _ h16 h6, rx_read s _ h16 h7]
  simp only [Option.some_bind, hm,
    msg_crc_eq _ _ (rx_byte_lt s _ h16 hb h6) (rx_byte_lt s _ h16 hb h7)]
  rw [if_pos (by omega), if_pos hcrc, if_pos (by omega)]
  exact ⟨_, rfl⟩

theorem take_drop_two (l : List Nat) : ∀ (k : Nat), k + 2 ≤ l.length →
    (l.drop k).take 2 = [l.getD k 0, l.getD (k + 1) 0] := by
  induction l with
  | nil => intro k h; simp at h
  | cons a t ih =>
    intro k h
    cases k with
    | zero =>
      match t, h with
      | b :: u, _ => simp
    | succ k =>
      simp only [List.drop_succ_cons, List.getD_cons_succ]
      exact ih k (by simp only [List.length_cons] at h; omega)

theorem take_drop_four (l : List Nat) : ∀ (k : Nat), k + 4 ≤ l.length →
    (l.drop k).take 4 = [l.getD k 0, l.getD (k + 1) 0, l.getD (k + 2) 0, l.getD (k + 3) 0] := by
  induction l with
  | nil => intro k h; simp at h
  | cons a t ih =>
    intro k h
    cases k with
    | zero =>
      match t, h with
      | b :: c :: d :: u, _ => simp
    | succ k =>
      simp only [List.drop_succ_cons, List.getD_cons_succ]
      exact ih k (by simp only [List.length_cons] at h; omega)

theorem process_response_check_accept (s : State) (i : Nat) (hi : i < COMMAND_COUNT)
    (hidx : s.current_command_index = i)
    (h16 : s.rx_buffer.length = 16) (hb : ∀ b ∈ s.rx_buffer, b < 256)
    (hdl : s.data_len = COMMAND_LENGTHS.getD i 0)
    (hval : s.inverter_values.length = COMMAND_COUNT)
    (hcrc : s.rx_buffer.getD (COMMAND_LENGTHS.getD i 0 + 6) 0
        + 256 * s.rx_buffer.getD (COMMAND_LENGTHS.getD i 0 + 7) 0
      = calculate_crc16 s.rx_buffer (COMMAND_LENGTHS.getD i 0 + 6)) :
    process_response_check s =
      if i = COMMAND_COUNT - 1 then
        process_response_report { s with
          log := s.log ++ [Diag.accepted i]
          inverter_values := s.inverter_values.set i
            (be_value ((s.rx_buffer.drop 6).take (COMMAND_LENGTHS.getD i 0))) }
      else
        send_data_request { s with
          log := s.log ++ [Diag.accepted i]
          inverter_values := s.inverter_values.set i
            (be_value ((s.rx_buffer.drop 6).take (COMMAND_LENGTHS.getD i 0)))
          current_command_index := i + 1 } := by
  have hL := COMMAND_LENGTHS_two_or_four i hi
  have hLget := COMMAND_LENGTHS_get i hi
  have h6 : COMMAND_LENGTHS.getD i 0 + 6 < 16 := by omega
  have h7 : COMMAND_LENGTHS.getD i 0 + 7 < 16 := by omega
  have hm : (COMMAND_LENGTHS.getD i 0 + 6) % 256 = COMMAND_LENGTHS.getD i 0 + 6 := by omega
  have hi1 : (i + 1) % 256 = i + 1 := by unfold COMMAND_COUNT at hi; omega
  have hlt : i < s.inverter_values.length := by rw [hval]; exact hi
  have hcrc' : ¬ (s.rx_buffer.getD (COMMAND_LENGTHS.getD i 0 + 6) 0
        + 256 * s.rx_buffer.getD (COMMAND_LENGTHS.getD i 0 + 7) 0
      ≠ calculate_crc16 s.rx_buffer (COMMAND_LENGTHS.getD i 0 + 6)) := fun h => h hcrc
  have r6 := rx_read s 6 h16 (by norm_num)
  have r7 := rx_read s 7 h16 (by norm_num)
  have r8 := rx_read s 8 h16 (by norm_num)
  have r9 := rx_read s 9 h16 (by norm_num)
  have b6 := rx_byte_lt s 6 h16 hb (by norm_num)
  have b7 := rx_byte_lt s 7 h16 hb (by norm_num)
  have b8 := rx_byte_lt s 8 h16 hb (by norm_num)
  have b9 := rx_byte_lt s 9 h16 hb (by norm_num)
  unfold process_response_check
  rw [hdl, rx_read s _ h16 h6, rx_read s _ h16 h7]
  simp only [Option.some_bind, hm,
    msg_crc_eq _ _ (rx_byte_lt s _ h16 hb h6) (rx_byte_lt s _ h16 hb h7)]
  rw [if_pos (by omega), if_neg hcrc']
  unfold process_response_store set_inverter_value
  simp only [hidx, hLget, Option.some_bind, r6, r7, r8, r9, hlt, if_true, hi1]
  rcases hL with h2 | h4
  · rw [h2, take_drop_two _ 6 (by omega), ← store_two _ _ b6 b7]
    simp [hi1]
  · rw [h4, take_drop_four _ 6 (by omega), ← store_four _ _ _ _ b6 b7 b8 b9]
    simp [hi1]

theorem take_drop_one (l : List Nat) : ∀ (k : Nat), k + 1 ≤ l.length →
    (l.drop k).take 1 = [l.getD k 0] := by
  induction l with
  | nil => intro k h; simp at h
  | cons a t ih =>
    intro k h
    cases k with
    | zero => simp
    | succ k =>
      simp only [List.drop_succ_cons, List.getD_cons_succ]
      exact ih k (by simp only [List.length_cons] at h; omega)

theorem COMMAND_LENGTHS_one_two_four :
    ∀ j < 47, COMMAND_LENGTHS.getD j 0 = 1 ∨ COMMAND_LENGTHS.getD j 0 = 2 ∨
      COMMAND_LENGTHS.getD j 0 = 4 := by
  decide

theorem be_value_one (p0 : Nat) : be_value [p0] = p0 := by
  simp [be_value]

/-- The storing step on its own, for every row of the 47-row tables that lies
inside the result table: payloads of 1, 2 and 4 bytes. -/
theorem process_response_store_spec (s : State) (j : Nat) (hj : j < 47)
    (hidx : s.current_command_index = j) (hlt : j < s.inverter_values.length)
    (h16 : s.rx_buffer.length = 16) (hb : ∀ b ∈ s.rx_buffer, b < 256) :
    process_response_store s = some { s with
      inverter_values := s.inverter_values.set j
        (be_value ((s.rx_buffer.drop 6).take (COMMAND_LENGTHS.getD j 0))) } := by
  have hLget : COMMAND_LENGTHS[j]? = some (COMMAND_LENGTHS.getD j 0) :=
    getElem?_eq_some_getD _ _ _ (by rw [COMMAND_LENGTHS_length]; exact hj)
  have r6 := rx_read s 6 h16 (by norm_num)
  have r7 := rx_read s 7 h16 (by norm_num)
  have r8 := rx_read s 8 h16 (by norm_num)
  have r9 := rx_read s 9 h16 (by norm_num)
  have b6 := rx_byte_lt s 6 h16 hb (by norm_num)
  have b7 := rx_byte_lt s 7 h16 hb (by norm_num)
  have b8 := rx_byte_lt s 8 h16 hb (by norm_num)
  have b9 := rx_byte_lt s 9 h16 hb (by norm_num)
  unfold process_response_store set_inverter_value
  simp only [hidx, hLget, Option.some_bind, r6, r7, r8, r9, hlt, if_true]
  rcases COMMAND_LENGTHS_one_two_four j hj with h1 | h2 | h4
  · have e : to_u32 ((s.rx_buffer.getD 6 0 : Nat) : Int) = s.rx_buffer.getD 6 0 :=
      to_u32_of_lt _ (by omega)
    rw [h1, take_drop_one _ 6 (by omega), be_value_one, e]
    simp
  · rw [h2, take_drop_two _ 6 (by omega), ← store_two _ _ b6 b7]
    simp
  · rw [h4, take_drop_four _ 6 (by omega), ← store_four _ _ _ _ b6 b7 b8 b9]
    simp

/-! ### The report text -/

theorem intercalate_cons_eq (sep a : List Nat) (l : List (List Nat)) :
    List.intercalate sep (a :: l) = a ++ (l.map (fun x => sep ++ x)).flatten := by
  induction l generalizing a with
  | nil => simp [List.intercalate]
  | cons b l ih =>
    have h := ih b
    simp only [List.intercalate, List.intersperse_cons_cons, List.flatten_cons, List.map_cons,
      List.append_assoc] at h ⊢
    rw [h]

theorem report_entry_text_eq (values : List Nat) (k : Nat)
    (hv : values.getD k 0 < 2147483648) :
    report_entry_text values k =
      (if k > 0 then cstr "," else []) ++
        tag_entry_spec (COMMAND_TAGS.getD k "") (values.getD k 0) := by
  unfold report_entry_text tag_entry_spec
  rw [to_i32_of_lt _ hv, sprintf_d_of_nonneg]
  have e : cstr ",\"" = cstr "," ++ cstr "\"" := by decide
  split
  · rw [e]; simp only [List.append_assoc]
  · simp only [List.nil_append, List.append_assoc]

theorem report_entries_eq_spec (values : List Nat)
    (hv : ∀ k, k < COMMAND_COUNT → values.getD k 0 < 2147483648) :
    ((List.range' 0 COMMAND_COUNT).map (report_entry_text values)).flatten =
      List.intercalate (cstr ",") (tag_entries_spec values) := by
  unfold tag_entries_spec
  have hr : List.range COMMAND_COUNT = 0 :: List.range' 1 37 := by decide
  have hr' : List.range' 0 COMMAND_COUNT = 0 :: List.range' 1 37 := by decide
  rw [hr, hr', List.map_cons, List.map_cons, intercalate_cons_eq, List.flatten_cons,
    report_entry_text_eq values 0 (hv 0 (by decide))]
  simp only [gt_iff_lt, lt_self_iff_false, if_false, List.nil_append, List.map_map]
  refine congrArg _ (congrArg _ ?_)
  apply List.map_congr_left
  intro k hk
  have hk' := List.mem_range'_1.mp hk
  have hpos : k > 0 := by omega
  rw [report_entry_text_eq values k (hv k (by unfold COMMAND_COUNT; omega)), if_pos hpos]
  rfl

theorem report_body_code_eq_spec (values : List Nat) (degraded : Bool)
    (hv : ∀ k, k < COMMAND_COUNT → values.getD k 0 < 2147483648) :
    report_body_code values degraded = report_body_spec values degraded := by
  unfold report_body_code report_body_spec
  rw [report_entries_eq_spec values hv]

/-! ### The last exchange of a sweep -/

/-- A well-formed reply to the last command: the value is stored and the report
the code renders is handed to `tagwriter_post`. -/
theorem feed_final_reply (s : State) (payload : List Nat)
    (hA : Awaiting s (COMMAND_COUNT - 1)) (hempty : s.rx_buffer_len = 0)
    (hpl : payload.length = COMMAND_LENGTHS.getD (COMMAND_COUNT - 1) 0)
    (hbytes : ∀ b ∈ payload, b < 256) (hheap : heap_succeeds s.heap) :
    ∃ s', feed_bytes s (reply_frame (COMMAND_COUNT - 1) payload) = some s' ∧
      s'.inverter_values = s.inverter_values.set (COMMAND_COUNT - 1) (be_value payload) ∧
      s'.current_command_index = COMMAND_COUNT - 1 ∧ s'.rx_buffer_len = 0 ∧
      s'.uart1_tx = s.uart1_tx ∧ s'.timeout = false ∧
      s'.posted = s.posted ++ [report_body_code s'.inverter_values s.timeout] ∧
      s'.net = s.net ++ [NetEvent.connect] ∧
      ∃ sb, s'.value_buf = some sb ∧ sb.len = sb.text.length ∧
        sb.text = http_request_spec (report_body_code s'.inverter_values s.timeout) := by
  have hval : s.inverter_values.length = COMMAND_COUNT := hA.2.1.2.2.1
  have hidx : s.current_command_index = COMMAND_COUNT - 1 := hA.2.2.1
  rw [feed_reply_frame s _ payload (by decide) hA hempty hpl hbytes, if_pos rfl]
  obtain ⟨s', e', hex, _, hrest⟩ := process_response_report_spec
    { s with
      rx_buffer := reply_frame (COMMAND_COUNT - 1) payload ++
        s.rx_buffer.drop (COMMAND_LENGTHS.getD (COMMAND_COUNT - 1) 0 + 9)
      rx_buffer_len := COMMAND_LENGTHS.getD (COMMAND_COUNT - 1) 0 + 9
      serial_rx_timer := none
      log := s.log ++ [Diag.accepted (COMMAND_COUNT - 1)]
      inverter_values := s.inverter_values.set (COMMAND_COUNT - 1) (be_value payload) }
    (by simp only [List.length_set]; exact hval)
  obtain ⟨hto, _, hposted, hnet, sb, hsb, hsl, hst⟩ := hrest hheap
  unfold State.exchange at hex
  simp only [Prod.mk.injEq] at hex
  obtain ⟨x1, _, _, x4, _, _, x7⟩ := hex
  rw [e']
  simp only [Option.map_some']
  refine ⟨_, rfl, x4, by rw [x1, hidx], rfl, x7, hto, ?_, hnet, sb, hsb, hsl, ?_⟩
  · show s'.posted = s.posted ++ [report_body_code s'.inverter_values s.timeout]
    rw [x4]; exact hposted
  · show sb.text = http_request_spec (report_body_code s'.inverter_values s.timeout)
    rw [x4]; exact hst

/-! ### The exchange after a timeout -/

theorem awaiting_after_transmit (s : State) (hwf : s.wf) :
    ∃ s1, transmit_cb s = some s1 ∧ Awaiting s1 0 ∧ s1.rx_buffer_len = s.rx_buffer_len ∧
      s1.rx_buffer = s.rx_buffer ∧ s1.inverter_values = s.inverter_values ∧
      s1.uart1_tx = s.uart1_tx ++ request_frame 0 := by
  unfold transmit_cb
  rw [send_data_request_eq _ 0 (by decide) rfl]
  exact ⟨_, rfl, ⟨by decide, hwf, rfl, rfl, rfl⟩, rfl, rfl, rfl, rfl⟩

theorem wf_of_fields (s t : State) (hwf : s.wf) (h1 : t.rx_buffer = s.rx_buffer)
    (h2 : t.inverter_values = s.inverter_values) : t.wf := by
  unfold State.wf at hwf ⊢
  rw [h1, h2]; exact hwf

theorem set_getD_lt (l : List Nat) (n v k bound : Nat) (hl : ∀ x ∈ l, x < bound)
    (hv : v < bound) (hk : k < l.length) : (l.set n v).getD k 0 < bound := by
  have hk' : k < (l.set n v).length := by rw [List.length_set]; exact hk
  have hm : (l.set n v).getD k 0 ∈ l.set n v :=
    List.getElem?_mem (getElem?_eq_some_getD _ k 0 hk')
  rcases List.mem_or_eq_of_mem_set hm with h | h
  · exact hl _ h
  · rw [h]; exact hv

theorem be_value_two_lt (payload : List Nat) (hpl : payload.length = 2)
    (hbytes : ∀ b ∈ payload, b < 256) : be_value payload < 65536 := by
  obtain ⟨p0, p1, rfl⟩ := List.length_eq_two.mp hpl
  have h0 : p0 < 256 := hbytes p0 (by simp)
  have h1 : p1 < 256 := hbytes p1 (by simp)
  rw [be_value_two]; omega

/-! ### Linearity of the checksum -/

theorem crc16_spec_step_xor (x y : Nat) :
    crc16_spec_step (x ^^^ y) = crc16_spec_step x ^^^ crc16_spec_step y := by
  unfold crc16_spec_step
  have hs : ∀ a : Nat, a >>> 1 = a / 2 := fun a => by
    rw [Nat.shiftRight_eq_div_pow]
  simp only [hs, Nat.xor_div_two, Nat.xor_mod_two_eq_one]
  by_cases hx : x % 2 = 1 <;> by_cases hy : y % 2 = 1 <;> simp only [hx, hy, iff_self,
    not_true_eq_false, if_false, if_true, iff_false, iff_true, not_false_eq_true, not_not]
  · rw [Nat.xor_assoc, Nat.xor_comm 40961, Nat.xor_assoc, Nat.xor_self, Nat.xor_zero]
  · rw [Nat.xor_assoc, Nat.xor_comm (y / 2), ← Nat.xor_assoc]
  · rw [Nat.xor_assoc]

theorem crc16_spec_byte_xor (a a' b b' : Nat) :
    crc16_spec_byte (a ^^^ a') (b ^^^ b') = crc16_spec_byte a b ^^^ crc16_spec_byte a' b' := by
  unfold crc16_spec_byte
  have h : (a ^^^ a') ^^^ (b ^^^ b') = (a ^^^ b) ^^^ (a' ^^^ b') := by
    rw [Nat.xor_assoc, Nat.xor_assoc, ← Nat.xor_assoc a' b b', Nat.xor_comm a' b, Nat.xor_assoc]
  rw [h]
  simp only [crc16_spec_step_xor]

theorem crc_run_xor (g e : Nat → Nat) : ∀ (n ii c c' : Nat),
    crc_run (fun i => g i ^^^ e i) n ii (c ^^^ c') = crc_run g n ii c ^^^ crc_run e n ii c' := by
  intro n
  induction n with
  | zero => intro ii c c'; rfl
  | succ n ih =>
    intro ii c c'
    show crc_run _ n (ii + 1) (crc16_spec_byte (c ^^^ c') (g ii ^^^ e ii)) = _
    rw [crc16_spec_byte_xor, ih]
    rfl

theorem crc_run_add (g : Nat → Nat) : ∀ (n m ii c : Nat),
    crc_run g (n + m) ii c = crc_run g m (ii + n) (crc_run g n ii c) := by
  intro n
  induction n with
  | zero => intro m ii c; simp only [Nat.zero_add, Nat.add_zero]; rfl
  | succ n ih =>
    intro m ii c
    rw [show n + 1 + m = (n + m) + 1 by omega]
    show crc_run g (n + m) (ii + 1) _ = crc_run g m (ii + (n + 1)) (crc_run g n (ii + 1) _)
    rw [ih, show ii + 1 + n = ii + (n + 1) by omega]

theorem crc_outer_eq_run (packet : List Nat) (hb : ∀ b ∈ packet, b < 256) : ∀ (n ii c : Nat),
    c < 65536 → crc_outer packet n ii c = crc_run (fun i => packet.getD i 0) n ii c := by
  intro n
  induction n with
  | zero => intro ii c _; rfl
  | succ n ih =>
    intro ii c hc
    have hbyte : packet.getD ii 0 < 256 := by
      rw [List.getD_eq_getElem?_getD]
      cases h : packet[ii]? with
      | none => simp
      | some v => exact hb v (List.getElem?_mem h)
    show crc_outer packet n (ii + 1) (crc_inner 8 ((c ^^^ packet.getD ii 0) % 65536)) = _
    rw [crc_byte_eq_spec c _ hc hbyte, ih _ _ (crc16_spec_byte_lt c _ hc hbyte)]
    rfl

/-! ### The checksum of an error pattern -/

theorem crc16_spec_step_eq_zero (z : Nat) (hz : z < 65536) (h : crc16_spec_step z = 0) :
    z = 0 := by
  unfold crc16_spec_step at h
  have hs : z >>> 1 = z / 2 := by rw [Nat.shiftRight_eq_div_pow]
  rw [hs] at h
  by_cases hodd : z % 2 = 1
  · rw [if_pos hodd, Nat.xor_eq_zero] at h
    omega
  · rw [if_neg hodd] at h
    omega

theorem crc16_spec_byte_eq_zero_byte (c b : Nat) :
    crc16_spec_byte c b = crc16_spec_byte (c ^^^ b) 0 := by
  unfold crc16_spec_byte
  rw [Nat.xor_zero]

theorem zero_byte_eq_zero (z : Nat) (hz : z < 65536) (h : crc16_spec_byte z 0 = 0) : z = 0 := by
  unfold crc16_spec_byte at h
  rw [Nat.xor_zero] at h
  have l1 := crc16_spec_step_lt z hz
  have l2 := crc16_spec_step_lt _ l1
  have l3 := crc16_spec_step_lt _ l2
  have l4 := crc16_spec_step_lt _ l3
  have l5 := crc16_spec_step_lt _ l4
  have l6 := crc16_spec_step_lt _ l5
  have l7 := crc16_spec_step_lt _ l6
  have e7 := crc16_spec_step_eq_zero _ l7 h
  have e6 := crc16_spec_step_eq_zero _ l6 e7
  have e5 := crc16_spec_step_eq_zero _ l5 e6
  have e4 := crc16_spec_step_eq_zero _ l4 e5
  have e3 := crc16_spec_step_eq_zero _ l3 e4
  have e2 := crc16_spec_step_eq_zero _ l2 e3
  have e1 := crc16_spec_step_eq_zero _ l1 e2
  exact crc16_spec_step_eq_zero _ hz e1

theorem zero_byte_iterate_lt (n : Nat) : ∀ c : Nat, c < 65536 →
    (fun x => crc16_spec_byte x 0)^[n] c < 65536 := by
  induction n with
  | zero => intro c hc; exact hc
  | succ n ih =>
    intro c hc
    rw [Function.iterate_succ_apply]
    exact ih _ (crc16_spec_byte_lt c 0 hc (by norm_num))

theorem zero_byte_iterate_ne_zero (n : Nat) : ∀ c : Nat, c < 65536 → c ≠ 0 →
    (fun x => crc16_spec_byte x 0)^[n] c ≠ 0 := by
  induction n with
  | zero => intro c _ hc; exact hc
  | succ n ih =>
    intro c hc hne
    rw [Function.iterate_succ_apply]
    exact ih _ (crc16_spec_byte_lt c 0 hc (by norm_num)) fun h => hne (zero_byte_eq_zero c hc h)

theorem zero_byte_iterate_zero (n : Nat) : (fun x => crc16_spec_byte x 0)^[n] 0 = 0 := by
  induction n with
  | zero => rfl
  | succ n ih =>
    rw [Function.iterate_succ_apply]
    have h : crc16_spec_byte 0 0 = 0 := by decide
    rw [h]
    exact ih

theorem crc_run_zero_bytes (e : Nat → Nat) : ∀ (n ii c : Nat),
    (∀ i, ii ≤ i → i < ii + n → e i = 0) →
    crc_run e n ii c = (fun x => crc16_spec_byte x 0)^[n] c := by
  intro n
  induction n with
  | zero => intro ii c _; rfl
  | succ n ih =>
    intro ii c he
    show crc_run e n (ii + 1) (crc16_spec_byte c (e ii)) = _
    rw [he ii (le_refl _) (by omega), Function.iterate_succ_apply]
    exact ih _ _ fun i h1 h2 => he i (by omega) (by omega)

theorem step_forced_eq (x : Nat) : step_forced x = crc16_spec_step x := by
  cases x with
  | zero => rfl
  | succ y => rfl

theorem zero_byte_forced_eq (x : Nat) : zero_byte_forced x = crc16_spec_byte x 0 := by
  unfold zero_byte_forced crc16_spec_byte
  simp only [step_forced_eq, Nat.xor_zero]

theorem orbit_avoids_spec (d0 : Nat) : ∀ (n x : Nat), orbit_avoids d0 n x = true →
    ∀ d, 1 ≤ d → d ≤ n → (fun x => crc16_spec_byte x 0)^[d] x ≠ d0 := by
  intro n
  induction n with
  | zero => intro x _ d h1 h2; omega
  | succ n ih =>
    intro x h d h1 h2
    have hstep : (crc16_spec_byte x 0 != d0) = true ∧
        orbit_avoids d0 n (crc16_spec_byte x 0) = true := by
      rw [← zero_byte_forced_eq]
      unfold orbit_avoids at h
      cases hz : zero_byte_forced x with
      | zero =>
        rw [hz] at h
        simpa using h
      | succ y =>
        rw [hz] at h
        simpa using h
    obtain ⟨hne, hrest⟩ := hstep
    obtain ⟨d', rfl⟩ : ∃ d', d = d' + 1 := ⟨d - 1, by omega⟩
    rw [Function.iterate_succ_apply]
    cases d' with
    | zero => simpa using hne
    | succ d'' => exact ih _ hrest (d'' + 1) (by omega) (by omega)

theorem orbit_all_spec : ∀ (m : Nat), orbit_all m = true →
    ∀ d0, 1 ≤ d0 → d0 ≤ m → orbit_avoids d0 253 d0 = true := by
  intro m
  induction m with
  | zero => intro _ d0 h1 h2; omega
  | succ m ih =>
    intro h d0 h1 h2
    unfold orbit_all at h
    rw [Bool.and_eq_true] at h
    by_cases hd : d0 = m + 1
    · rw [hd]; exact h.1
    · exact ih h.2 d0 h1 (by omega)

theorem orbit_all_bytes : orbit_all 255 = true := by
  set_option maxRecDepth 1000000 in
  decide!

/-- A nonzero byte value never comes back to itself within 253 zero bytes. -/
theorem zero_byte_orbit (d0 d : Nat) (h0 : 1 ≤ d0) (h255 : d0 < 256) (h1 : 1 ≤ d)
    (h253 : d ≤ 253) : (fun x => crc16_spec_byte x 0)^[d] d0 ≠ d0 :=
  orbit_avoids_spec d0 253 d0 (orbit_all_spec 255 orbit_all_bytes d0 h0 (by omega)) d h1 h253

/-! ### Exchanging two bytes changes the checksum -/

theorem error_run_ne_zero (e : Nat → Nat) (d0 a b c : Nat) (h0 : 1 ≤ d0) (h255 : d0 < 256)
    (hb : b + 1 ≤ 253) (hej : e (1 + a) = d0) (hek : e (1 + a + 1 + b) = d0)
    (he0 : ∀ i, i ≠ 1 + a → i ≠ 1 + a + 1 + b → e i = 0) :
    crc_run e (a + (1 + (b + (1 + c)))) 1 0 ≠ 0 := by
  rw [crc_run_add, crc_run_add, crc_run_add, crc_run_add]
  have h1 : crc_run e a 1 0 = 0 := by
    rw [crc_run_zero_bytes e a 1 0 fun i hi1 hi2 => he0 i (by omega) (by omega)]
    exact zero_byte_iterate_zero a
  have h2 : crc_run e 1 (1 + a) 0 = crc16_spec_byte d0 0 := by
    show crc16_spec_byte 0 (e (1 + a)) = _
    rw [hej, crc16_spec_byte_eq_zero_byte, Nat.zero_xor]
  have h3 : crc_run e b (1 + a + 1) (crc16_spec_byte d0 0)
      = (fun x => crc16_spec_byte x 0)^[b + 1] d0 := by
    rw [crc_run_zero_bytes e b (1 + a + 1) _ fun i hi1 hi2 => he0 i (by omega) (by omega),
      Function.iterate_succ_apply]
  have h4 : ∀ y, crc_run e 1 (1 + a + 1 + b) y = crc16_spec_byte (y ^^^ d0) 0 := by
    intro y
    show crc16_spec_byte y (e (1 + a + 1 + b)) = _
    rw [hek, crc16_spec_byte_eq_zero_byte]
  have h5 : ∀ y, crc_run e c (1 + a + 1 + b + 1) y = (fun x => crc16_spec_byte x 0)^[c] y :=
    fun y => crc_run_zero_bytes e c _ y fun i hi1 hi2 => he0 i (by omega) (by omega)
  rw [h1, h2, h3, h4, h5]
  have hlt : (fun x => crc16_spec_byte x 0)^[b + 1] d0 < 65536 :=
    zero_byte_iterate_lt _ _ (by omega)
  have hne : (fun x => crc16_spec_byte x 0)^[b + 1] d0 ^^^ d0 ≠ 0 := by
    rw [Ne, Nat.xor_eq_zero]
    exact zero_byte_orbit d0 (b + 1) h0 h255 (by omega) hb
  have hd16 : d0 < 2 ^ 16 := by omega
  have hlt16 : (fun x => crc16_spec_byte x 0)^[b + 1] d0 < 2 ^ 16 := hlt
  have hx : (fun x => crc16_spec_byte x 0)^[b + 1] d0 ^^^ d0 < 65536 :=
    Nat.xor_lt_two_pow hlt16 hd16
  refine zero_byte_iterate_ne_zero c _ (crc16_spec_byte_lt _ 0 hx (by norm_num)) fun h => ?_
  exact hne (zero_byte_eq_zero _ hx h)

theorem xor_ne_zero_lt (x y : Nat) (hx : x < 256) (hy : y < 256) (hne : x ≠ y) :
    1 ≤ x ^^^ y ∧ x ^^^ y < 256 := by
  have hx8 : x < 2 ^ 8 := hx
  have hy8 : y < 2 ^ 8 := hy
  refine ⟨?_, Nat.xor_lt_two_pow hx8 hy8⟩
  have : x ^^^ y ≠ 0 := by rw [Ne, Nat.xor_eq_zero]; exact hne
  omega

theorem getD_lt_of_bytes (packet : List Nat) (hb : ∀ b ∈ packet, b < 256) (i : Nat) :
    packet.getD i 0 < 256 := by
  rw [List.getD_eq_getElem?_getD]
  cases h : packet[i]? with
  | none => simp
  | some v => exact hb v (List.getElem?_mem h)

theorem swap_bytes_getD (packet : List Nat) (j k i : Nat) (hj : j < packet.length)
    (hk : k < packet.length) (hjk : j ≠ k) :
    (swap_bytes packet j k).getD i 0 =
      if i = j then packet.getD k 0 else if i = k then packet.getD j 0 else packet.getD i 0 := by
  unfold swap_bytes
  simp only [List.getD_eq_getElem?_getD, List.getElem?_set, List.length_set]
  by_cases h1 : i = k
  · subst h1
    simp [hk, Ne.symm hjk]
  · by_cases h2 : i = j
    · subst h2
      simp [hj, hjk, Ne.symm h1]
    · simp [Ne.symm h1, Ne.symm h2, h1, h2]

theorem swap_bytes_bytes (packet : List Nat) (j k : Nat) (hb : ∀ b ∈ packet, b < 256) :
    ∀ b ∈ swap_bytes packet j k, b < 256 := by
  intro b hmem
  unfold swap_bytes at hmem
  rcases List.mem_or_eq_of_mem_set hmem with h | h
  · rcases List.mem_or_eq_of_mem_set h with h' | h'
    · exact hb b h'
    · rw [h']; exact getD_lt_of_bytes packet hb k
  · rw [h]; exact getD_lt_of_bytes packet hb j

/-- Exchange of the bytes at `j < k` in terms of the checksum loop. -/
theorem crc_swap_ne_of_lt (packet : List Nat) (end_ j k : Nat) (hb : ∀ b ∈ packet, b < 256)
    (hend : end_ ≤ 255) (hlen : end_ ≤ packet.length) (hj : 1 ≤ j) (hjk : j < k)
    (hk : k < end_) (hne : packet.getD j 0 ≠ packet.getD k 0) :
    calculate_crc16 (swap_bytes packet j k) end_ ≠ calculate_crc16 packet end_ := by
  unfold calculate_crc16
  rw [crc_outer_eq_run _ (swap_bytes_bytes packet j k hb) _ _ _ (by norm_num),
    crc_outer_eq_run _ hb _ _ _ (by norm_num)]
  obtain ⟨h0, h255⟩ := xor_ne_zero_lt _ _ (getD_lt_of_bytes packet hb j)
    (getD_lt_of_bytes packet hb k) hne
  have hfun : (fun i => (swap_bytes packet j k).getD i 0)
      = fun i => packet.getD i 0 ^^^
          (if i = j ∨ i = k then packet.getD j 0 ^^^ packet.getD k 0 else 0) := by
    funext i
    rw [swap_bytes_getD packet j k i (by omega) (by omega) (by omega)]
    by_cases h1 : i = j
    · subst h1
      simp only [if_true, true_or]
      rw [Nat.xor_cancel_left]
    · by_cases h2 : i = k
      · subst h2
        simp only [h1, if_false, if_true, or_true]
        rw [Nat.xor_comm (packet.getD j 0), Nat.xor_cancel_left]
      · simp only [h1, h2, if_false, or_self, Nat.xor_zero]
  rw [hfun]
  have hlin := crc_run_xor (fun i => packet.getD i 0)
    (fun i => if i = j ∨ i = k then packet.getD j 0 ^^^ packet.getD k 0 else 0) (end_ - 1) 1 0 0
  rw [Nat.xor_zero] at hlin
  rw [hlin]
  intro h
  have herr := error_run_ne_zero
    (fun i => if i = j ∨ i = k then packet.getD j 0 ^^^ packet.getD k 0 else 0)
    (packet.getD j 0 ^^^ packet.getD k 0) (j - 1) (k - j - 1) (end_ - 1 - k) h0 h255 (by omega)
    (by simp only; rw [if_pos (Or.inl (by omega))])
    (by simp only; rw [if_pos (Or.inr (by omega))])
    (fun i h1 h2 => by simp only; rw [if_neg]; omega)
  rw [show j - 1 + (1 + (k - j - 1 + (1 + (end_ - 1 - k)))) = end_ - 1 by omega] at herr
  apply herr
  have := congrArg (fun t => crc_run (fun i => packet.getD i 0) (end_ - 1) 1 0 ^^^ t) h
  simp only [Nat.xor_cancel_left, Nat.xor_self] at this
  exact this

/-! ### Packets that agree beyond the first byte, leading zero bytes -/

theorem crc_outer_agree (p q : List Nat) : ∀ (n ii c : Nat),
    (∀ i, ii ≤ i → i < ii + n → p.getD i 0 = q.getD i 0) →
    crc_outer p n ii c = crc_outer q n ii c := by
  intro n
  induction n with
  | zero => intro ii c _; rfl
  | succ n ih =>
    intro ii c h
    show crc_outer p n (ii + 1) (crc_inner 8 ((c ^^^ p.getD ii 0) % 65536))
      = crc_outer q n (ii + 1) (crc_inner 8 ((c ^^^ q.getD ii 0) % 65536))
    rw [h ii (le_refl _) (by omega)]
    exact ih _ _ fun i h1 h2 => h i (by omega) (by omega)

theorem uart_rx_byte_zero (s : State) (b : Nat) (hb : b % 256 = 0)
    (hempty : s.rx_buffer_len = 0) (hexp : 0 < s.expected_len) :
    uart_rx_byte s b = some s := by
  unfold uart_rx_byte
  simp only [hb, hempty, and_self, if_true]
  rw [if_neg (by omega)]

theorem feed_bytes_zero (s : State) (bytes : List Nat)
    (hempty : s.rx_buffer_len = 0) (hexp : 0 < s.expected_len) :
    feed_bytes s (0 :: bytes) = feed_bytes s bytes := by
  rw [feed_bytes_cons, uart_rx_byte_zero s 0 rfl hempty hexp]
  rfl

theorem feed_bytes_zeros (s : State) (bytes : List Nat) (n : Nat)
    (hempty : s.rx_buffer_len = 0) (hexp : 0 < s.expected_len) :
    feed_bytes s (List.replicate n 0 ++ bytes) = feed_bytes s bytes := by
  induction n with
  | zero => rfl
  | succ n ih =>
    rw [List.replicate_succ, List.cons_append, feed_bytes_zero s _ hempty hexp]
    exact ih

theorem be_value_payload_lt (i : Nat) (payload : List Nat) (hi : i < COMMAND_COUNT)
    (hpl : payload.length = COMMAND_LENGTHS.getD i 0) (hbytes : ∀ b ∈ payload, b < 256) :
    be_value payload < 4294967296 := by
  rcases COMMAND_LENGTHS_two_or_four i hi with h | h
  · have := be_value_two_lt payload (by rw [hpl, h]) hbytes
    omega
  · obtain ⟨p0, p1, p2, p3, rfl⟩ := length_eq_four (by rw [hpl, h] : payload.length = 4)
    have h0 : p0 < 256 := hbytes p0 (by simp)
    have h1 : p1 < 256 := hbytes p1 (by simp)
    have h2 : p2 < 256 := hbytes p2 (by simp)
    have h3 : p3 < 256 := hbytes p3 (by simp)
    rw [be_value_four]; omega

/-- The state after an accepted reply keeps the declared array sizes. -/
theorem wf_after_reply (s : State) (i : Nat) (payload : List Nat) (hi : i < COMMAND_COUNT)
    (hwf : s.wf) (hpl : payload.length = COMMAND_LENGTHS.getD i 0)
    (hbytes : ∀ b ∈ payload, b < 256) (t : State)
    (h1 : t.rx_buffer = reply_frame i payload ++ s.rx_buffer.drop (COMMAND_LENGTHS.getD i 0 + 9))
    (h2 : t.inverter_values = s.inverter_values.set i (be_value payload)) : t.wf := by
  obtain ⟨h16, hb, hval, hv⟩ := hwf
  have hL := COMMAND_LENGTHS_two_or_four i hi
  have hlen := reply_frame_length i payload hpl
  unfold RX_BUFFER_LENGTH at h16
  refine ⟨?_, ?_, ?_, ?_⟩
  · rw [h1, List.length_append, hlen, List.length_drop, h16]
    unfold RX_BUFFER_LENGTH
    omega
  · intro b hmem
    rw [h1] at hmem
    rcases List.mem_append.mp hmem with h | h
    · exact reply_frame_bytes i payload hi hbytes b h
    · exact hb b (List.mem_of_mem_drop h)
  · rw [h2, List.length_set]; exact hval
  · intro v hmem
    rw [h2] at hmem
    rcases List.mem_or_eq_of_mem_set hmem with h | h
    · exact hv v h
    · rw [h]; exact be_value_payload_lt i payload hi hpl hbytes

/-- A well-formed reply to a command that is not the last one leads to the
next awaiting state; only the exchange variables change. -/
theorem feed_reply_next (s : State) (i : Nat) (payload : List Nat)
    (hi : i < COMMAND_COUNT - 1) (hA : Awaiting s i) (hempty : s.rx_buffer_len = 0)
    (hpl : payload.length = COMMAND_LENGTHS.getD i 0) (hbytes : ∀ b ∈ payload, b < 256) :
    ∃ s', feed_bytes s (reply_frame i payload) = some s' ∧ Awaiting s' (i + 1) ∧
      s'.rx_buffer_len = 0 ∧
      s'.inverter_values = s.inverter_values.set i (be_value payload) ∧
      s'.timeout = s.timeout ∧ s'.posted = s.posted ∧ s'.heap = s.heap ∧
      s'.net = s.net ∧ s'.value_buf = s.value_buf ∧
      s'.uart1_tx = s.uart1_tx ++ request_frame (i + 1) := by
  have hi' : i < COMMAND_COUNT := by unfold COMMAND_COUNT at hi ⊢; omega
  have hi1 : i + 1 < COMMAND_COUNT := by unfold COMMAND_COUNT at hi ⊢; omega
  have hne : i ≠ COMMAND_COUNT - 1 := by unfold COMMAND_COUNT at hi ⊢; omega
  rw [feed_reply_frame s i payload hi' hA hempty hpl hbytes, if_neg hne,
    send_data_request_eq _ (i + 1) hi1 rfl]
  refine ⟨_, rfl, ⟨hi1, ?_, rfl, rfl, rfl⟩, rfl, rfl, rfl, rfl, rfl, rfl, rfl, rfl⟩
  exact wf_after_reply s i payload hi' hA.2.1 hpl hbytes _ rfl rfl

/-! ### Appends that return true -/

theorem os_malloc_tail (heap : Heap) (n : Nat) : (os_malloc heap n).2 = heap.tail := by
  match heap with
  | [] => rfl
  | none :: _ => rfl
  | some _ :: _ => rfl

theorem os_malloc_length (heap : Heap) (n : Nat) (blk : List Nat) (heap1 : Heap)
    (h : os_malloc heap n = (some blk, heap1)) : blk.length = n := by
  rcases os_malloc_cases heap n with ⟨h1, e, _⟩ | ⟨blk', h1, e, hl, _⟩
  · rw [e] at h; cases h
  · rw [e] at h; cases h; exact hl

theorem mem_write_some (mem src m : List Nat) (idx : Nat) (h : mem_write mem idx src = some m) :
    idx + src.length ≤ mem.length ∧ m = mem.take idx ++ src ++ mem.drop (idx + src.length) ∧
    m.length = mem.length := by
  unfold mem_write at h
  by_cases hle : idx + src.length ≤ mem.length
  · rw [if_pos hle] at h
    cases h
    refine ⟨hle, rfl, ?_⟩
    simp only [List.length_append, List.length_take, List.length_drop]
    omega
  · rw [if_neg hle] at h; cases h

/-- A resize that returns true: one allocation, same characters. -/
theorem resize_true (heap : Heap) (b : string_builder) (add : Nat) (hwf : b.wf)
    (r : string_builder) (heap1 : Heap)
    (h : resize_string_builder heap b add = some (true, r, heap1)) :
    r.buf.length = r.allocated ∧ r.len = b.len ∧ r.text = b.text ∧ heap1 = heap.tail ∧
    r.allocated =
      (if to_u32 ((b.allocated : Int) + b.allocated - b.len) < add then
        (b.len + add) % 4294967296 else b.allocated + b.allocated) := by
  unfold resize_string_builder at h
  simp only [] at h
  generalize hsz : (if to_u32 ((b.allocated : Int) + b.allocated - b.len) < add then
        (b.len + add) % 4294967296 else b.allocated + b.allocated) = new_size at h ⊢
  have htail := os_malloc_tail heap new_size
  cases hm : os_malloc heap new_size with
  | mk blk heap' =>
    rw [hm] at h htail
    cases blk with
    | none => simp at h
    | some new_string =>
      have hbl := os_malloc_length heap new_size new_string heap' hm
      have hr : mem_read b.buf b.len = some (b.buf.take b.len) := by
        unfold mem_read; rw [if_pos (by have := hwf.1; have := hwf.2; omega)]
      simp only [hr, Option.some_bind] at h
      cases hw : mem_write new_string 0 (b.buf.take b.len) with
      | none => rw [hw] at h; simp at h
      | some copied =>
        rw [hw] at h
        simp only [Option.some_bind, Option.some.injEq, Prod.mk.injEq, true_and] at h
        obtain ⟨hr', hh⟩ := h
        obtain ⟨hle, hc, hcl⟩ := mem_write_some _ _ _ _ hw
        have htl : (b.buf.take b.len).length = b.len := by
          rw [List.length_take]; have := hwf.1; have := hwf.2; omega
        subst hr'
        refine ⟨by simp only; omega, rfl, ?_, by rw [← hh]; exact htail, rfl⟩
        unfold string_builder.text
        simp only
        rw [hc, List.take_zero, List.nil_append, List.take_append_of_le_length (by omega),
          List.take_of_length_le (by omega)]

/-- The two stores of `append_string_builder` when both stay inside the block. -/
theorem append_stores (r : string_builder) (chars m1 m2 : List Nat)
    (hr : r.buf.length = r.allocated)
    (h1 : mem_write r.buf r.len chars = some m1)
    (h2 : mem_write m1 (r.len + (chars.length + 1)) [0] = some m2) :
    m2.length = r.allocated ∧ r.len + chars.length + 1 < r.allocated ∧
    m2.take (r.len + chars.length) = r.buf.take r.len ++ chars := by
  obtain ⟨hle1, hc1, hl1⟩ := mem_write_some _ _ _ _ h1
  obtain ⟨hle2, hc2, hl2⟩ := mem_write_some _ _ _ _ h2
  simp only [List.length_singleton] at hle2
  have htl : (r.buf.take r.len).length = r.len := by rw [List.length_take]; omega
  refine ⟨by omega, by omega, ?_⟩
  rw [hc2, List.append_assoc, List.take_append_of_le_length (by
    rw [List.length_take]; omega), List.take_take, Nat.min_eq_left (by omega), hc1,
    List.take_append_of_le_length (by rw [List.length_append, htl]),
    List.take_of_length_le (by rw [List.length_append, htl])]

/-- An append that returns true, whatever the allocator answered: the builder
stays well formed, the characters of `str` follow the previous characters, and
at most one allocation was made. -/
theorem append_string_builder_true (heap : Heap) (b : string_builder) (str : List Nat)
    (hwf : b.wf) (b1 : string_builder) (heap1 : Heap)
    (h : append_string_builder heap b str = some (true, b1, heap1)) :
    b1.wf ∧ b1.len = b.len + os_strlen str ∧
    b1.text = b.text ++ str.take (os_strlen str) ∧
    ((b1.allocated = b.allocated ∧ heap1 = heap) ∨
      ((b.allocated : Int) - b.len - 1 < (os_strlen str : Int) + 1 ∧ heap1 = heap.tail ∧
        b1.allocated =
          (if to_u32 ((b.allocated : Int) + b.allocated - b.len)
              < to_u32 ((os_strlen str : Int) + 1 - ((b.allocated : Int) - b.len - 1)) then
            (b.len + to_u32 ((os_strlen str : Int) + 1 - ((b.allocated : Int) - b.len - 1)))
              % 4294967296
          else b.allocated + b.allocated))) := by
  have hsl : (str.take (os_strlen str)).length = os_strlen str := by
    rw [List.length_take]
    have : os_strlen str ≤ str.length := by
      unfold os_strlen; exact (List.takeWhile_sublist _).length_le
    omega
  have core : ∀ (r : string_builder) (hp : Heap), r.buf.length = r.allocated →
      ((mem_write r.buf r.len (str.take (os_strlen str))).bind fun m1 =>
        (mem_write m1 (r.len + (os_strlen str + 1)) [0]).bind fun m2 =>
        some (true, { r with buf := m2, len := r.len + os_strlen str }, hp))
        = some (true, b1, heap1) →
      b1.wf ∧ b1.len = r.len + os_strlen str ∧
        b1.text = r.text ++ str.take (os_strlen str) ∧ b1.allocated = r.allocated ∧
        heap1 = hp := by
    intro r hp hr hh
    cases h1 : mem_write r.buf r.len (str.take (os_strlen str)) with
    | none => rw [h1] at hh; simp at hh
    | some m1 =>
      rw [h1] at hh
      simp only [Option.some_bind] at hh
      cases h2 : mem_write m1 (r.len + (os_strlen str + 1)) [0] with
      | none => rw [h2] at hh; simp at hh
      | some m2 =>
        rw [h2] at hh
        simp only [Option.some_bind, Option.some.injEq, Prod.mk.injEq, true_and] at hh
        obtain ⟨hb1, hhp⟩ := hh
        have h2' : mem_write m1 (r.len + ((str.take (os_strlen str)).length + 1)) [0]
            = some m2 := by rw [hsl]; exact h2
        obtain ⟨q1, q2, q3⟩ := append_stores r _ m1 m2 hr h1 h2'
        rw [hsl] at q2 q3
        subst hb1
        refine ⟨⟨by simp only; omega, by simp only; omega⟩, rfl, ?_, rfl, hhp.symm⟩
        unfold string_builder.text
        simp only
        exact q3
  unfold append_string_builder at h
  simp only [] at h
  by_cases hc : (b.allocated : Int) - b.len - 1 < (os_strlen str : Int) + 1
  · rw [if_pos hc] at h
    cases hres : resize_string_builder heap b
        (to_u32 ((os_strlen str : Int) + 1 - ((b.allocated : Int) - b.len - 1))) with
    | none => rw [hres] at h; simp at h
    | some res =>
      obtain ⟨ok, r, hp⟩ := res
      rw [hres] at h
      simp only [Option.some_bind] at h
      cases ok with
      | false => simp at h
      | true =>
        simp only [Bool.true_eq_false, if_false] at h
        obtain ⟨hrl, hlen, htext, hheap, halloc⟩ := resize_true heap b _ hwf r hp hres
        obtain ⟨w, l, t, a, hh⟩ := core r hp hrl h
        refine ⟨w, by rw [l, hlen], by rw [t, htext], Or.inr ⟨hc, by rw [hh, hheap], ?_⟩⟩
        rw [a, halloc]
  · rw [if_neg hc] at h
    simp only [Option.some_bind, Bool.true_eq_false, if_false] at h
    obtain ⟨w, l, t, a, hh⟩ := core b heap hwf.1 h
    exact ⟨w, l, t, Or.inl ⟨a, hh⟩⟩

/-- An append that returns false leaves the builder as it was. -/
theorem append_string_builder_false (heap : Heap) (b : string_builder) (str : List Nat)
    (b1 : string_builder) (heap1 : Heap)
    (h : append_string_builder heap b str = some (false, b1, heap1)) : b1 = b := by
  unfold append_string_builder at h
  simp only [] at h
  by_cases hc : (b.allocated : Int) - b.len - 1 < (os_strlen str : Int) + 1
  · rw [if_pos hc] at h
    unfold resize_string_builder at h
    simp only [] at h
    generalize (if to_u32 ((b.allocated : Int) + b.allocated - b.len)
      < to_u32 ((os_strlen str : Int) + 1 - ((b.allocated : Int) - b.len - 1)) then _
      else b.allocated + b.allocated) = new_size at h
    cases hm : os_malloc heap new_size with
    | mk blk heap' =>
      rw [hm] at h
      cases blk with
      | none =>
        simp only [Option.some_bind, if_true] at h
        simp only [Option.some.injEq, Prod.mk.injEq, true_and] at h
        exact h.1.symm
      | some new_string =>
        simp only [] at h
        cases hr : mem_read b.buf b.len with
        | none => rw [hr] at h; simp at h
        | some old =>
          rw [hr] at h
          simp only [Option.some_bind] at h
          cases hw : mem_write new_string 0 old with
          | none => rw [hw] at h; simp at h
          | some copied =>
            rw [hw] at h
            simp only [Option.some_bind, Bool.true_eq_false, if_false] at h
            cases h1 : mem_write copied b.len (str.take (os_strlen str)) with
            | none => rw [h1] at h; simp at h
            | some m1 =>
              rw [h1] at h
              simp only [Option.some_bind] at h
              cases h2 : mem_write m1 (b.len + (os_strlen str + 1)) [0] with
              | none => rw [h2] at h; simp at h
              | some m2 => rw [h2] at h; simp at h
  · rw [if_neg hc] at h
    simp only [Option.some_bind, Bool.true_eq_false, if_false] at h
    cases h1 : mem_write b.buf b.len (str.take (os_strlen str)) with
    | none => rw [h1] at h; simp at h
    | some m1 =>
      rw [h1] at h
      simp only [Option.some_bind] at h
      cases h2 : mem_write m1 (b.len + (os_strlen str + 1)) [0] with
      | none => rw [h2] at h; simp at h
      | some m2 => rw [h2] at h; simp at h

/-! ### The report, whatever the allocator answers -/

/-- Outcome of one append of a NUL-free string to a well-formed builder. -/
theorem append_outcome (heap : Heap) (b : string_builder) (str : List Nat)
    (res : Bool × string_builder × Heap) (hwf : b.wf) (hnul : ∀ c ∈ str, c ≠ 0)
    (h : append_string_builder heap b str = some res) :
    res.2.1.wf ∧ (res.1 = true → res.2.1.text = b.text ++ str) := by
  obtain ⟨ok, b1, heap1⟩ := res
  obtain ⟨_, hst⟩ := os_strlen_of_nul_free str hnul
  cases ok with
  | false =>
    rw [append_string_builder_false heap b str b1 heap1 h]
    exact ⟨hwf, fun hf => by cases hf⟩
  | true =>
    obtain ⟨w, _, t, _⟩ := append_string_builder_true heap b str hwf b1 heap1 h
    rw [hst] at t
    exact ⟨w, fun _ => t⟩

theorem append_int32_outcome (heap : Heap) (b : string_builder) (v : Int)
    (res : Bool × string_builder × Heap) (hwf : b.wf)
    (h : append_int32_string_builder heap b (to_i32 v) = some res) :
    res.2.1.wf ∧ (res.1 = true → res.2.1.text = b.text ++ sprintf_d (to_i32 v)) := by
  obtain ⟨hlo, hhi⟩ := to_i32_range v
  exact append_outcome heap b _ res hwf (sprintf_d_spec (to_i32 v) hlo hhi).1 h

theorem report_tags_outcome (values : List Nat) : ∀ (n ii : Nat)
    (acc r : Bool × string_builder × Heap), acc.2.1.wf →
    report_tags values n ii acc = some r →
    r.2.1.wf ∧ (r.1 = true → acc.1 = true ∧
      r.2.1.text = acc.2.1.text ++
        ((List.range' ii n).map (report_entry_text values)).flatten) := by
  intro n
  induction n with
  | zero =>
    intro ii acc r hwf h
    have : acc = r := by simpa [report_tags] using h
    subst this
    exact ⟨hwf, fun h1 => ⟨h1, by simp⟩⟩
  | succ n ih =>
    intro ii acc r hwf h
    unfold report_tags at h
    simp only [Option.bind_eq_some] at h
    obtain ⟨r1, e1, tag, etag, r2, e2, r3, e3, v, ev, r4, e4, hrec⟩ := h
    have htag : (∀ c ∈ cstr tag, c ≠ 0) := (COMMAND_TAGS_strings tag (List.getElem?_mem etag)).1
    obtain ⟨w1, t1⟩ := append_outcome _ _ _ r1 hwf (separator_strings ii).1 e1
    obtain ⟨w2, t2⟩ := append_outcome _ _ _ r2 w1 htag e2
    obtain ⟨w3, t3⟩ := append_outcome _ _ _ r3 w2 (by decide) e3
    obtain ⟨w4, t4⟩ := append_int32_outcome _ _ _ r4 w3 e4
    obtain ⟨w, t⟩ := ih (ii + 1) (acc.1 && r1.1 && r2.1 && r3.1 && r4.1, r4.2.1, r4.2.2) r w4 hrec
    refine ⟨w, fun hr => ?_⟩
    obtain ⟨hacc, htext⟩ := t hr
    simp only [Bool.and_eq_true] at hacc
    obtain ⟨⟨⟨⟨a0, a1⟩, a2⟩, a3⟩, a4⟩ := hacc
    refine ⟨a0, ?_⟩
    have hentry : report_entry_text values ii
        = (if ii > 0 then cstr ",\"" else cstr "\"") ++ cstr tag ++ cstr "\":" ++
          sprintf_d (to_i32 (v : Int)) := by
      unfold report_entry_text
      rw [List.getD_eq_getElem?_getD, List.getD_eq_getElem?_getD, etag, ev]
      rfl
    rw [htext]
    show r4.2.1.text ++ _ = _
    rw [t4 a4, t3 a3, t2 a2, t1 a1, List.range'_succ, List.map_cons, List.flatten_cons, hentry]
    simp only [List.append_assoc]

/-- What `tagwriter_post` changes besides the connection: the content text is
recorded as posted; the degraded flag and the exchange variables are kept. -/
theorem tagwriter_post_frame (s : State) (content : string_builder) (s' : State)
    (h : tagwriter_post s content = some s') :
    s'.posted = s.posted ++ [content.text] ∧ s'.timeout = s.timeout ∧
    s'.exchange = s.exchange := by
  unfold tagwriter_post at h
  simp only [] at h
  cases hc : create_string_builder s.heap ((content.len : Int) + 100) with
  | mk ob heap1 =>
    rw [hc] at h
    cases ob with
    | none =>
      simp only [Option.some.injEq] at h
      subst h
      exact ⟨rfl, rfl, rfl⟩
    | some sb =>
      simp only [Option.bind_eq_some] at h
      obtain ⟨r1, _, r2, _, r3, _, r4, _, hfin⟩ := h
      split at hfin
      · simp only [Option.some.injEq] at hfin
        subst hfin
        exact ⟨rfl, rfl, rfl⟩
      · simp only [Option.some.injEq] at hfin
        subst hfin
        exact ⟨rfl, rfl, rfl⟩

/-- What `process_response_report` does whenever it returns: either nothing
is posted and the degraded flag is not raised, or the text built from the
result table and the degraded flag is posted and the flag is cleared. -/
theorem process_response_report_frame (s s' : State)
    (h : process_response_report s = some s') :
    s'.exchange = s.exchange ∧
    ((s'.posted = s.posted ∧ (s'.timeout = true → s.timeout = true)) ∨
      (s'.posted = s.posted ++ [report_body_code s.inverter_values s.timeout] ∧
        s'.timeout = false)) := by
  unfold process_response_report at h
  rcases create_string_builder_cases s.heap 128 (by norm_num) with
    ⟨heap1, h1, _⟩ | ⟨c0, heap1, h1, hw0, hl0, _, _⟩
  · rw [h1] at h
    simp only [Option.some.injEq] at h
    subst h
    exact ⟨rfl, Or.inl ⟨rfl, fun hh => hh⟩⟩
  · rw [h1] at h
    simp only [Option.bind_eq_some] at h
    obtain ⟨r0, e0, r1, e1, r2, e2, hfin⟩ := h
    obtain ⟨w0, t0⟩ := append_outcome _ _ _ r0 hw0 (by decide) e0
    obtain ⟨w1, t1⟩ := report_tags_outcome _ _ _ _ r1 w0 e1
    obtain ⟨_, t2⟩ := append_outcome _ _ _ r2 w1 (suffix_strings s.timeout).1 e2
    split at hfin
    · rename_i hok
      simp only [Bool.and_eq_true] at hok
      obtain ⟨p, tm, ex⟩ := tagwriter_post_frame _ _ _ hfin
      obtain ⟨o0, tx1⟩ := t1 hok.1
      have ht0 : c0.text = [] := by unfold string_builder.text; rw [hl0]; rfl
      have htext : r2.2.1.text = report_body_code s.inverter_values s.timeout := by
        rw [t2 hok.2, tx1, t0 o0, ht0]
        rfl
      rw [htext] at p
      exact ⟨ex, Or.inr ⟨p, tm⟩⟩
    · simp only [Option.some.injEq] at hfin
      subst hfin
      exact ⟨rfl, Or.inl ⟨rfl, fun hh => by cases hh⟩⟩

/-! ### The `groups` field of a report -/

theorem has_gr_cons (a : Nat) (l : List Nat) (h : has_gr l = true) : has_gr (a :: l) = true := by
  cases l with
  | nil => simp [has_gr] at h
  | cons b r =>
    unfold has_gr
    rw [h, Bool.or_true]

theorem has_gr_of_groups (l : List Nat) (h : has_groups l) : has_gr l = true := by
  obtain ⟨u, v, rfl⟩ := h
  induction u with
  | nil =>
    show has_gr (34 :: 103 :: 114 :: _) = true
    simp [has_gr]
  | cons a u ih => exact has_gr_cons a _ ih

theorem has_gr_append (l1 l2 : List Nat) (h1 : has_gr l1 = false) (h2 : has_gr l2 = false)
    (hh : l2.head? ≠ some 114) : has_gr (l1 ++ l2) = false := by
  induction l1 with
  | nil => exact h2
  | cons a l1 ih =>
    cases l1 with
    | nil =>
      cases l2 with
      | nil => rfl
      | cons b r =>
        show has_gr (a :: b :: r) = false
        unfold has_gr
        have hb : b ≠ 114 := fun hb => hh (by rw [hb]; rfl)
        simp [hb, h2]
    | cons a' l1' =>
      show has_gr (a :: a' :: (l1' ++ l2)) = false
      unfold has_gr at h1 ⊢
      rw [Bool.or_eq_false_iff] at h1 ⊢
      exact ⟨h1.1, ih h1.2⟩

theorem has_gr_of_not_mem (l : List Nat) (h : 103 ∉ l) : has_gr l = false := by
  induction l with
  | nil => rfl
  | cons a l ih =>
    cases l with
    | nil => rfl
    | cons b r =>
      unfold has_gr
      have ha : a ≠ 103 := fun ha => h (by rw [ha]; exact List.mem_cons_self _ _)
      rw [ih fun hm => h (List.mem_cons_of_mem _ hm)]
      simp [ha]

theorem digitChar_is_digit (d : Nat) (h : d < 10) :
    48 ≤ (Nat.digitChar d).toNat ∧ (Nat.digitChar d).toNat ≤ 57 := by
  interval_cases d <;> decide

theorem toDigitsCore_digits (fuel : Nat) : ∀ (n : Nat) (ds : List Char),
    (∀ c ∈ ds, 45 ≤ c.toNat ∧ c.toNat ≤ 57) →
    ∀ c ∈ Nat.toDigitsCore 10 fuel n ds, 45 ≤ c.toNat ∧ c.toNat ≤ 57 := by
  induction fuel with
  | zero => intro n ds h; simpa [Nat.toDigitsCore] using h
  | succ fuel ih =>
    intro n ds h
    have hd := digitChar_is_digit (n % 10) (Nat.mod_lt _ (by norm_num))
    have hds : ∀ c ∈ Nat.digitChar (n % 10) :: ds, 45 ≤ c.toNat ∧ c.toNat ≤ 57 := by
      intro c hc
      rcases List.mem_cons.mp hc with rfl | hc
      · omega
      · exact h c hc
    unfold Nat.toDigitsCore
    simp only
    split
    · exact hds
    · exact ih _ _ hds

theorem cstr_nat_digits (n : Nat) : ∀ c ∈ cstr (toString n), 45 ≤ c ∧ c ≤ 57 := by
  intro c hc
  unfold cstr at hc
  obtain ⟨ch, hch, rfl⟩ := List.mem_map.mp hc
  have : ch ∈ Nat.toDigits 10 n := by
    simpa [toString, Nat.repr, String.toList] using hch
  exact toDigitsCore_digits _ _ _ (by simp) ch this

/-- Every character `%d` prints is a minus sign or a digit. -/
theorem sprintf_d_digits (val : Int) : ∀ c ∈ sprintf_d val, 45 ≤ c ∧ c ≤ 57 := by
  cases val with
  | ofNat n => exact cstr_nat_digits n
  | negSucc n =>
    rw [sprintf_d_negSucc]
    intro c hc
    rcases List.mem_cons.mp hc with rfl | hc
    · omega
    · exact cstr_nat_digits _ c hc

theorem report_entry_key_no_gr :
    ∀ ii < 38, has_gr (report_entry_key ii) = false ∧
      ((report_entry_key ii).head? = some 44 ∨ (report_entry_key ii).head? = some 34) := by
  decide

theorem report_entry_text_eq_key (values : List Nat) (ii : Nat) :
    report_entry_text values ii
      = report_entry_key ii ++ sprintf_d (to_i32 (values.getD ii 0)) := rfl

theorem head?_append_of_head? (l1 l2 : List Nat) (a : Nat) (h : l1.head? = some a) :
    (l1 ++ l2).head? = some a := by
  cases l1 with
  | nil => cases h
  | cons b r => exact h

theorem report_entry_text_no_gr (values : List Nat) (ii : Nat) (hii : ii < 38) :
    has_gr (report_entry_text values ii) = false ∧
      (report_entry_text values ii).head? ≠ some 114 := by
  obtain ⟨hk, hh⟩ := report_entry_key_no_gr ii hii
  rw [report_entry_text_eq_key]
  have hd := sprintf_d_digits (to_i32 (values.getD ii 0))
  refine ⟨has_gr_append _ _ hk (has_gr_of_not_mem _ fun hm => ?_) ?_, ?_⟩
  · have := hd 103 hm; omega
  · intro hhead
    have := hd 114 (List.mem_of_mem_head? hhead)
    omega
  · rcases hh with h | h
    · rw [head?_append_of_head? _ _ _ h]; simp
    · rw [head?_append_of_head? _ _ _ h]; simp

theorem report_entries_no_gr (values : List Nat) : ∀ (n ii : Nat), ii + n ≤ 38 →
    has_gr (((List.range' ii n).map (report_entry_text values)).flatten) = false ∧
    (((List.range' ii n).map (report_entry_text values)).flatten).head? ≠ some 114 := by
  intro n
  induction n with
  | zero => intro ii _; exact ⟨rfl, by simp⟩
  | succ n ih =>
    intro ii h
    obtain ⟨e1, e2⟩ := report_entry_text_no_gr values ii (by omega)
    obtain ⟨r1, r2⟩ := ih (ii + 1) (by omega)
    rw [List.range'_succ, List.map_cons, List.flatten_cons]
    refine ⟨has_gr_append _ _ e1 r1 r2, ?_⟩
    cases hc : report_entry_text values ii with
    | nil =>
      rw [report_entry_text_eq_key] at hc
      obtain ⟨_, hh⟩ := report_entry_key_no_gr ii (by omega)
      have hnil := (List.append_eq_nil.mp hc).1
      rw [hnil] at hh
      simp at hh
    | cons a r =>
      rw [hc] at e2
      exact e2

/-- The report built by the code carries a `groups` field exactly when the
degraded flag was set. -/
theorem has_groups_report_iff (values : List Nat) (degraded : Bool) :
    has_groups (report_body_code values degraded) ↔ degraded = true := by
  constructor
  · intro h
    cases degraded with
    | true => rfl
    | false =>
      exfalso
      have hgr := has_gr_of_groups _ h
      obtain ⟨r1, r2⟩ := report_entries_no_gr values 38 0 (by norm_num)
      have : has_gr (report_body_code values false) = false := by
        unfold report_body_code
        simp only [Bool.false_eq_true, if_false]
        refine has_gr_append _ _ (has_gr_append _ _ (by decide) r1 r2) (by decide) (by decide)
      rw [this] at hgr
      cases hgr
  · intro h
    subst h
    unfold report_body_code has_groups
    simp only [if_true]
    refine ⟨cstr "\x7b\"tags\":\x7b" ++
      ((List.range' 0 COMMAND_COUNT).map (report_entry_text values)).flatten ++ cstr "\x7d,",
      cstr ":\x7b\"2\":\"healthy\"\x7d\x7d", ?_⟩
    simp only [List.append_assoc]
    rfl

/-! ### What one event does to the posted reports and the degraded flag -/

theorem send_data_request_frame (s t : State) (h : send_data_request s = some t) :
    t.posted = s.posted ∧ t.timeout = s.timeout ∧ t.rx_buffer = s.rx_buffer := by
  unfold send_data_request at h
  simp only [Option.bind_eq_some] at h
  obtain ⟨_, _, _, _, hfin⟩ := h
  simp only [Option.some.injEq] at hfin
  subst hfin
  exact ⟨rfl, rfl, rfl⟩

theorem packet_mismatch_dump_frame (s t : State) (h : packet_mismatch_dump s = some t) :
    t.posted = s.posted ∧ t.timeout = s.timeout ∧ t.exchange = s.exchange := by
  obtain ⟨heap1, log1, e⟩ := packet_mismatch_dump_some s t h
  subst e
  exact ⟨rfl, rfl, rfl⟩

theorem set_inverter_value_frame (s t : State) (v : Nat) (h : set_inverter_value s v = some t) :
    t.posted = s.posted ∧ t.timeout = s.timeout ∧ t.rx_buffer = s.rx_buffer := by
  unfold set_inverter_value at h
  split at h
  · simp only [Option.some.injEq] at h
    subst h
    exact ⟨rfl, rfl, rfl⟩
  · cases h

theorem process_response_store_frame (s t : State) (h : process_response_store s = some t) :
    t.posted = s.posted ∧ t.timeout = s.timeout ∧ t.rx_buffer = s.rx_buffer := by
  unfold process_response_store at h
  simp only [Option.bind_eq_some] at h
  obtain ⟨l, _, hl⟩ := h
  split at hl
  · simp only [Option.bind_eq_some] at hl
    obtain ⟨_, _, hfin⟩ := hl
    exact set_inverter_value_frame _ _ _ hfin
  · split at hl
    · simp only [Option.bind_eq_some] at hl
      obtain ⟨_, _, _, _, hfin⟩ := hl
      exact set_inverter_value_frame _ _ _ hfin
    · split at hl
      · simp only [Option.bind_eq_some] at hl
        obtain ⟨_, _, _, _, _, _, _, _, hfin⟩ := hl
        exact set_inverter_value_frame _ _ _ hfin
      · simp only [Option.some.injEq] at hl
        subst hl
        exact ⟨rfl, rfl, rfl⟩

/-- The effect of `process_response` on the posted reports, the degraded flag
and the receive buffer, in every state in which it returns. -/
theorem process_response_frame (s t : State) (h : process_response s = some t) :
    t.rx_buffer = s.rx_buffer ∧
    ((t.posted = s.posted ∧ (t.timeout = true → s.timeout = true)) ∨
      (∃ values, t.posted = s.posted ++ [report_body_code values s.timeout] ∧
        t.timeout = false)) := by
  unfold process_response at h
  simp only [Option.bind_eq_some] at h
  obtain ⟨bad, _, s1, hs1, hcheck⟩ := h
  have h1 : s1.posted = s.posted ∧ s1.timeout = s.timeout ∧ s1.rx_buffer = s.rx_buffer := by
    split at hs1
    · obtain ⟨p, q, ex⟩ := packet_mismatch_dump_frame _ _ hs1
      refine ⟨p, q, ?_⟩
      have := congrArg (fun x => x.2.2.2.2.1) ex
      simpa [State.exchange] using this
    · simp only [Option.some.injEq] at hs1
      subst hs1
      exact ⟨rfl, rfl, rfl⟩
  unfold process_response_check at hcheck
  simp only [Option.bind_eq_some] at hcheck
  obtain ⟨lo, _, hi, _, hrest⟩ := hcheck
  split at hrest
  · split at hrest
    · split at hrest
      · simp only [Option.some.injEq] at hrest
        subst hrest
        exact ⟨h1.2.2, Or.inl ⟨h1.1, fun hh => by rw [← h1.2.1]; exact hh⟩⟩
      · cases hrest
    · simp only [Option.bind_eq_some] at hrest
      obtain ⟨s2, hs2, hfin⟩ := hrest
      obtain ⟨p2, q2, b2⟩ := process_response_store_frame _ _ hs2
      have p2' : s2.posted = s.posted := by rw [p2]; exact h1.1
      have q2' : s2.timeout = s.timeout := by rw [q2]; exact h1.2.1
      have b2' : s2.rx_buffer = s.rx_buffer := by rw [b2]; exact h1.2.2
      split at hfin
      · obtain ⟨ex, hr⟩ := process_response_report_frame s2 t hfin
        have hb : t.rx_buffer = s2.rx_buffer := by
          have := congrArg (fun x => x.2.2.2.2.1) ex
          simpa [State.exchange] using this
        refine ⟨by rw [hb, b2'], ?_⟩
        rcases hr with ⟨p, q⟩ | ⟨p, q⟩
        · exact Or.inl ⟨by rw [p, p2'], fun hh => by rw [← q2']; exact q hh⟩
        · exact Or.inr ⟨s2.inverter_values, by rw [p, p2', q2'], q⟩
      · obtain ⟨p, q, b⟩ := send_data_request_frame _ t hfin
        exact ⟨by rw [b]; exact b2',
          Or.inl ⟨by rw [p]; exact p2', fun hh => by rw [← q2', ← q]; exact hh⟩⟩
  · cases hrest

/-- The effect of one received byte on the posted reports and the degraded
flag. -/
theorem uart_rx_byte_frame (s t : State) (b : Nat) (h : uart_rx_byte s b = some t) :
    (t.posted = s.posted ∧ (t.timeout = true → s.timeout = true)) ∨
    (∃ values, t.posted = s.posted ++ [report_body_code values s.timeout] ∧
      t.timeout = false) := by
  unfold uart_rx_byte at h
  simp only [] at h
  generalize hs1 : (if b % 256 = 0 ∧ s.rx_buffer_len = 0 then s
    else if s.rx_buffer_len ≥ RX_BUFFER_LENGTH then s
    else { s with
      rx_buffer := s.rx_buffer.set s.rx_buffer_len (b % 256)
      rx_buffer_len := (s.rx_buffer_len + 1) % 256 }) = s1 at h
  have h1 : s1.posted = s.posted ∧ s1.timeout = s.timeout := by
    rw [← hs1]
    split
    · exact ⟨rfl, rfl⟩
    · split
      · exact ⟨rfl, rfl⟩
      · exact ⟨rfl, rfl⟩
  split at h
  · simp only [Option.map_eq_some'] at h
    obtain ⟨t', ht', hfin⟩ := h
    subst hfin
    rcases (process_response_frame s1 t' ht').2 with ⟨p, q⟩ | ⟨values, p, q⟩
    · exact Or.inl ⟨by show t'.posted = _; rw [p, h1.1],
        fun hh => by rw [← h1.2]; exact q hh⟩
    · exact Or.inr ⟨values, by show t'.posted = _; rw [p, h1.1, h1.2], q⟩
  · simp only [Option.some.injEq] at h
    subst h
    exact Or.inl ⟨h1.1, fun hh => by rw [← h1.2]; exact hh⟩

/-- A zero byte arriving at an empty accumulator is never stored: in every
state in which the callback returns, the accumulator is empty afterwards and
the receive buffer is unchanged. -/
theorem uart_rx_byte_zero_frame (s t : State) (b : Nat) (hb : b % 256 = 0)
    (hempty : s.rx_buffer_len = 0) (h : uart_rx_byte s b = some t) :
    t.rx_buffer_len = 0 ∧ t.rx_buffer = s.rx_buffer := by
  unfold uart_rx_byte at h
  simp only [hb, hempty, and_self, if_true] at h
  split at h
  · simp only [Option.map_eq_some'] at h
    obtain ⟨t', ht', hfin⟩ := h
    subst hfin
    exact ⟨rfl, (process_response_frame s t' ht').1⟩
  · simp only [Option.some.injEq] at h
    subst h
    exact ⟨hempty, rfl⟩

/-! ### The degraded flag along an execution -/

theorem history_invariant_step (s t : State) (h : History) (e : Event)
    (hinv : history_invariant s h) (hstep : step s e = some t) :
    history_invariant t (h.observe s e t) := by
  obtain ⟨i1, i2⟩ := hinv
  cases e with
  | transmit =>
    have hstep' : send_data_request { s with current_command_index := 0 } = some t := hstep
    obtain ⟨_, q, _⟩ := send_data_request_frame _ t hstep'
    exact ⟨fun hh => i1 (by rw [← q]; exact hh), i2⟩
  | timeout => exact ⟨fun _ => Or.inl rfl, i2⟩
  | rx b =>
    have hstep' : uart_rx_byte s b = some t := by
      rw [← uart_rx_task_single]; exact hstep
    rcases uart_rx_byte_frame s t b hstep' with ⟨p, q⟩ | ⟨values, p, q⟩
    · have : h.observe s (Event.rx b) t = h := by
        unfold History.observe History.observe_posted
        simp only [p, List.drop_length, List.foldl_nil]
      rw [this]
      exact ⟨fun hh => i1 (q hh), i2⟩
    · have : h.observe s (Event.rx b) t
          = h.record (report_body_code values s.timeout) := by
        unfold History.observe History.observe_posted
        simp only [p, List.drop_left, List.foldl_cons, List.foldl_nil]
      rw [this]
      refine ⟨fun hh => absurd hh (by rw [q]; decide), ?_⟩
      intro r hr hg
      unfold History.record at hr
      simp only [List.mem_append, List.mem_singleton] at hr
      rcases hr with hr | hr
      · exact i2 r hr hg
      · subst hr
        exact i1 ((has_groups_report_iff values s.timeout).mp hg)

theorem history_invariant_run : ∀ (evs : List Event) (s : State) (h : History)
    (s' : State) (h' : History), history_invariant s h → run s h evs = some (s', h') →
    history_invariant s' h' := by
  intro evs
  induction evs with
  | nil =>
    intro s h s' h' hinv hrun
    simp only [run, Option.some.injEq, Prod.mk.injEq] at hrun
    rw [← hrun.1, ← hrun.2]
    exact hinv
  | cons e es ih =>
    intro s h s' h' hinv hrun
    simp only [run, Option.bind_eq_some] at hrun
    obtain ⟨t, ht, hrest⟩ := hrun
    exact ih t _ s' h' (history_invariant_step s t h e hinv ht) hrest

/-! ### Receive events in a row, a whole sweep -/

theorem uart_rx_byte_posted (s t : State) (b : Nat) (h : uart_rx_byte s b = some t) :
    ∃ e, t.posted = s.posted ++ e := by
  rcases uart_rx_byte_frame s t b h with ⟨p, _⟩ | ⟨values, p, _⟩
  · exact ⟨[], by rw [p, List.append_nil]⟩
  · exact ⟨_, p⟩

theorem feed_bytes_posted : ∀ (bytes : List Nat) (s t : State),
    feed_bytes s bytes = some t → ∃ e, t.posted = s.posted ++ e := by
  intro bytes
  induction bytes with
  | nil =>
    intro s t h
    rw [feed_bytes_nil] at h
    cases h
    exact ⟨[], by rw [List.append_nil]⟩
  | cons b rest ih =>
    intro s t h
    rw [feed_bytes_cons] at h
    simp only [Option.bind_eq_some] at h
    obtain ⟨t1, h1, h2⟩ := h
    obtain ⟨e1, p1⟩ := uart_rx_byte_posted s t1 b h1
    obtain ⟨e2, p2⟩ := ih t1 t h2
    exact ⟨e1 ++ e2, by rw [p2, p1, List.append_assoc]⟩

theorem observe_posted_trans (h : History) (s t1 t2 : State) (e1 e2 : List (List Nat))
    (p1 : t1.posted = s.posted ++ e1) (p2 : t2.posted = t1.posted ++ e2) :
    (h.observe_posted s t1).observe_posted t1 t2 = h.observe_posted s t2 := by
  unfold History.observe_posted
  rw [p2, List.drop_left, p1, List.append_assoc, List.drop_left, List.drop_left,
    List.foldl_append]

/-- Receive events in a row: the run is `feed_bytes`, and the history records
the reports posted in between. -/
theorem run_rx_events : ∀ (bytes : List Nat) (s : State) (h : History),
    run s h (bytes.map Event.rx)
      = (feed_bytes s bytes).map fun t => (t, h.observe_posted s t) := by
  intro bytes
  induction bytes with
  | nil =>
    intro s h
    show some (s, h) = some (s, h.observe_posted s s)
    unfold History.observe_posted
    rw [List.drop_length]
    rfl
  | cons b rest ih =>
    intro s h
    rw [List.map_cons, feed_bytes_cons]
    show (uart_rx_task s 0 [b]).bind _ = _
    rw [uart_rx_task_single]
    cases h1 : uart_rx_byte s b with
    | none => rfl
    | some t1 =>
      simp only [Option.some_bind]
      rw [ih]
      show Option.map _ (feed_bytes t1 rest) = Option.map _ (feed_bytes t1 rest)
      cases h2 : feed_bytes t1 rest with
      | none => rfl
      | some t2 =>
        obtain ⟨e1, p1⟩ := uart_rx_byte_posted s t1 b h1
        obtain ⟨e2, p2⟩ := feed_bytes_posted rest t1 t2 h2
        simp only [Option.map_some']
        show some (t2, (h.observe_posted s t1).observe_posted t1 t2) = _
        rw [observe_posted_trans h s t1 t2 e1 e2 p1 p2]

theorem feed_bytes_append (s : State) (a b : List Nat) :
    feed_bytes s (a ++ b) = (feed_bytes s a).bind fun t => feed_bytes t b := by
  unfold feed_bytes
  rw [List.foldlM_append]
  rfl

/-- A whole sweep of well-formed replies from `Awaiting(i)` to the last
catalog entry, with allocations succeeding: the report of the table with the
payloads stored is posted. -/
theorem feed_sweep : ∀ (ps : List (List Nat)) (i : Nat) (s : State),
    Awaiting s i → s.rx_buffer_len = 0 → valid_payloads i ps = true →
    i + ps.length = COMMAND_COUNT → heap_succeeds s.heap →
    ∃ t, feed_bytes s (reply_frames i ps) = some t ∧
      t.posted = s.posted ++
        [report_body_code (store_payloads s.inverter_values i ps) s.timeout] ∧
      t.timeout = false := by
  intro ps
  induction ps with
  | nil =>
    intro i s hA _ _ hlen _
    have := hA.1
    simp only [List.length_nil, Nat.add_zero] at hlen
    omega
  | cons p ps ih =>
    intro i s hA hempty hvalid hlen hheap
    unfold valid_payloads at hvalid
    simp only [Bool.and_eq_true, decide_eq_true_eq, List.all_eq_true] at hvalid
    obtain ⟨⟨hpl, hbytes⟩, hrest⟩ := hvalid
    simp only [List.length_cons] at hlen
    show ∃ t, feed_bytes s (reply_frame i p ++ reply_frames (i + 1) ps) = some t ∧ _
    rw [feed_bytes_append]
    cases ps with
    | nil =>
      have hi : i = COMMAND_COUNT - 1 := by
        simp only [List.length_nil] at hlen
        unfold COMMAND_COUNT at hlen ⊢
        omega
      subst hi
      obtain ⟨s', e, hiv, _, _, _, hto, hp, _⟩ := feed_final_reply s p hA hempty hpl hbytes hheap
      rw [e]
      refine ⟨s', rfl, ?_, hto⟩
      rw [hp, hiv]
      rfl
    | cons q qs =>
      have hi : i < COMMAND_COUNT - 1 := by
        simp only [List.length_cons] at hlen
        unfold COMMAND_COUNT at hlen ⊢
        omega
      obtain ⟨s1, e, hA1, hempty1, hiv, hto, hp, hhp, _⟩ :=
        feed_reply_next s i p hi hA hempty hpl hbytes
      obtain ⟨t, e2, hp2, hto2⟩ := ih (i + 1) s1 hA1 hempty1 hrest
        (by simp only [List.length_cons] at hlen ⊢; omega) (by rw [hhp]; exact hheap)
      rw [e]
      refine ⟨t, e2, ?_, hto2⟩
      rw [hp2, hp, hiv, hto]
      rfl

/-! ### The first sweep after boot -/

theorem transmit_cb_boot (heap : Heap) (results : List Int) :
    ∃ s1, transmit_cb (boot heap results) = some s1 ∧ Awaiting s1 0 ∧ s1.rx_buffer_len = 0 ∧
      s1.posted = [] ∧ s1.timeout = true ∧ s1.heap = heap ∧
      s1.inverter_values = State.init.inverter_values := by
  unfold transmit_cb
  rw [send_data_request_eq _ 0 (by decide) rfl]
  exact ⟨_, rfl, ⟨by decide, wf_of_fields State.init _ (by decide) rfl rfl, rfl, rfl, rfl⟩,
    rfl, rfl, rfl, rfl, rfl⟩

theorem run_first_sweep_events :
    run (boot [] []) {} first_sweep_events
      = (transmit_cb (boot [] [])).bind fun t1 =>
          run t1 {} ((reply_frames 0 first_sweep_payloads).map Event.rx) := by
  unfold first_sweep_events
  rfl

/-- The first sweep after boot: the transmit timer fires and the bytes of 38
well-formed replies arrive. One normal report is posted; no timeout occurred
and no report had been posted before. -/
theorem first_sweep_run :
    (run (boot [] []) {} first_sweep_events).map (fun r => r.2)
      = some { timed_out := false, reported := true,
               reports := [(first_sweep_report, false, false)] } := by
  obtain ⟨s1, e1, hA, hempty, _, hto1, hh1, hiv1⟩ := transmit_cb_boot [] []
  have hv : valid_payloads 0 first_sweep_payloads = true := by decide
  have hl : 0 + first_sweep_payloads.length = COMMAND_COUNT := by decide
  have hs : heap_succeeds s1.heap := by rw [hh1]; decide
  obtain ⟨t, e, hp, _⟩ := feed_sweep first_sweep_payloads 0 s1 hA hempty hv hl hs
  have hobs : History.observe_posted {} s1 t
      = { timed_out := false, reported := true,
          reports := [(first_sweep_report, false, false)] } := by
    unfold History.observe_posted
    rw [hp, List.drop_left, hiv1, hto1]
    simp only [List.foldl_cons, List.foldl_nil]
    unfold History.record first_sweep_report
    simp only [List.nil_append]
  rw [run_first_sweep_events, e1, Option.some_bind, run_rx_events, e, Option.map_some',
    Option.map_some', hobs]

/-! ### Appends whose allocation fails -/

theorem resize_alloc_fails (rest : Heap) (b : string_builder) (add : Nat) :
    resize_string_builder (none :: rest) b add = some (false, b, rest) := rfl

theorem append_string_builder_alloc_fails (rest : Heap) (b : string_builder) (str : List Nat)
    (hneed : (b.allocated : Int) - b.len - 1 < (os_strlen str : Int) + 1) :
    append_string_builder (none :: rest) b str = some (false, b, rest) := by
  unfold append_string_builder
  simp only []
  rw [if_pos hneed, resize_alloc_fails]
  rfl

theorem append_string_builder_to_string_builder_alloc_fails (rest : Heap)
    (b source : string_builder)
    (hneed : (b.allocated : Int) - b.len - 1 < (source.len : Int) + 1) :
    append_string_builder_to_string_builder (none :: rest) b source = some (false, b, rest) := by
  unfold append_string_builder_to_string_builder
  simp only []
  rw [if_pos hneed, resize_alloc_fails]
  rfl

theorem append_int32_string_builder_alloc_fails (rest : Heap) (b : string_builder) (v : Int)
    (hneed : (b.allocated : Int) - b.len - 1 < (os_strlen (sprintf_d v) : Int) + 1) :
    append_int32_string_builder (none :: rest) b v = some (false, b, rest) :=
  append_string_builder_alloc_fails rest b _ hneed

/-! ### The request built by `tagwriter_post` -/

/-- With allocations succeeding, `tagwriter_post` ends in the call of
`send_inverter_values` with `value_buf` pointing to the request. -/
theorem tagwriter_post_request (s : State) (content : string_builder) (hwf : content.wf)
    (hlen : content.len ≤ 500000000) (hheap : heap_succeeds s.heap) :
    ∃ sb hp, tagwriter_post s content = some (send_inverter_values { s with
        value_buf := some sb, posted := s.posted ++ [content.text], heap := hp }) ∧
      sb.wf ∧ sb.text = http_request_spec content.text ∧ heap_succeeds hp := by
  unfold tagwriter_post
  simp only []
  rcases create_string_builder_cases s.heap ((content.len : Int) + 100) (by omega) with
    ⟨heap1, h1, hf⟩ | ⟨sb0, heap1, h1, hw0, hl0, ha0, hs0⟩
  · exact absurd hheap hf
  · rw [h1]
    simp only []
    have ha0' : sb0.allocated = content.len + 100 := by rw [ha0]; omega
    obtain ⟨ok1, b1, hp1, e1, w1, a1, d1, l1, l1', s1⟩ :=
      append_string_builder_total heap1 sb0 (cstr HTTP_HEADER) hw0 (by omega)
        HTTP_HEADER_nul_free (by rw [HTTP_HEADER_length]; omega)
    rw [HTTP_HEADER_length] at l1'
    obtain ⟨ok2, b2, hp2, e2, w2, a2, d2, l2, l2', s2⟩ :=
      append_int32_string_builder_total hp1 b1 (content.len : Int) w1 (by omega) (by omega)
    have hl4 : (cstr "\r\n\r\n").length = 4 := by decide
    obtain ⟨ok3, b3, hp3, e3, w3, a3, d3, l3, l3', s3⟩ :=
      append_string_builder_total hp2 b2 (cstr "\r\n\r\n") w2 (by omega) (by decide)
        (by rw [hl4]; omega)
    rw [hl4] at l3'
    obtain ⟨ok4, b4, hp4, e4, w4, a4, d4, l4, l4', s4⟩ :=
      append_string_builder_to_string_builder_total hp3 b3 content w3 hwf (by omega) (by omega)
    obtain ⟨o1, hh1, t1, _⟩ := s1 (hs0 hheap)
    obtain ⟨o2, hh2, t2, _⟩ := s2 hh1
    obtain ⟨o3, hh3, t3, _⟩ := s3 hh2
    obtain ⟨o4, hh4, t4, _⟩ := s4 hh3
    subst o1 o2 o3 o4
    simp only [e1, e2, e3, e4, Option.some_bind, Bool.and_self, if_true]
    refine ⟨b4, hp4, rfl, w4, ?_, hh4⟩
    have ht0 : sb0.text = [] := by unfold string_builder.text; rw [hl0]; rfl
    have hi32 : to_i32 (content.len : Int) = content.len := to_i32_of_lt _ (by omega)
    have hclen : content.text.length = content.len := text_length content hwf
    unfold http_request_spec
    rw [t4, t3, t2, t1, ht0, hi32, sprintf_d_of_nonneg, hclen, List.nil_append]

theorem http_request_spec_length (body : List Nat) :
    (http_request_spec body).length
      = (cstr HTTP_HEADER).length + (cstr (toString body.length)).length + 4 + body.length := by
  unfold http_request_spec
  simp only [List.length_append]
  have hl4 : (cstr "\r\n\r\n").length = 4 := by decide
  rw [hl4]

/-! ### The response timer in the report branch -/

theorem tagwriter_post_timer (s : State) (content : string_builder) (s' : State)
    (h : tagwriter_post s content = some s') : s'.serial_rx_timer = s.serial_rx_timer := by
  unfold tagwriter_post at h
  simp only [] at h
  cases hc : create_string_builder s.heap ((content.len : Int) + 100) with
  | mk ob heap1 =>
    rw [hc] at h
    cases ob with
    | none =>
      simp only [Option.some.injEq] at h
      subst h
      rfl
    | some sb =>
      simp only [Option.bind_eq_some] at h
      obtain ⟨r1, _, r2, _, r3, _, r4, _, hfin⟩ := h
      split at hfin
      · simp only [Option.some.injEq] at hfin
        subst hfin
        rfl
      · simp only [Option.some.injEq] at hfin
        subst hfin
        rfl

theorem process_response_report_timer (s s' : State)
    (h : process_response_report s = some s') :
    s'.current_command_index = s.current_command_index ∧
    s'.inverter_values = s.inverter_values ∧ s'.rx_buffer = s.rx_buffer ∧
    s'.serial_rx_timer = s.serial_rx_timer ∧ s'.uart1_tx = s.uart1_tx := by
  obtain ⟨ex, _⟩ := process_response_report_frame s s' h
  unfold State.exchange at ex
  simp only [Prod.mk.injEq] at ex
  obtain ⟨c1, _, _, c4, c5, _, c7⟩ := ex
  refine ⟨c1, c4, c5, ?_, c7⟩
  unfold process_response_report at h
  cases hc : create_string_builder s.heap 128 with
  | mk ob heap1 =>
    rw [hc] at h
    cases ob with
    | none =>
      simp only [Option.some.injEq] at h
      subst h
      rfl
    | some content =>
      simp only [Option.bind_eq_some] at h
      obtain ⟨r0, _, r1, _, r2, _, hfin⟩ := h
      split at hfin
      · exact tagwriter_post_timer _ _ _ hfin |>.trans rfl
      · simp only [Option.some.injEq] at hfin
        subst hfin
        rfl
/-! ### What the exchange functions do to the exchange variables -/

theorem COMMAND_LENGTHS_entry (i l : Nat) (h : COMMAND_LENGTHS[i]? = some l) :
    i < 47 ∧ (l = 1 ∨ l = 2 ∨ l = 4) := by
  have hmem : l ∈ COMMAND_LENGTHS := List.getElem?_mem h
  have hall : ∀ x ∈ COMMAND_LENGTHS, x = 1 ∨ x = 2 ∨ x = 4 := by decide
  obtain ⟨hlt, _⟩ := List.getElem?_eq_some_iff.mp h
  rw [COMMAND_LENGTHS_length] at hlt
  exact ⟨hlt, hall l hmem⟩

theorem send_data_request_some (s t : State) (h : send_data_request s = some t) :
    ∃ cmd l, COMMANDS[s.current_command_index]? = some cmd ∧
      COMMAND_LENGTHS[s.current_command_index]? = some l ∧
      t.current_command_index = s.current_command_index ∧ t.data_len = l ∧
      t.expected_len = (l + PACKET_OVERHEAD + COMMAND_LEN) % 256 ∧
      t.serial_rx_timer = some (10000, 0) ∧ t.rx_buffer = s.rx_buffer ∧
      t.rx_buffer_len = s.rx_buffer_len ∧ t.inverter_values = s.inverter_values := by
  unfold send_data_request at h
  simp only [Option.bind_eq_some] at h
  obtain ⟨cmd, hc, l, hl, hfin⟩ := h
  simp only [Option.some.injEq] at hfin
  subst hfin
  exact ⟨cmd, l, hc, hl, rfl, rfl, rfl, rfl, rfl, rfl, rfl⟩

theorem set_inverter_value_some (s t : State) (v : Nat) (h : set_inverter_value s v = some t) :
    s.current_command_index < s.inverter_values.length ∧
    t = { s with inverter_values := s.inverter_values.set s.current_command_index v } := by
  unfold set_inverter_value at h
  split at h
  · rename_i hlt
    simp only [Option.some.injEq] at h
    exact ⟨hlt, h.symm⟩
  · cases h

/-- The storing step changes at most `inverter_values[current_command_index]`,
and reads `COMMAND_LENGTHS[current_command_index]`. -/
theorem process_response_store_some (s t : State) (h : process_response_store s = some t) :
    ∃ l, COMMAND_LENGTHS[s.current_command_index]? = some l ∧
      (t = s ∨ ∃ v, s.current_command_index < s.inverter_values.length ∧
        t = { s with inverter_values := s.inverter_values.set s.current_command_index v }) := by
  unfold process_response_store at h
  simp only [Option.bind_eq_some] at h
  obtain ⟨l, hl, hrest⟩ := h
  refine ⟨l, hl, ?_⟩
  split at hrest
  · simp only [Option.bind_eq_some] at hrest
    obtain ⟨_, _, hfin⟩ := hrest
    exact Or.inr ⟨_, set_inverter_value_some _ _ _ hfin⟩
  · split at hrest
    · simp only [Option.bind_eq_some] at hrest
      obtain ⟨_, _, _, _, hfin⟩ := hrest
      exact Or.inr ⟨_, set_inverter_value_some _ _ _ hfin⟩
    · split at hrest
      · simp only [Option.bind_eq_some] at hrest
        obtain ⟨_, _, _, _, _, _, _, _, hfin⟩ := hrest
        exact Or.inr ⟨_, set_inverter_value_some _ _ _ hfin⟩
      · simp only [Option.some.injEq] at hrest
        exact Or.inl hrest.symm

theorem exchange_fields (s t : State) (h : t.exchange = s.exchange) :
    t.current_command_index = s.current_command_index ∧ t.data_len = s.data_len ∧
    t.expected_len = s.expected_len ∧ t.inverter_values = s.inverter_values ∧
    t.rx_buffer = s.rx_buffer ∧ t.rx_buffer_len = s.rx_buffer_len ∧
    t.uart1_tx = s.uart1_tx := by
  unfold State.exchange at h
  simp only [Prod.mk.injEq] at h
  exact h

/-- The effect of `process_response` on the exchange variables, in every state
in which it returns. The receive buffer is kept and the timer is disarmed or
re-armed; the frame is rejected (nothing else changes), or the value is stored
at the current index and either the report branch runs (index
`COMMAND_COUNT - 1`) or the index advances by one and the next request is
sent. -/
theorem process_response_exchange (s t : State) (h : process_response s = some t) :
    t.rx_buffer = s.rx_buffer ∧ t.rx_buffer_len = s.rx_buffer_len ∧
    ((t.current_command_index = s.current_command_index ∧ t.expected_len = s.expected_len ∧
        t.data_len = s.data_len ∧ t.serial_rx_timer = none ∧
        t.inverter_values = s.inverter_values ∧ t.uart1_tx = s.uart1_tx) ∨
      (s.current_command_index = COMMAND_COUNT - 1 ∧
        t.current_command_index = s.current_command_index ∧ t.expected_len = s.expected_len ∧
        t.data_len = s.data_len ∧ t.serial_rx_timer = none ∧
        (t.inverter_values = s.inverter_values ∨
          ∃ v, s.current_command_index < s.inverter_values.length ∧
            t.inverter_values = s.inverter_values.set s.current_command_index v)) ∨
      (∃ l0 l, COMMAND_LENGTHS[s.current_command_index]? = some l0 ∧
        s.current_command_index ≠ COMMAND_COUNT - 1 ∧
        t.current_command_index = (s.current_command_index + 1) % 256 ∧
        COMMAND_LENGTHS[t.current_command_index]? = some l ∧ t.data_len = l ∧
        t.expected_len = (l + PACKET_OVERHEAD + COMMAND_LEN) % 256 ∧
        t.serial_rx_timer = some (10000, 0) ∧
        (t.inverter_values = s.inverter_values ∨
          ∃ v, s.current_command_index < s.inverter_values.length ∧
            t.inverter_values = s.inverter_values.set s.current_command_index v))) := by
  unfold process_response at h
  simp only [Option.bind_eq_some] at h
  obtain ⟨bad, _, s1, hs1, hcheck⟩ := h
  have h1 : s1.exchange = s.exchange ∧ s1.serial_rx_timer = none := by
    split at hs1
    · obtain ⟨heap1, log1, e⟩ := packet_mismatch_dump_some _ _ hs1
      subst e
      exact ⟨rfl, rfl⟩
    · simp only [Option.some.injEq] at hs1
      subst hs1
      exact ⟨rfl, rfl⟩
  obtain ⟨a1, a2, a3, a4, a5, a6, a7⟩ := exchange_fields _ _ h1.1
  unfold process_response_check at hcheck
  simp only [Option.bind_eq_some] at hcheck
  obtain ⟨lo, _, hi, _, hrest⟩ := hcheck
  split at hrest
  · split at hrest
    · split at hrest
      · simp only [Option.some.injEq] at hrest
        subst hrest
        exact ⟨a5, a6, Or.inl ⟨a1, a3, a2, h1.2, a4, a7⟩⟩
      · cases hrest
    · simp only [Option.bind_eq_some] at hrest
      obtain ⟨s2, hs2, hfin⟩ := hrest
      obtain ⟨l0, hl0, hs2'⟩ := process_response_store_some _ _ hs2
      simp only [] at hl0
      have hs2f : s2.current_command_index = s.current_command_index ∧
          s2.data_len = s.data_len ∧ s2.expected_len = s.expected_len ∧
          s2.rx_buffer = s.rx_buffer ∧ s2.rx_buffer_len = s.rx_buffer_len ∧
          s2.serial_rx_timer = none ∧
          (s2.inverter_values = s.inverter_values ∨
            ∃ v, s.current_command_index < s.inverter_values.length ∧
              s2.inverter_values = s.inverter_values.set s.current_command_index v) := by
        rcases hs2' with e | ⟨v, hv, e⟩
        · rw [e]; exact ⟨a1, a2, a3, a5, a6, h1.2, Or.inl a4⟩
        · simp only [] at hv
          rw [e]
          refine ⟨a1, a2, a3, a5, a6, h1.2, Or.inr ⟨v, ?_, ?_⟩⟩
          · rw [← a1, ← a4]; exact hv
          · show s1.inverter_values.set s1.current_command_index v = _
            rw [a1, a4]
      obtain ⟨b1, b2, b3, b5, b6, b8, b9⟩ := hs2f
      split at hfin
      · rename_i h37
        obtain ⟨c1, c4, _, htm, _⟩ := process_response_report_timer s2 t hfin
        obtain ⟨ex, _⟩ := process_response_report_frame s2 t hfin
        obtain ⟨_, c2, c3, _, c5, c6, _⟩ := exchange_fields _ _ ex
        refine ⟨by rw [c5, b5], by rw [c6, b6], Or.inr (Or.inl ⟨by rw [← b1]; exact h37,
          by rw [c1, b1], by rw [c3, b3], by rw [c2, b2], by rw [htm, b8], ?_⟩)⟩
        rw [c4]; exact b9
      · rename_i hne
        obtain ⟨cmd, l, _, hl, d1, d2, d3, d4, d5, d6, d7⟩ := send_data_request_some _ t hfin
        simp only [] at hl d1 d5 d6 d7
        rw [b1] at hl d1 hne
        rw [a1] at hl0
        refine ⟨by rw [d5, b5], by rw [d6, b6],
          Or.inr (Or.inr ⟨l0, l, hl0, hne, d1, ?_, d2, d3, d4, ?_⟩)⟩
        · rw [d1]; exact hl
        · rw [d7]; exact b9
  · cases hrest

/-! ### One received byte -/

theorem uart_rx_byte_eq_accumulate (s : State) (b : Nat) :
    uart_rx_byte s b =
      if (uart_rx_accumulate s (b % 256)).1.rx_buffer_len
          ≥ (uart_rx_accumulate s (b % 256)).1.expected_len then
        (process_response (uart_rx_accumulate s (b % 256)).1).map
          fun s2 => { s2 with rx_buffer_len := 0 }
      else some (uart_rx_accumulate s (b % 256)).1 := by
  unfold uart_rx_byte uart_rx_accumulate
  simp only []
  by_cases h1 : b % 256 = 0 ∧ s.rx_buffer_len = 0
  · simp only [h1, and_self, if_true]
  · rw [if_neg h1, if_neg h1]
    by_cases h2 : s.rx_buffer_len ≥ RX_BUFFER_LENGTH
    · rw [if_pos h2, if_pos h2]
    · rw [if_neg h2, if_neg h2]

/-- The accumulating step: exchange variables besides the accumulator are
kept, the buffer keeps its size, and a store is at index `rx_buffer_len`, which
is below 16. -/
theorem uart_rx_accumulate_spec (s : State) (c : Nat) :
    (uart_rx_accumulate s c).1.current_command_index = s.current_command_index ∧
    (uart_rx_accumulate s c).1.expected_len = s.expected_len ∧
    (uart_rx_accumulate s c).1.inverter_values = s.inverter_values ∧
    (uart_rx_accumulate s c).1.rx_buffer.length = s.rx_buffer.length ∧
    (uart_rx_accumulate s c).1.serial_rx_timer = s.serial_rx_timer ∧
    (uart_rx_accumulate s c).1.uart1_tx = s.uart1_tx ∧
    (((uart_rx_accumulate s c).2 = none ∧ (uart_rx_accumulate s c).1 = s) ∨
      ((uart_rx_accumulate s c).2 = some s.rx_buffer_len ∧ s.rx_buffer_len < RX_BUFFER_LENGTH ∧
        (uart_rx_accumulate s c).1.rx_buffer = s.rx_buffer.set s.rx_buffer_len c ∧
        (uart_rx_accumulate s c).1.rx_buffer_len = s.rx_buffer_len + 1)) := by
  unfold uart_rx_accumulate
  by_cases h1 : c = 0 ∧ s.rx_buffer_len = 0
  · rw [if_pos h1]
    exact ⟨rfl, rfl, rfl, rfl, rfl, rfl, Or.inl ⟨rfl, rfl⟩⟩
  · rw [if_neg h1]
    by_cases h2 : s.rx_buffer_len ≥ RX_BUFFER_LENGTH
    · rw [if_pos h2]
      exact ⟨rfl, rfl, rfl, rfl, rfl, rfl, Or.inl ⟨rfl, rfl⟩⟩
    · rw [if_neg h2]
      have hlt : s.rx_buffer_len < RX_BUFFER_LENGTH := by omega
      refine ⟨rfl, rfl, rfl, by simp, rfl, rfl, Or.inr ⟨rfl, hlt, rfl, ?_⟩⟩
      show (s.rx_buffer_len + 1) % 256 = s.rx_buffer_len + 1
      unfold RX_BUFFER_LENGTH at hlt
      omega

/-! ### The invariant of the exchange -/

theorem expected_len_fits (i l : Nat) (h : COMMAND_LENGTHS[i]? = some l) :
    (l + PACKET_OVERHEAD + COMMAND_LEN) % 256 ≤ 13 := by
  obtain ⟨_, hl⟩ := COMMAND_LENGTHS_entry i l h
  unfold PACKET_OVERHEAD COMMAND_LEN
  omega

theorem exchange_invariant_rx (s t : State) (b : Nat) (hinv : exchange_invariant s)
    (h : uart_rx_byte s b = some t) : exchange_invariant t := by
  obtain ⟨hidx, hbuf, hexp, hlen⟩ := hinv
  rw [uart_rx_byte_eq_accumulate] at h
  obtain ⟨a1, a2, _, a4, _, _, a7⟩ := uart_rx_accumulate_spec s (b % 256)
  generalize (uart_rx_accumulate s (b % 256)).1 = s1 at h a1 a2 a4 a7
  have hlen1 : s1.rx_buffer_len ≤ RX_BUFFER_LENGTH := by
    rcases a7 with ⟨_, e⟩ | ⟨_, _, _, e⟩
    · rw [e]; omega
    · rw [e]; omega
  split at h
  · simp only [Option.map_eq_some'] at h
    obtain ⟨t', ht', hfin⟩ := h
    subst hfin
    obtain ⟨p1, _, p3⟩ := process_response_exchange s1 t' ht'
    have hbuf' : t'.rx_buffer.length = RX_BUFFER_LENGTH := by rw [p1, a4, hbuf]
    have hz : (0 : Nat) < RX_BUFFER_LENGTH := by decide
    rcases p3 with ⟨q1, q2, _⟩ | ⟨_, q1, q2, _⟩ | ⟨l0, l, hl0, hne, q1, hl, _, q2, _⟩
    · exact ⟨by show t'.current_command_index < _ ∨ _; rw [q1, a1]; exact hidx, hbuf',
        by show t'.expected_len ≤ _; rw [q2, a2]; exact hexp, hz⟩
    · exact ⟨by show t'.current_command_index < _ ∨ _; rw [q1, a1]; exact hidx, hbuf',
        by show t'.expected_len ≤ _; rw [q2, a2]; exact hexp, hz⟩
    · refine ⟨?_, hbuf', ?_, hz⟩
      · show t'.current_command_index < _ ∨ _
        left
        rw [q1]
        rw [a1] at hl0 hne ⊢
        obtain ⟨h47, _⟩ := COMMAND_LENGTHS_entry _ _ hl0
        rcases hidx with hi | hi
        · unfold COMMAND_COUNT at hi hne ⊢; omega
        · rw [to_u8_neg_one] at hi; omega
      · show t'.expected_len ≤ _
        rw [q2]
        have := expected_len_fits _ _ hl
        unfold RX_BUFFER_LENGTH
        omega
  · rename_i hlt
    simp only [Option.some.injEq] at h
    subst h
    exact ⟨by rw [a1]; exact hidx, by rw [a4]; exact hbuf, by rw [a2]; exact hexp,
      by rw [a2] at hlt; omega⟩

theorem exchange_invariant_step (s t : State) (e : Event) (hinv : exchange_invariant s)
    (hstep : step s e = some t) : exchange_invariant t := by
  cases e with
  | transmit =>
    obtain ⟨hidx, hbuf, hexp, hlen⟩ := hinv
    have hstep' : send_data_request { s with current_command_index := 0 } = some t := hstep
    obtain ⟨cmd, l, _, hl, d1, _, d3, _, d5, d6, _⟩ := send_data_request_some _ t hstep'
    have hl2 : l = 2 := by
      have : COMMAND_LENGTHS[0]? = some l := hl
      simpa [COMMAND_LENGTHS] using this.symm
    subst hl2
    have d1' : t.current_command_index = 0 := d1
    exact ⟨Or.inl (by rw [d1']; decide), by rw [d5]; exact hbuf, by rw [d3]; decide,
      by rw [d6]; exact hlen⟩
  | timeout =>
    obtain ⟨hidx, hbuf, hexp, hlen⟩ := hinv
    obtain ⟨s', e', _, i1, _, i2, _, i3, i4, _⟩ := serial_timeout_cb_spec s
    have hstep' : serial_timeout_cb s = some t := hstep
    rw [e'] at hstep'
    simp only [Option.some.injEq] at hstep'
    subst hstep'
    exact ⟨Or.inr (by rw [i1, to_u8_neg_one]), by rw [i3]; exact hbuf, by rw [i2]; exact hexp,
      by rw [i4]; exact hlen⟩
  | rx b =>
    have hstep' : uart_rx_byte s b = some t := by
      rw [← uart_rx_task_single]; exact hstep
    exact exchange_invariant_rx s t b hinv hstep'

theorem exec_cons (s : State) (e : Event) (es : List Event) :
    exec s (e :: es) = (step s e).bind fun t => exec t es := by
  unfold exec
  rw [List.foldlM_cons]
  rfl

theorem exec_nil (s : State) : exec s [] = some s := rfl

theorem exchange_invariant_exec : ∀ (evs : List Event) (s t : State),
    exchange_invariant s → exec s evs = some t → exchange_invariant t := by
  intro evs
  induction evs with
  | nil =>
    intro s t hinv h
    rw [exec_nil] at h
    simp only [Option.some.injEq] at h
    rw [← h]; exact hinv
  | cons e es ih =>
    intro s t hinv h
    rw [exec_cons] at h
    simp only [Option.bind_eq_some] at h
    obtain ⟨t1, h1, h2⟩ := h
    exact ih t1 t (exchange_invariant_step s t1 e hinv h1) h2

theorem exchange_invariant_boot (heap : Heap) (results : List Int) :
    exchange_invariant (boot heap results) :=
  ⟨Or.inl (show (0 : Nat) < COMMAND_COUNT by decide),
    show (List.replicate 16 0).length = RX_BUFFER_LENGTH by decide,
    show (0 : Nat) ≤ RX_BUFFER_LENGTH by decide, show (0 : Nat) < RX_BUFFER_LENGTH by decide⟩

/-! ### Slots beyond the index -/

theorem transmit_cb_some (s : State) :
    ∃ t, transmit_cb s = some t ∧ t.current_command_index = 0 ∧
      t.inverter_values = s.inverter_values ∧ t.rx_buffer = s.rx_buffer ∧
      t.rx_buffer_len = s.rx_buffer_len ∧ t.expected_len = 11 ∧ t.data_len = 2 ∧
      t.serial_rx_timer = some (10000, 0) ∧ t.uart1_tx = s.uart1_tx ++ request_frame 0 := by
  unfold transmit_cb
  rw [send_data_request_eq _ 0 (by decide) rfl]
  exact ⟨_, rfl, rfl, rfl, rfl, rfl, rfl, rfl, rfl, rfl⟩

/-! ### The record of buffer events -/

theorem released_ids_append (a b : List BufferEvent) :
    released_ids (a ++ b) = released_ids a ++ released_ids b := by
  induction a with
  | nil => rfl
  | cons e rest ih =>
    cases e <;> simp [released_ids, ih]

theorem mem_released_ids (events : List BufferEvent) (id : Nat) :
    id ∈ released_ids events ↔ BufferEvent.released id ∈ events := by
  induction events with
  | nil => simp [released_ids]
  | cons e rest ih =>
    cases e <;> simp [released_ids, ih]

theorem getElem?_append_singleton {α : Type} (l : List α) (a b : α) (i : Nat)
    (h : (l ++ [a])[i]? = some b) : l[i]? = some b ∨ (i = l.length ∧ a = b) := by
  by_cases hi : i < l.length
  · rw [List.getElem?_append_left hi] at h
    exact Or.inl h
  · rw [List.getElem?_append_right (by omega)] at h
    by_cases hi2 : i = l.length
    · subst hi2
      simp at h
      exact Or.inr ⟨rfl, h⟩
    · have : i - l.length ≠ 0 := by omega
      obtain ⟨n, hn⟩ := Nat.exists_eq_succ_of_ne_zero this
      rw [hn] at h
      simp at h

theorem getElem?_some_lt {α : Type} (l : List α) (b : α) (i : Nat) (h : l[i]? = some b) :
    i < l.length := by
  by_contra hc
  rw [List.getElem?_eq_none (by omega)] at h
  cases h

theorem never_sent_after_release_created (events : List BufferEvent) (id : Nat)
    (h : never_sent_after_release events) :
    never_sent_after_release (events ++ [BufferEvent.created id]) := by
  intro i j x hi hj
  rcases getElem?_append_singleton _ _ _ _ hi with hi | ⟨_, hi⟩
  · rcases getElem?_append_singleton _ _ _ _ hj with hj | ⟨_, hj⟩
    · exact h i j x hi hj
    · cases hj
  · cases hi

theorem never_sent_after_release_released (events : List BufferEvent) (id : Nat)
    (h : never_sent_after_release events) :
    never_sent_after_release (events ++ [BufferEvent.released id]) := by
  intro i j x hi hj
  rcases getElem?_append_singleton _ _ _ _ hj with hj | ⟨_, hj⟩
  · rcases getElem?_append_singleton _ _ _ _ hi with hi | ⟨hi, _⟩
    · exact h i j x hi hj
    · have := getElem?_some_lt _ _ _ hj
      omega
  · cases hj

theorem never_sent_after_release_sent (events : List BufferEvent) (id : Nat)
    (h : never_sent_after_release events) (hid : id ∉ released_ids events) :
    never_sent_after_release (events ++ [BufferEvent.sent id]) := by
  intro i j x hi hj
  rcases getElem?_append_singleton _ _ _ _ hi with hi | ⟨_, hi⟩
  · rcases getElem?_append_singleton _ _ _ _ hj with hj | ⟨_, hj⟩
    · exact h i j x hi hj
    · cases hj
      exact absurd ((mem_released_ids events id).mpr (List.mem_iff_getElem?.mpr ⟨i, hi⟩)) hid
  · cases hi

/-- Creating a builder keeps the record in order. -/
theorem ledger_ok_created (count : Nat) (events : List BufferEvent) (vb : Option Nat)
    (h : ledger_ok count events vb) :
    ledger_ok (count + 1) (events ++ [BufferEvent.created count]) vb := by
  obtain ⟨h1, h2, h3, h4⟩ := h
  refine ⟨?_, ?_, ?_, never_sent_after_release_created _ _ h4⟩
  · intro id hid
    rw [released_ids_append] at hid
    simp [released_ids] at hid
    exact Nat.lt_succ_of_lt (h1 id hid)
  · rw [released_ids_append]
    simpa [released_ids] using h2
  · intro id hid
    obtain ⟨a, b⟩ := h3 id hid
    refine ⟨Nat.lt_succ_of_lt a, ?_⟩
    rw [released_ids_append]
    simpa [released_ids] using b

/-- Releasing a builder that was created, was not released and is not the one
`value_buf` points to keeps the record in order. -/
theorem ledger_ok_released (count : Nat) (events : List BufferEvent) (vb : Option Nat)
    (id : Nat) (h : ledger_ok count events vb) (hlt : id < count)
    (hnot : id ∉ released_ids events) (hvb : vb ≠ some id) :
    ledger_ok count (events ++ [BufferEvent.released id]) vb := by
  obtain ⟨h1, h2, h3, h4⟩ := h
  refine ⟨?_, ?_, ?_, never_sent_after_release_released _ _ h4⟩
  · intro x hx
    rw [released_ids_append] at hx
    simp [released_ids] at hx
    rcases hx with hx | hx
    · exact h1 x hx
    · rw [hx]; exact hlt
  · rw [released_ids_append]
    simp only [released_ids]
    rw [List.nodup_append]
    refine ⟨h2, List.nodup_singleton _, ?_⟩
    intro x hx hx'
    simp at hx'
    subst hx'
    exact hnot hx
  · intro x hx
    obtain ⟨a, b⟩ := h3 x hx
    refine ⟨a, ?_⟩
    rw [released_ids_append]
    simp only [released_ids, List.mem_append, List.mem_singleton, not_or]
    refine ⟨b, ?_⟩
    intro hc
    subst hc
    exact hvb hx

/-- Releasing the builder `value_buf` points to and clearing `value_buf` keeps
the record in order. -/
theorem ledger_ok_release_value_buf (count : Nat) (events : List BufferEvent) (id : Nat)
    (h : ledger_ok count events (some id)) :
    ledger_ok count (events ++ [BufferEvent.released id]) none := by
  obtain ⟨h1, h2, h3, h4⟩ := h
  obtain ⟨a, b⟩ := h3 id rfl
  have h0 : ledger_ok count events none := by
    refine ⟨h1, h2, ?_, h4⟩
    intro x hx
    cases hx
  exact ledger_ok_released count events none id h0 a b (by simp)

/-- Pointing `value_buf` to a builder that was created and not released keeps
the record in order. -/
theorem ledger_ok_set (count : Nat) (events : List BufferEvent) (vb vb2 : Option Nat)
    (h : ledger_ok count events vb)
    (hvb : ∀ id, vb2 = some id → id < count ∧ id ∉ released_ids events) :
    ledger_ok count events vb2 := by
  obtain ⟨h1, h2, _, h4⟩ := h
  exact ⟨h1, h2, hvb, h4⟩

/-- Sending the builder `value_buf` points to keeps the record in order. -/
theorem ledger_ok_sent (count : Nat) (events : List BufferEvent) (id : Nat)
    (h : ledger_ok count events (some id)) :
    ledger_ok count (events ++ [BufferEvent.sent id]) (some id) := by
  obtain ⟨h1, h2, h3, h4⟩ := h
  obtain ⟨a, b⟩ := h3 id rfl
  refine ⟨?_, ?_, ?_, never_sent_after_release_sent _ _ h4 b⟩
  · intro x hx
    rw [released_ids_append] at hx
    simp [released_ids] at hx
    exact h1 x hx
  · rw [released_ids_append]
    simpa [released_ids] using h2
  · intro x hx
    cases hx
    refine ⟨a, ?_⟩
    rw [released_ids_append]
    simpa [released_ids] using b

theorem Gate.release_value_buf_inv (g : Gate) (h : g.inv) :
    g.release_value_buf.inv ∧ g.release_value_buf.value_buf = none ∧
      g.release_value_buf.count = g.count ∧
      ∀ x, x ∉ released_ids g.events → g.value_buf ≠ some x →
        x ∉ released_ids g.release_value_buf.events := by
  unfold Gate.release_value_buf
  cases hv : g.value_buf with
  | none =>
    refine ⟨h, hv, rfl, ?_⟩
    intro x hx _
    exact hx
  | some id =>
    unfold Gate.inv at h
    rw [hv] at h
    refine ⟨ledger_ok_release_value_buf g.count g.events id h, rfl, rfl, ?_⟩
    intro x hx hne
    show x ∉ released_ids (g.events ++ [BufferEvent.released id])
    rw [released_ids_append]
    simp only [released_ids, List.mem_append, List.mem_singleton, not_or]
    refine ⟨hx, ?_⟩
    intro hc
    subst hc
    exact hne rfl

/-- The buffer operations of `tagwriter_post` keep the record in order when the
content builder was created, was not released and is not the one `value_buf`
points to. -/
theorem Gate.tagwriter_post_inv (g : Gate) (content : Nat) (sb_ok add_ok : Bool)
    (h : g.inv) (hlt : content < g.count) (hnot : content ∉ released_ids g.events)
    (hvb : g.value_buf ≠ some content) :
    (g.tagwriter_post content sb_ok add_ok).inv := by
  obtain ⟨r1, r2, r3, r4⟩ := Gate.release_value_buf_inv g h
  have hnot1 := r4 content hnot hvb
  unfold Gate.tagwriter_post Gate.create_string_builder
  generalize g.release_value_buf = g1 at r1 r2 r3 hnot1 ⊢
  have hlt1 : content < g1.count := by rw [r3]; exact hlt
  unfold Gate.inv at r1
  rw [r2] at r1
  cases sb_ok with
  | false =>
    show ledger_ok g1.count (g1.events ++ [BufferEvent.released content]) g1.value_buf
    rw [r2]
    exact ledger_ok_released _ _ _ _ r1 hlt1 hnot1 (by simp)
  | true =>
    have c1 := ledger_ok_created _ _ _ r1
    have hnot2 : content ∉ released_ids (g1.events ++ [BufferEvent.created g1.count]) := by
      rw [released_ids_append]
      simpa [released_ids] using hnot1
    have c2 := ledger_ok_released _ _ _ content c1 (Nat.lt_succ_of_lt hlt1) hnot2 (by simp)
    have hsb : g1.count ∉ released_ids
        (g1.events ++ [BufferEvent.created g1.count] ++ [BufferEvent.released content]) := by
      rw [released_ids_append, released_ids_append]
      simp only [released_ids, List.append_nil, List.mem_append, List.mem_singleton, not_or]
      refine ⟨?_, by omega⟩
      intro hc
      have := r1.1 _ hc
      omega
    cases add_ok with
    | true =>
      show ledger_ok (g1.count + 1)
        (g1.events ++ [BufferEvent.created g1.count] ++ [BufferEvent.released content])
        (some g1.count)
      refine ledger_ok_set _ _ _ _ c2 ?_
      intro id hid
      cases hid
      exact ⟨Nat.lt_succ_self _, hsb⟩
    | false =>
      show ledger_ok (g1.count + 1)
        (g1.events ++ [BufferEvent.created g1.count] ++ [BufferEvent.released content] ++
          [BufferEvent.released g1.count]) none
      exact ledger_ok_released _ _ _ _ c2 (Nat.lt_succ_self _) hsb (by simp)

theorem Gate.report_inv (g : Gate) (content_ok fill_ok sb_ok add_ok : Bool) (h : g.inv) :
    (g.report content_ok fill_ok sb_ok add_ok).inv := by
  unfold Gate.report Gate.create_string_builder
  cases content_ok with
  | false => exact h
  | true =>
    have c1 := ledger_ok_created _ _ _ h
    cases fill_ok with
    | false => exact c1
    | true =>
      refine Gate.tagwriter_post_inv _ _ _ _ c1 (Nat.lt_succ_self _) ?_ ?_
      · show g.count ∉ released_ids (g.events ++ [BufferEvent.created g.count])
        rw [released_ids_append]
        simp only [released_ids, List.append_nil]
        intro hc
        have := h.1 _ hc
        omega
      · intro hc
        have := (h.2.2.1 _ hc).1
        omega

theorem Gate.connect_cb_inv (g : Gate) (h : g.inv) : g.connect_cb.inv := by
  cases g with
  | mk vb aw c ev =>
    cases vb with
    | none => exact h
    | some id => exact ledger_ok_sent _ _ _ h

theorem Gate.response_cb_inv (g : Gate) (h : g.inv) : g.response_cb.inv := by
  unfold Gate.response_cb
  split
  · exact h
  · exact h

/-- Every event of the transport path keeps the record in order. -/
theorem Gate.step_inv (g : Gate) (op : GateOp) (h : g.inv) : (g.step op).inv := by
  cases op with
  | report c f s a => exact Gate.report_inv g c f s a h
  | connect => exact Gate.connect_cb_inv g h
  | response => exact Gate.response_cb_inv g h
  | disconnect_task => exact (Gate.release_value_buf_inv g h).1
  | disconnect => exact (Gate.release_value_buf_inv g h).1
  | reconnect => exact (Gate.release_value_buf_inv g h).1

theorem Gate.foldl_inv : ∀ (ops : List GateOp) (g : Gate), g.inv → (ops.foldl Gate.step g).inv := by
  intro ops
  induction ops with
  | nil => intro g h; exact h
  | cons op rest ih =>
    intro g h
    exact ih _ (Gate.step_inv g op h)

theorem Gate.init_inv : Gate.inv {} := by
  refine ⟨?_, ?_, ?_, ?_⟩
  · intro id hid; cases hid
  · exact List.nodup_nil
  · intro id hid; cases hid
  · intro i j id hi; simp at hi

theorem Gate.run_inv (ops : List GateOp) : (Gate.run ops).inv :=
  Gate.foldl_inv ops _ Gate.init_inv

theorem Gate.release_value_buf_empty (g : Gate) : g.release_value_buf.value_buf = none := by
  unfold Gate.release_value_buf
  cases hv : g.value_buf with
  | none => exact hv
  | some id => rfl

/-! ### A frame rejected for its checksum -/

/-- In `Awaiting(i)` a buffer whose checksum bytes differ from the checksum of
the first `L + 6` bytes is rejected, provided the framing-mismatch branch stays
inside its scratch block: `process_response` returns having changed only the
timer, the log and the allocator. -/
theorem process_response_rejects (s : State) (i : Nat) (hA : Awaiting s i)
    (hlen : s.rx_buffer_len ≤ 16) (hdump : framing_dump_defined s)
    (hcrc : s.rx_buffer.getD (COMMAND_LENGTHS.getD i 0 + 6) 0
        + 256 * s.rx_buffer.getD (COMMAND_LENGTHS.getD i 0 + 7) 0
      ≠ calculate_crc16 s.rx_buffer (COMMAND_LENGTHS.getD i 0 + 6)) :
    ∃ heap1 log1, process_response s
      = some { s with serial_rx_timer := none, heap := heap1, log := log1 } := by
  obtain ⟨hi, hwf, hidx, hdl, hexp⟩ := hA
  obtain ⟨heap1, log1, _, e⟩ := process_response_eq_check s i hi hidx hwf.1 hlen hdump
  have hL := COMMAND_LENGTHS_two_or_four i hi
  obtain ⟨log2, e2⟩ := process_response_check_reject
    { s with serial_rx_timer := none, heap := heap1, log := log1 } i hi hwf.1 hwf.2.1 hdl
    (by show s.expected_len ≤ 16; omega) hcrc
  exact ⟨heap1, log2, e.trans e2⟩

theorem Gate.run_example :
    (Gate.run [GateOp.report true true true true, GateOp.connect, GateOp.response,
        GateOp.disconnect_task, GateOp.disconnect]).events
      = [BufferEvent.created 0, BufferEvent.created 1, BufferEvent.released 0,
          BufferEvent.sent 1, BufferEvent.released 1] := by
  decide

/-! ### The status line read by `response_cb` -/

theorem decimal_fold_mod (ds : List Nat) : ∀ st : Nat,
    ds.foldl (fun acc c => (acc * 10 + (c - '0'.toNat)) % 65536) (st % 65536)
      = (ds.foldl (fun acc c => acc * 10 + (c - '0'.toNat)) st) % 65536 := by
  induction ds with
  | nil => intro st; rfl
  | cons c ds ih =>
    intro st
    simp only [List.foldl_cons]
    have h : ((st % 65536) * 10 + (c - '0'.toNat)) % 65536
        = (st * 10 + (c - '0'.toNat)) % 65536 := by omega
    rw [h]
    exact ih _

theorem getElem?_append_cons (pre : List Nat) (c : Nat) (tail : List Nat) :
    (pre ++ c :: tail)[pre.length]? = some c := by
  rw [List.getElem?_append_right (Nat.le_refl _)]
  simp

theorem status_loop_run (rest : List Nat)
    (hrest : ∀ c, rest.head? = some c → ¬ ('0'.toNat ≤ c ∧ c ≤ '9'.toNat)) :
    ∀ (ds pre : List Nat) (st : Nat), (∀ c ∈ ds, '0'.toNat ≤ c ∧ c ≤ '9'.toNat) →
    status_loop (pre ++ ds ++ rest) (ds.length + rest.length) pre.length st
      = some (ds.foldl (fun acc c => (acc * 10 + (c - '0'.toNat)) % 65536) st) := by
  intro ds
  induction ds with
  | nil =>
    intro pre st _
    cases rest with
    | nil => rfl
    | cons r rs =>
      have hget : (pre ++ r :: rs)[pre.length]? = some r := getElem?_append_cons pre r rs
      simp only [List.append_nil, List.length_nil, Nat.zero_add, List.length_cons,
        List.foldl_nil]
      unfold status_loop
      rw [hget, Option.some_bind, if_neg (hrest r rfl)]
  | cons c ds ih =>
    intro pre st hdig
    have hc := hdig c (List.mem_cons_self _ _)
    have hget : (pre ++ c :: ds ++ rest)[pre.length]? = some c := by
      rw [List.append_assoc]
      exact getElem?_append_cons pre c (ds ++ rest)
    rw [show (c :: ds).length + rest.length = (ds.length + rest.length) + 1 by
      simp only [List.length_cons]; omega]
    unfold status_loop
    rw [hget, Option.some_bind, if_pos hc]
    have hdata : pre ++ c :: ds ++ rest = (pre ++ [c]) ++ ds ++ rest := by simp
    have hlen : pre.length + 1 = (pre ++ [c]).length := by simp
    rw [hdata, hlen, ih (pre ++ [c]) _ fun c' hc' => hdig c' (List.mem_cons_of_mem _ hc')]
    rfl

theorem http_response_eq (x : Nat) (digits rest : List Nat) :
    http_response x digits rest
      = [72, 84, 84, 80, 47, 49, 46, x, 32] ++ digits ++ rest := rfl

theorem header_mismatch_http_response (x : Nat) (digits rest : List Nat) :
    header_mismatch (http_response x digits rest) = some false := by
  rw [http_response_eq]
  simp [header_mismatch]

/-- The status `response_cb` accumulates from a run of digits is the number
the run denotes, reduced modulo 65536. -/
theorem status_loop_http_response (x : Nat) (digits rest : List Nat)
    (hdig : ∀ c ∈ digits, '0'.toNat ≤ c ∧ c ≤ '9'.toNat)
    (hrest : ∀ c, rest.head? = some c → ¬ ('0'.toNat ≤ c ∧ c ≤ '9'.toNat))
    (hlen : (http_response x digits rest).length < 65536) :
    status_loop (http_response x digits rest)
        ((http_response x digits rest).length % 65536 - 9) 9 0
      = some (decimal_value digits % 65536) := by
  rw [Nat.mod_eq_of_lt hlen]
  rw [http_response_eq]
  have hl : ([72, 84, 84, 80, 47, 49, 46, x, 32] ++ digits ++ rest).length - 9
      = digits.length + rest.length := by
    simp only [List.length_append, List.length_cons, List.length_nil]
    omega
  rw [hl]
  have h := status_loop_run rest hrest digits [72, 84, 84, 80, 47, 49, 46, x, 32] 0 hdig
  have h9 : ([72, 84, 84, 80, 47, 49, 46, x, 32] : List Nat).length = 9 := rfl
  rw [h9] at h
  rw [h]
  have hm := decimal_fold_mod digits 0
  rw [Nat.zero_mod] at hm
  rw [hm]
  rfl

/-- The callback `response_cb` on an answer with the expected header, while
`awaiting_response` is set. -/
theorem response_cb_http_response (s : State) (x : Nat) (digits rest : List Nat)
    (hawait : s.awaiting_response = true)
    (hdig : ∀ c ∈ digits, '0'.toNat ≤ c ∧ c ≤ '9'.toNat)
    (hrest : ∀ c, rest.head? = some c → ¬ ('0'.toNat ≤ c ∧ c ≤ '9'.toNat))
    (hlen : (http_response x digits rest).length < 65536) :
    response_cb s (http_response x digits rest) (http_response x digits rest).length
      = some ({ s with awaiting_response := false },
          (if decimal_value digits % 65536 ≠ 200 then
            [ResponseDiag.server_error (decimal_value digits % 65536)] else []),
          [(DISCONNECT_PRI, 0, 0)]) := by
  unfold response_cb
  rw [if_neg (by rw [hawait]; decide)]
  simp only [header_mismatch_http_response, Option.some_bind,
    status_loop_http_response x digits rest hdig hrest hlen]
  by_cases h : decimal_value digits % 65536 = 200
  · simp [h]
  · simp [h]

/-! ### One corrupted byte changes the checksum -/

/-- With the index at the sentinel and a buffer that starts with the three
framing bytes, the framing test of `process_response` reads
`COMMAND_LENGTHS[255]`, outside the table. -/
theorem framing_mismatch_sentinel (s : State) (b3 : Nat)
    (hidx : s.current_command_index = to_u8 (-1))
    (h0 : s.rx_buffer[0]? = some STX) (h1 : s.rx_buffer[1]? = some GATEWAY_ADDR)
    (h2 : s.rx_buffer[2]? = some INVERTER_ID) (h3 : s.rx_buffer[3]? = some b3) :
    framing_mismatch s = none ∧ process_response s = none := by
  have ht : COMMAND_LENGTHS[to_u8 (-1)]? = none := by decide
  have hf : ∀ t : State, t.current_command_index = to_u8 (-1) → t.rx_buffer = s.rx_buffer →
      framing_mismatch t = none := by
    intro t e1 e2
    unfold framing_mismatch
    rw [e1, e2, h0, h1, h2, h3, ht]
    simp
  refine ⟨hf s hidx rfl, ?_⟩
  have hf1 := hf { s with serial_rx_timer := none } hidx rfl
  unfold process_response
  simp only []
  rw [hf1]
  rfl

/-! ### Frames whose framing bytes are intact -/

/-- Whenever the report branch returns: the degraded flag is cleared when
the content builder was created, and flag and posted reports are as before
when `create_string_builder(128)` returned `NULL`. -/
theorem process_response_report_flag (s s' : State)
    (h : process_response_report s = some s') :
    ((create_string_builder s.heap 128).1 ≠ none → s'.timeout = false) ∧
    ((create_string_builder s.heap 128).1 = none →
      s'.timeout = s.timeout ∧ s'.posted = s.posted) := by
  unfold process_response_report at h
  cases hc : create_string_builder s.heap 128 with
  | mk ob heap1 =>
    rw [hc] at h
    cases ob with
    | none =>
      simp only [Option.some.injEq] at h
      subst h
      exact ⟨fun hh => absurd rfl hh, fun _ => ⟨rfl, rfl⟩⟩
    | some c0 =>
      refine ⟨fun _ => ?_, fun hh => by cases hh⟩
      simp only [Option.bind_eq_some] at h
      obtain ⟨r0, _, r1, _, r2, _, hfin⟩ := h
      split at hfin
      · exact (tagwriter_post_frame _ _ _ hfin).2.1
      · simp only [Option.some.injEq] at hfin
        subst hfin
        rfl

/-! ## The claims -/

/-- C1: for every packet of bytes and every length `end` within the packet
(in particular every `end` from 0 to 255), `calculate_crc16(packet, end)` is the
16-bit value obtained by starting from 0 and, for each byte at index
`1 .. end - 1` in order, xoring the byte into the accumulator and then eight
times shifting right by one, xoring with `0xA001` when the low bit was set; any
leading byte followed by ASCII "123456789" with `end = 10` gives `0xBB3D`. -/
theorem calculate_crc16_refines_spec (packet : List Nat) (end_ : Nat)
    (hbytes : ∀ b ∈ packet, b < 256) (hlen : end_ ≤ packet.length) :
    calculate_crc16 packet end_ = crc16_spec packet end_ ∧
    calculate_crc16 packet end_ < 65536 ∧
    ∀ b0 : Nat, calculate_crc16 (b0 :: cstr "123456789") 10 = 0xBB3D := by
  refine ⟨calculate_crc16_eq_spec packet end_ hbytes hlen, calculate_crc16_lt _ _, ?_⟩
  intro b0
  have h : calculate_crc16 (b0 :: cstr "123456789") 10
      = calculate_crc16 (0 :: cstr "123456789") 10 := crc_outer_cons _ _ _ _ 0 _
  rw [h]
  decide

/-- Witness of C1 on the packet `STX :: "123456789"` with `end = 10`. -/
theorem calculate_crc16_refines_spec_witness :
    (∀ b ∈ (0x02 :: cstr "123456789"), b < 256) ∧ 10 ≤ (0x02 :: cstr "123456789").length ∧
    calculate_crc16 (0x02 :: cstr "123456789") 10 = crc16_spec (0x02 :: cstr "123456789") 10 :=
  ⟨by decide, by decide,
    (calculate_crc16_refines_spec (0x02 :: cstr "123456789") 10 (by decide) (by decide)).1⟩

/-- C2: for every valid catalog index `i`, `send_data_request` transmits
exactly the 9 bytes `[0x02, 0x05, 0x01, 0x02, COMMANDS[i][0], COMMANDS[i][1],
c & 0xFF, c >> 8, 0x03]` where `c` is `calculate_crc16` over the first six
bytes; bytes 4-5 of the frame are the command pair and bytes 6-7, low byte
first, recompose to the checksum recomputed over the first 6 bytes. -/
theorem send_data_request_transmits_request_frame (s : State) (i : Nat)
    (hi : i < COMMAND_COUNT) (hidx : s.current_command_index = i) :
    ∃ s' c0 c1 c,
      COMMANDS[i]? = some (c0, c1) ∧
      c = calculate_crc16 [0x02, 0x05, 0x01, 0x02, c0, c1] 6 ∧
      send_data_request s = some s' ∧
      s'.uart1_tx = s.uart1_tx ++ [0x02, 0x05, 0x01, 0x02, c0, c1, c &&& 0xFF, c >>> 8, 0x03] ∧
      request_frame i = [0x02, 0x05, 0x01, 0x02, c0, c1, c &&& 0xFF, c >>> 8, 0x03] ∧
      ((request_frame i)[4]?, (request_frame i)[5]?) = (some c0, some c1) ∧
      (c &&& 0xFF) ||| ((c >>> 8) <<< 8) = calculate_crc16 ((request_frame i).take 6) 6 := by
  refine ⟨_, (COMMANDS.getD i (0, 0)).1, (COMMANDS.getD i (0, 0)).2, _, COMMANDS_get i hi, rfl,
    send_data_request_eq s i hi hidx, rfl, rfl, rfl, ?_⟩
  have hc := calculate_crc16_lt
    [0x02, 0x05, 0x01, 0x02, (COMMANDS.getD i (0, 0)).1, (COMMANDS.getD i (0, 0)).2] 6
  have ht : (request_frame i).take 6
      = [0x02, 0x05, 0x01, 0x02, (COMMANDS.getD i (0, 0)).1, (COMMANDS.getD i (0, 0)).2] := rfl
  rw [ht, and_ff_eq_mod, or_shift_eq_add _ _ (Nat.mod_lt _ (by norm_num)), shift_eight]
  omega

/-- Witness of C2 on the initial state and catalog entry 0. -/
theorem send_data_request_transmits_request_frame_witness :
    (0 : Nat) < COMMAND_COUNT ∧ State.init.current_command_index = 0 ∧
    ∃ s', send_data_request State.init = some s' ∧
      s'.uart1_tx = State.init.uart1_tx ++ request_frame 0 :=
  ⟨by decide, rfl,
    let ⟨s', _, _, _, _, _, h3, h4, h5, _⟩ :=
      send_data_request_transmits_request_frame State.init 0 (by decide) rfl
    ⟨s', h3, by rw [h4, h5]⟩⟩

/-- C3 (the code diverges): in state `Awaiting(5)` a completed frame whose
checksum bytes match but whose STX byte (first conjunct), address byte (second)
or ETX byte (third) is wrong is accepted by `process_response`: the payload is
stored in `inverter_values[5]`, the index advances to 6 and the next request is
transmitted. The frames differ from the well-formed reply in that byte only. -/
theorem process_response_accepts_bad_framing :
    (process_response (example_completed 5
        (frame_with_crc [0xFF, 0x06, 0x01, 0x04, 0x11, 0x03, 0x01, 0x2C] 0x03))).map
      (fun t => (t.current_command_index, t.inverter_values[5]?, t.uart1_tx))
      = some (6, some 300, request_frame 6) ∧
    (process_response (example_completed 5
        (frame_with_crc [0x02, 0x09, 0x01, 0x04, 0x11, 0x03, 0x01, 0x2C] 0x03))).map
      (fun t => (t.current_command_index, t.inverter_values[5]?, t.uart1_tx))
      = some (6, some 300, request_frame 6) ∧
    (process_response (example_completed 5
        (frame_with_crc [0x02, 0x06, 0x01, 0x04, 0x11, 0x03, 0x01, 0x2C] 0x00))).map
      (fun t => (t.current_command_index, t.inverter_values[5]?, t.uart1_tx))
      = some (6, some 300, request_frame 6) ∧
    reply_frame 5 [0x01, 0x2C]
      = frame_with_crc [0x02, 0x06, 0x01, 0x04, 0x11, 0x03, 0x01, 0x2C] 0x03 ∧
    Awaiting (example_completed 5
        (frame_with_crc [0xFF, 0x06, 0x01, 0x04, 0x11, 0x03, 0x01, 0x2C] 0x03)) 5 := by
  set_option maxRecDepth 1000000 in
  decide

/-- C4: when `process_response` accepts a frame (its checksum bytes match) for
catalog index `i`, the value stored at `inverter_values[i]` is the big-endian
unsigned integer formed by the `L = COMMAND_LENGTHS[i]` payload bytes starting
at offset 6, whatever the bytes are (also with a first byte of `0x80` or more
when `L = 4`), and no other entry changes; every active catalog entry has
`L = 2` or `L = 4`; payload `01 2C` is 300, `00 01 86 A0` is 100000.
`process_response` returns exactly when the framing-mismatch branch stays
inside its scratch block (`framing_dump_defined`: the framing bytes match, or
the block is not allocated, or it is large enough); otherwise a store of that
branch falls outside the block and there is no result. The last conjunct is the
storing step on its own for every row of the 47-row tables (payloads of 1, 2
or 4 bytes) that lies inside the result table. -/
theorem process_response_stores_big_endian (s : State) (i : Nat) (hA : Awaiting s i)
    (hlen : s.rx_buffer_len ≤ 16)
    (hcrc : s.rx_buffer.getD (COMMAND_LENGTHS.getD i 0 + 6) 0
        + 256 * s.rx_buffer.getD (COMMAND_LENGTHS.getD i 0 + 7) 0
      = calculate_crc16 s.rx_buffer (COMMAND_LENGTHS.getD i 0 + 6)) :
    (framing_dump_defined s → ∃ s', process_response s = some s' ∧
      s'.inverter_values[i]? =
        some (be_value ((s.rx_buffer.drop 6).take (COMMAND_LENGTHS.getD i 0))) ∧
      (∀ k, k ≠ i → s'.inverter_values[k]? = s.inverter_values[k]?)) ∧
    (¬ framing_dump_defined s → process_response s = none) ∧
      (COMMAND_LENGTHS.getD i 0 = 2 ∨ COMMAND_LENGTHS.getD i 0 = 4) ∧
      be_value [0x01, 0x2C] = 300 ∧ be_value [0x00, 0x01, 0x86, 0xA0] = 100000 ∧
      be_value [0xFF, 0xFF, 0xFF, 0xFF] = 4294967295 ∧
      (∀ (t : State) (j : Nat), j < 47 → t.current_command_index = j →
        j < t.inverter_values.length → t.rx_buffer.length = 16 →
        (∀ b ∈ t.rx_buffer, b < 256) →
        process_response_store t = some { t with
          inverter_values := t.inverter_values.set j
            (be_value ((t.rx_buffer.drop 6).take (COMMAND_LENGTHS.getD j 0))) } ∧
        (COMMAND_LENGTHS.getD j 0 = 1 ∨ COMMAND_LENGTHS.getD j 0 = 2 ∨
          COMMAND_LENGTHS.getD j 0 = 4)) := by
  have hstore : ∀ (t : State) (j : Nat), j < 47 → t.current_command_index = j →
      j < t.inverter_values.length → t.rx_buffer.length = 16 →
      (∀ b ∈ t.rx_buffer, b < 256) →
      process_response_store t = some { t with
        inverter_values := t.inverter_values.set j
          (be_value ((t.rx_buffer.drop 6).take (COMMAND_LENGTHS.getD j 0))) } ∧
      (COMMAND_LENGTHS.getD j 0 = 1 ∨ COMMAND_LENGTHS.getD j 0 = 2 ∨
        COMMAND_LENGTHS.getD j 0 = 4) :=
    fun t j hj h1 h2 h3 h4 =>
      ⟨process_response_store_spec t j hj h1 h2 h3 h4, COMMAND_LENGTHS_one_two_four j hj⟩
  obtain ⟨hi, ⟨h16, hb, hval, _⟩, hidx, hdl, hexp⟩ := hA
  have hL := COMMAND_LENGTHS_two_or_four i hi
  unfold RX_BUFFER_LENGTH at h16
  have hlt : i < s.inverter_values.length := by rw [hval]; exact hi
  refine ⟨fun hdump => ?_, fun hdump => process_response_overrun s i hi hidx h16 hdump,
    hL, by decide, by decide, by decide, hstore⟩
  obtain ⟨heap1, log1, _, e⟩ := process_response_eq_check s i hi hidx h16 hlen hdump
  have e2 := process_response_check_accept
    { s with serial_rx_timer := none, heap := heap1, log := log1 } i hi hidx h16 hb hdl hval hcrc
  simp only [] at e2
  rw [e, e2]
  have hset : ∀ v, ((s.inverter_values.set i v)[i]? = some v) ∧
      ∀ k, k ≠ i → (s.inverter_values.set i v)[k]? = s.inverter_values[k]? := by
    intro v
    refine ⟨by simp [List.getElem?_set, hlt], fun k hk => ?_⟩
    simp [List.getElem?_set, Ne.symm hk]
  by_cases h37 : i = COMMAND_COUNT - 1
  · rw [if_pos h37]
    obtain ⟨s', e', hex, _⟩ := process_response_report_spec
      { s with
        serial_rx_timer := none, heap := heap1
        log := log1 ++ [Diag.accepted i]
        inverter_values := s.inverter_values.set i
          (be_value ((s.rx_buffer.drop 6).take (COMMAND_LENGTHS.getD i 0))) }
      (by simp only [List.length_set]; exact hval)
    have hiv : s'.inverter_values = s.inverter_values.set i
        (be_value ((s.rx_buffer.drop 6).take (COMMAND_LENGTHS.getD i 0))) := by
      have := congrArg (fun t => t.2.2.2.1) hex
      simpa [State.exchange] using this
    refine ⟨s', e', ?_, ?_⟩
    · rw [hiv]; exact (hset _).1
    · intro k hk; rw [hiv]; exact (hset _).2 k hk
  · rw [if_neg h37]
    have hi1 : i + 1 < COMMAND_COUNT := by unfold COMMAND_COUNT at hi h37 ⊢; omega
    rw [send_data_request_eq _ (i + 1) hi1 rfl]
    exact ⟨_, rfl, (hset _).1, (hset _).2⟩

/-- Witness of C4: the four-byte reply `FF FF FF FF` to catalog entry 22. -/
theorem process_response_stores_big_endian_witness :
    Awaiting (example_completed 22 (reply_frame 22 [0xFF, 0xFF, 0xFF, 0xFF])) 22 ∧
    framing_dump_defined (example_completed 22 (reply_frame 22 [0xFF, 0xFF, 0xFF, 0xFF])) ∧
    ∃ s', process_response (example_completed 22 (reply_frame 22 [0xFF, 0xFF, 0xFF, 0xFF]))
        = some s' ∧
      s'.inverter_values[22]? = some (be_value
        (((example_completed 22 (reply_frame 22 [0xFF, 0xFF, 0xFF, 0xFF])).rx_buffer.drop 6).take
          (COMMAND_LENGTHS.getD 22 0))) :=
  ⟨by decide, by decide!,
    let ⟨h0, _⟩ := process_response_stores_big_endian
      (example_completed 22 (reply_frame 22 [0xFF, 0xFF, 0xFF, 0xFF])) 22 (by decide) (by decide)
      (by set_option maxRecDepth 1000000 in decide)
    let ⟨s', h1, h2, _⟩ := h0 (by decide!)
    ⟨s', h1, h2⟩⟩

/-- C5: for every catalog index `i < COMMAND_COUNT - 1` and every well-formed
reply frame for catalog entry `i`, starting from `Awaiting(i)` with an empty
accumulator and feeding the frame byte by byte through `uart_rx_task`:
afterwards the index is `i + 1`, `inverter_values[i]` holds the decoded
payload, every other entry is unchanged, the accumulator is empty, the request
for entry `i + 1` has been transmitted and the expected frame length is
`COMMAND_LENGTHS[i + 1] + 9`. -/
theorem exchange_advances_on_reply (s : State) (i : Nat) (payload : List Nat)
    (hi : i < COMMAND_COUNT - 1) (hA : Awaiting s i) (hempty : s.rx_buffer_len = 0)
    (hpl : payload.length = COMMAND_LENGTHS.getD i 0) (hbytes : ∀ b ∈ payload, b < 256) :
    ∃ s', feed_bytes s (reply_frame i payload) = some s' ∧
      s'.current_command_index = i + 1 ∧
      s'.inverter_values[i]? = some (be_value payload) ∧
      (∀ k, k ≠ i → s'.inverter_values[k]? = s.inverter_values[k]?) ∧
      s'.inverter_values.length = s.inverter_values.length ∧
      s'.rx_buffer_len = 0 ∧
      s'.uart1_tx = s.uart1_tx ++ request_frame (i + 1) ∧
      s'.expected_len = COMMAND_LENGTHS.getD (i + 1) 0 + 9 :=
  let ⟨s', h1, h2, h3, h4, h5, h6, h7, h8, _⟩ :=
    feed_reply_advances s i payload hi hA hempty hpl hbytes
  ⟨s', h1, h2, h3, h4, h5, h6, h7, h8⟩

/-- Witness of C5: the reply `01 2C` to catalog entry 0. -/
theorem exchange_advances_on_reply_witness :
    0 < COMMAND_COUNT - 1 ∧ Awaiting (example_awaiting 0) 0 ∧
    (example_awaiting 0).rx_buffer_len = 0 ∧
    ∃ s', feed_bytes (example_awaiting 0) (reply_frame 0 [0x01, 0x2C]) = some s' ∧
      s'.current_command_index = 0 + 1 ∧ s'.inverter_values[0]? = some (be_value [0x01, 0x2C]) :=
  ⟨by decide, by decide, by decide,
    let ⟨s', h1, h2, h3, _⟩ := exchange_advances_on_reply (example_awaiting 0) 0 [0x01, 0x2C]
      (by decide) (by decide) (by decide) (by decide) (by decide)
    ⟨s', h1, h2, h3⟩⟩

/-- C6 (the code diverges): the test `current_command_index != -1` of
`uart_rx_task` holds for every value of the `uint8_t` index, so the discarding
branch is never taken: in every state the bytes go through the receive loop.
After `serial_timeout_cb` has set the sentinel in `Awaiting(0)`, a byte `0x02`
delivered to `uart_rx_task` is stored in the accumulator, whose length
becomes 1. -/
theorem sentinel_bytes_are_accumulated :
    (∀ (s : State) (fifo : List Nat), uart_rx_task s 0 fifo = fifo.foldlM uart_rx_byte s) ∧
    ((serial_timeout_cb (example_awaiting 0)).bind fun st => uart_rx_task st 0 [0x02]).map
      (fun t => (t.current_command_index, t.rx_buffer_len, t.rx_buffer[0]?))
      = some (to_u8 (-1), 1, some 0x02) := by
  refine ⟨fun s fifo => ?_, by set_option maxRecDepth 1000000 in decide⟩
  unfold uart_rx_task
  simp only [index_ne_sentinel, if_true]

/-- C7: when the response timeout fires (in any state, in particular any
`Awaiting(i)`), `serial_timeout_cb` sets the degraded flag to true and the
index to the sentinel `(uint8_t)-1`, and when the allocations succeed it hands
`tagwriter_post` a payload whose text is exactly
`\x7b"groups":\x7b"2":"unhealthy"\x7d\x7d`, which has no tags field, leaving the
wrapped request in `value_buf` and calling `espconn_connect`. -/
theorem serial_timeout_cb_reports_unhealthy (s : State) :
    ∃ s', serial_timeout_cb s = some s' ∧ s'.timeout = true ∧
      s'.current_command_index = to_u8 (-1) ∧
      (heap_succeeds s.heap →
        s'.posted = s.posted ++ [cstr "\x7b\"groups\":\x7b\"2\":\"unhealthy\"\x7d\x7d"] ∧
        s'.net = s.net ++ [NetEvent.connect] ∧
        (∃ sb, s'.value_buf = some sb ∧ sb.text =
          http_request_spec (cstr "\x7b\"groups\":\x7b\"2\":\"unhealthy\"\x7d\x7d")) ∧
        ¬ (cstr "tags" <:+: cstr "\x7b\"groups\":\x7b\"2\":\"unhealthy\"\x7d\x7d")) := by
  obtain ⟨s', h1, h2, h3, _, _, _, _, _, _, _, h4⟩ := serial_timeout_cb_spec s
  refine ⟨s', h1, h2, by rw [to_u8_neg_one]; exact h3, fun hh => ?_⟩
  obtain ⟨_, p1, p2, sb, p3, _, p4⟩ := h4 hh
  exact ⟨p1, p2, ⟨sb, p3, p4⟩, by decide⟩

/-- Witness of C7 in the state `Awaiting(3)` with an allocator that succeeds. -/
theorem serial_timeout_cb_reports_unhealthy_witness :
    heap_succeeds (example_awaiting 3).heap ∧
    ∃ s', serial_timeout_cb (example_awaiting 3) = some s' ∧ s'.timeout = true ∧
      s'.posted = (example_awaiting 3).posted
        ++ [cstr "\x7b\"groups\":\x7b\"2\":\"unhealthy\"\x7d\x7d"] :=
  ⟨by decide,
    let ⟨s', h1, h2, _, h4⟩ := serial_timeout_cb_reports_unhealthy (example_awaiting 3)
    ⟨s', h1, h2, (h4 (by decide)).1⟩⟩

/-- C8 (the code diverges): neither `serial_timeout_cb` nor `transmit_cb`
resets `rx_buffer_len`; only the completion path of the receive loop does.
From boot (here with every allocation failing), a sweep is started, the byte
`02` is received, the timeout occurs and the next sweep is started: the
accumulator still holds that byte. The well-formed reply `01 2C` to the first
request is then misaligned: it is not accepted, the index stays 0, slot 0 keeps
its value 0, and the last byte of the reply stays in the accumulator, so that the
reply of the following sweep is not accepted either. With the allocations
succeeding the framing-mismatch branch that the misaligned frame takes stores
outside its scratch block, and the execution has no result. -/
theorem stale_byte_survives_timeout :
    (∀ s : State, ∃ t, serial_timeout_cb s = some t ∧ t.rx_buffer_len = s.rx_buffer_len ∧
      t.rx_buffer = s.rx_buffer) ∧
    (∀ s : State, ∃ t, transmit_cb s = some t ∧ t.rx_buffer_len = s.rx_buffer_len ∧
      t.rx_buffer = s.rx_buffer) ∧
    reply_frame 0 [0x01, 0x2C] = [0x02, 0x06, 0x01, 0x04, 0x10, 0x01, 0x01, 0x2C, 0xC3, 0x5C, 0x03] ∧
    (exec (boot [none, none, none] [])
        [Event.transmit, Event.rx 0x02, Event.timeout, Event.transmit]).map
      (fun t => (t.current_command_index, t.rx_buffer_len, t.expected_len)) = some (0, 1, 11) ∧
    (exec (boot [none, none, none] [])
        ([Event.transmit, Event.rx 0x02, Event.timeout, Event.transmit] ++
          (reply_frame 0 [0x01, 0x2C]).map Event.rx)).map
      (fun t => (t.current_command_index, t.inverter_values[0]?, t.rx_buffer_len))
      = some (0, some 0, 1) ∧
    (exec (boot [none, none, none] [])
        ([Event.transmit, Event.rx 0x02, Event.timeout, Event.transmit] ++
          (reply_frame 0 [0x01, 0x2C]).map Event.rx ++ [Event.transmit] ++
          (reply_frame 0 [0x01, 0x2C]).map Event.rx)).map
      (fun t => (t.current_command_index, t.inverter_values[0]?, t.rx_buffer_len))
      = some (0, some 0, 1) ∧
    exec (boot [] [])
        ([Event.transmit, Event.rx 0x02, Event.timeout, Event.transmit] ++
          (reply_frame 0 [0x01, 0x2C]).map Event.rx) = none := by
  refine ⟨fun s => ?_, fun s => ?_, by decide!, by decide!, by decide!, by decide!, by decide!⟩
  · obtain ⟨t, e, _, _, _, _, _, hrb, hrl, _⟩ := serial_timeout_cb_spec s
    exact ⟨t, e, hrl, hrb⟩
  · obtain ⟨t, e, _, _, hrb, hrl, _⟩ := transmit_cb_some s
    exact ⟨t, e, hrl, hrb⟩

/-- Neither `serial_timeout_cb` nor `transmit_cb` changes the receive
accumulator; when the accumulator is empty at the time the response
timeout fires and the next sweep is started by `transmit_cb`, a complete
well-formed reply frame for catalog entry 0 fed byte by byte is accepted:
the value is stored and the index advances to 1. -/
theorem reply_accepted_after_timeout_when_empty (s : State) (payload : List Nat)
    (hwf : s.wf) (hempty : s.rx_buffer_len = 0)
    (hpl : payload.length = COMMAND_LENGTHS.getD 0 0) (hbytes : ∀ b ∈ payload, b < 256) :
    ∃ st s1 s2, serial_timeout_cb s = some st ∧ st.rx_buffer_len = s.rx_buffer_len ∧
      st.rx_buffer = s.rx_buffer ∧
      transmit_cb st = some s1 ∧ s1.rx_buffer_len = st.rx_buffer_len ∧
      s1.rx_buffer = st.rx_buffer ∧ s1.current_command_index = 0 ∧
      feed_bytes s1 (reply_frame 0 payload) = some s2 ∧
      s2.current_command_index = 1 ∧ s2.inverter_values[0]? = some (be_value payload) := by
  obtain ⟨st, e1, _, _, _, _, hiv, hrb, hrl, _, _, _⟩ := serial_timeout_cb_spec s
  obtain ⟨s1, e2, hA, hrl1, hrb1, _, _⟩ := awaiting_after_transmit st (wf_of_fields s st hwf hrb hiv)
  obtain ⟨s2, e3, h1, h2, _⟩ := feed_reply_advances s1 0 payload (by decide) hA
    (by rw [hrl1, hrl, hempty]) hpl hbytes
  exact ⟨st, s1, s2, e1, hrl, hrb, e2, hrl1, hrb1, hA.2.2.1, e3, h1, h2⟩

/-- An instance: the timeout fires in `Awaiting(3)` with an empty
accumulator, the next sweep receives the reply `01 2C`. -/
theorem reply_accepted_after_timeout_when_empty_witness :
    (example_awaiting 3).wf ∧ (example_awaiting 3).rx_buffer_len = 0 ∧
    ∃ st s1 s2, serial_timeout_cb (example_awaiting 3) = some st ∧
      transmit_cb st = some s1 ∧
      feed_bytes s1 (reply_frame 0 [0x01, 0x2C]) = some s2 ∧ s2.current_command_index = 1 :=
  ⟨by decide, by decide,
    let ⟨st, s1, s2, h1, _, _, h4, _, _, _, h8, h9, _⟩ :=
      reply_accepted_after_timeout_when_empty (example_awaiting 3) [0x01, 0x2C]
        (by decide) (by decide) (by decide) (by decide)
    ⟨st, s1, s2, h1, h4, h8, h9⟩⟩

/-- C10 (the code diverges): in `Awaiting(37)` with `inverter_values[22]`
equal to 4294967295, after the well-formed final reply `01 2C` is accepted the
posted body is not the specified text: the code renders that value with `%d`
as an `int32_t`, so the body reads `"year-energy":-1`. -/
theorem report_renders_large_value_signed :
    ∃ s', feed_bytes
        { example_awaiting 37 with inverter_values := (List.replicate 38 0).set 22 4294967295 }
        (reply_frame 37 [0x01, 0x2C]) = some s' ∧
      s'.inverter_values = ((List.replicate 38 0).set 22 4294967295).set 37 300 ∧
      s'.posted ≠ [report_body_spec s'.inverter_values true] ∧
      cstr "\"year-energy\":-1," <:+: s'.posted.headD [] := by
  obtain ⟨s', e, hiv, _, _, _, _, hp, _⟩ := feed_final_reply
    { example_awaiting 37 with inverter_values := (List.replicate 38 0).set 22 4294967295 }
    [0x01, 0x2C] (by decide) (by decide) (by decide) (by decide) (by decide)
  have hiv' : s'.inverter_values = ((List.replicate 38 0).set 22 4294967295).set 37 300 := by
    rw [hiv]; decide
  refine ⟨s', e, hiv', ?_, ?_⟩
  · rw [hp, hiv']
    set_option maxRecDepth 1000000 in
    decide
  · rw [hp, hiv']
    set_option maxRecDepth 1000000 in
    decide

/-- Starting from `Awaiting(37)` with a result table whose
entries are all below 2^31 and an allocator that succeeds, after a well-formed
final reply is accepted the table `v` holds the value just decoded at index 37
and the posted payload body is exactly `\x7b"tags":\x7b` followed by the 38 entries
`"COMMAND_TAGS[k]":<decimal of v[k]>` for `k = 0..37` in catalog order
separated by single commas, followed by `\x7d\x7d`, or by
`\x7d,"groups":\x7b"2":"healthy"\x7d\x7d` when the degraded flag was set; the body is
wrapped in the HTTP request left in `value_buf`. -/
theorem final_reply_posts_report (s : State) (payload : List Nat)
    (hA : Awaiting s (COMMAND_COUNT - 1)) (hempty : s.rx_buffer_len = 0)
    (hpl : payload.length = COMMAND_LENGTHS.getD (COMMAND_COUNT - 1) 0)
    (hbytes : ∀ b ∈ payload, b < 256) (hheap : heap_succeeds s.heap)
    (hsmall : ∀ v ∈ s.inverter_values, v < 2147483648) :
    ∃ s', feed_bytes s (reply_frame (COMMAND_COUNT - 1) payload) = some s' ∧
      s'.inverter_values = s.inverter_values.set (COMMAND_COUNT - 1) (be_value payload) ∧
      s'.inverter_values[COMMAND_COUNT - 1]? = some (be_value payload) ∧
      s'.posted = s.posted ++ [report_body_spec s'.inverter_values s.timeout] ∧
      (tag_entries_spec s'.inverter_values).length = 38 ∧
      (∃ sb, s'.value_buf = some sb ∧
        sb.text = http_request_spec (report_body_spec s'.inverter_values s.timeout)) ∧
      s'.timeout = false := by
  have hval : s.inverter_values.length = COMMAND_COUNT := hA.2.1.2.2.1
  obtain ⟨s', e, hiv, _, _, _, hto, hp, _, sb, hsb, _, hst⟩ :=
    feed_final_reply s payload hA hempty hpl hbytes hheap
  have hbv : be_value payload < 2147483648 := by
    have := be_value_two_lt payload (by rw [hpl]; decide) hbytes
    omega
  have hcode : report_body_code s'.inverter_values s.timeout
      = report_body_spec s'.inverter_values s.timeout := by
    apply report_body_code_eq_spec
    intro k hk
    rw [hiv]
    exact set_getD_lt _ _ _ _ _ hsmall hbv (by rw [hval]; exact hk)
  rw [hcode] at hp hst
  refine ⟨s', e, hiv, ?_, hp, ?_, ⟨sb, hsb, hst⟩, hto⟩
  · rw [hiv]
    simp [List.getElem?_set, hval, COMMAND_COUNT]
  · unfold tag_entries_spec
    simp [COMMAND_COUNT]

/-- An instance: the final reply `01 2C` in `Awaiting(37)`. -/
theorem final_reply_posts_report_witness :
    Awaiting (example_awaiting 37) (COMMAND_COUNT - 1) ∧
    heap_succeeds (example_awaiting 37).heap ∧
    (∀ v ∈ (example_awaiting 37).inverter_values, v < 2147483648) ∧
    ∃ s', feed_bytes (example_awaiting 37) (reply_frame (COMMAND_COUNT - 1) [0x01, 0x2C])
        = some s' ∧
      s'.posted = (example_awaiting 37).posted
        ++ [report_body_spec s'.inverter_values (example_awaiting 37).timeout] :=
  ⟨by decide, by decide, by decide,
    let ⟨s', h1, _, _, h4, _⟩ := final_reply_posts_report (example_awaiting 37) [0x01, 0x2C]
      (by decide) (by decide) (by decide) (by decide) (by decide) (by decide)
    ⟨s', h1, h4⟩⟩

/-- C11 (the code diverges): the report loop passes `inverter_values[ii]`, a
`uint32_t`, to `append_int32_string_builder`, which takes an `int32_t` and prints
it with `%d`. Every table value `v = 2^31 + m` with `m < 2^31` is therefore
rendered as a minus sign followed by the decimal numeral of `2^31 - m`
(first conjunct, for every `k` with `m = k % 2^31`). The reply `FF FF FF FF`
to catalog entry 22 stores 4294967295; with that table entry the report entry
reads `,"year-energy":-1` where the unsigned numeral gives
`,"year-energy":4294967295`, and the report posted after the final reply
contains `"year-energy":-1,` and not the numeral `4294967295`. -/
theorem report_renders_unsigned_value_negative :
    (∀ k : Nat, sprintf_d (to_i32 ((2147483648 + k % 2147483648 : Nat) : Int))
      = 45 :: cstr (toString (2147483648 - k % 2147483648))) ∧
    (∀ (values : List Nat) (ii : Nat), report_entry_text values ii
      = report_entry_key ii ++ sprintf_d (to_i32 (values.getD ii 0))) ∧
    (process_response (example_completed 22 (reply_frame 22 [0xFF, 0xFF, 0xFF, 0xFF]))).map
      (fun t => t.inverter_values[22]?) = some (some 4294967295) ∧
    report_entry_text ((List.replicate 38 0).set 22 4294967295) 22
      = cstr ",\"year-energy\":-1" ∧
    cstr "," ++ tag_entry_spec "year-energy" 4294967295 = cstr ",\"year-energy\":4294967295" ∧
    ∃ s', feed_bytes
        { example_awaiting 37 with inverter_values := (List.replicate 38 0).set 22 4294967295 }
        (reply_frame 37 [0x01, 0x2C]) = some s' ∧
      s'.inverter_values[22]? = some 4294967295 ∧
      cstr "\"year-energy\":-1," <:+: s'.posted.headD [] ∧
      ¬ (cstr "4294967295" <:+: s'.posted.headD []) := by
  refine ⟨fun k => ?_, fun _ _ => rfl, by set_option maxRecDepth 1000000 in decide!,
    by decide, by decide, ?_⟩
  · have hm : k % 2147483648 < 2147483648 := Nat.mod_lt _ (by norm_num)
    have e : to_i32 ((2147483648 + k % 2147483648 : Nat) : Int)
        = Int.negSucc (2147483648 - k % 2147483648 - 1) := by
      unfold to_i32
      rw [Int.negSucc_eq]
      omega
    have e2 : 2147483648 - k % 2147483648 - 1 + 1 = 2147483648 - k % 2147483648 := by omega
    rw [e, sprintf_d_negSucc, e2]
  · obtain ⟨s', e, hiv, _, _, _, _, hp, _⟩ := feed_final_reply
      { example_awaiting 37 with inverter_values := (List.replicate 38 0).set 22 4294967295 }
      [0x01, 0x2C] (by decide) (by decide) (by decide) (by decide) (by decide)
    have hiv' : s'.inverter_values = ((List.replicate 38 0).set 22 4294967295).set 37 300 := by
      rw [hiv]; decide
    refine ⟨s', e, by rw [hiv']; decide, ?_, ?_⟩
    · rw [hp, hiv']
      set_option maxRecDepth 1000000 in
      decide
    · rw [hp, hiv']
      set_option maxRecDepth 1000000 in
      decide!

/-- C12 (counterexample): in `Awaiting(37)` with the degraded flag set, the
well-formed final reply `01 2C` arrives while `os_malloc` answers `NULL` to
`create_string_builder(128)`: the reply is accepted (300 is stored in slot 37),
nothing is posted and the degraded flag is still set afterwards. -/
theorem final_reply_without_builder_keeps_flag :
    Awaiting { example_awaiting 37 with heap := [none] } (COMMAND_COUNT - 1) ∧
    ({ example_awaiting 37 with heap := [none] } : State).timeout = true ∧
    (feed_bytes { example_awaiting 37 with heap := [none] }
        (reply_frame (COMMAND_COUNT - 1) [0x01, 0x2C])).map
      (fun t => (t.current_command_index, t.inverter_values[37]?, t.log))
      = some (37, some 300, [Diag.accepted 37, Diag.no_builder]) ∧
    (feed_bytes { example_awaiting 37 with heap := [none] }
        (reply_frame (COMMAND_COUNT - 1) [0x01, 0x2C])).map
      (fun t => (t.posted, t.timeout)) = some ([], true) := by
  refine ⟨by decide, rfl, by decide!, by decide!⟩

/-- C12 (amended): on normal completion, that is when a well-formed reply for
the last catalog index is accepted in `Awaiting(37)`, whatever the allocator
answers: the callback returns, and whenever it posts the report, the report
carries the `groups` field (it is then the text ending in
`\x7d,"groups":\x7b"2":"healthy"\x7d\x7d`) if and only if the degraded flag was set
when the reply was accepted, and the degraded flag is false afterwards. The
flag is false afterwards whenever the content builder was created
(`create_string_builder(128)` did not return `NULL`), posted or not; when it was
not created nothing is posted and the flag keeps its value. When the
allocations succeed the report is posted. -/
theorem final_report_groups_iff_degraded (s : State) (payload : List Nat)
    (hA : Awaiting s (COMMAND_COUNT - 1)) (hempty : s.rx_buffer_len = 0)
    (hpl : payload.length = COMMAND_LENGTHS.getD (COMMAND_COUNT - 1) 0)
    (hbytes : ∀ b ∈ payload, b < 256) :
    ∃ s', feed_bytes s (reply_frame (COMMAND_COUNT - 1) payload) = some s' ∧
      (∀ body, s'.posted = s.posted ++ [body] →
        (has_groups body ↔ s.timeout = true) ∧ s'.timeout = false ∧
        body = report_body_code s'.inverter_values s.timeout) ∧
      ((create_string_builder s.heap 128).1 ≠ none → s'.timeout = false) ∧
      ((create_string_builder s.heap 128).1 = none →
        s'.timeout = s.timeout ∧ s'.posted = s.posted) ∧
      (heap_succeeds s.heap → ∃ body, s'.posted = s.posted ++ [body]) := by
  have hval : s.inverter_values.length = COMMAND_COUNT := hA.2.1.2.2.1
  rw [feed_reply_frame s _ payload (by decide) hA hempty hpl hbytes, if_pos rfl]
  obtain ⟨s', e', hex, _, hrest⟩ := process_response_report_spec
    { s with
      rx_buffer := reply_frame (COMMAND_COUNT - 1) payload ++
        s.rx_buffer.drop (COMMAND_LENGTHS.getD (COMMAND_COUNT - 1) 0 + 9)
      rx_buffer_len := COMMAND_LENGTHS.getD (COMMAND_COUNT - 1) 0 + 9
      serial_rx_timer := none
      log := s.log ++ [Diag.accepted (COMMAND_COUNT - 1)]
      inverter_values := s.inverter_values.set (COMMAND_COUNT - 1) (be_value payload) }
    (by simp only [List.length_set]; exact hval)
  have hiv : s'.inverter_values
      = s.inverter_values.set (COMMAND_COUNT - 1) (be_value payload) := by
    have := congrArg (fun t => t.2.2.2.1) hex
    simpa [State.exchange] using this
  obtain ⟨_, hfr⟩ := process_response_report_frame _ s' e'
  obtain ⟨hflag1, hflag2⟩ := process_response_report_flag _ s' e'
  rw [e']
  refine ⟨_, rfl, fun body hbody => ?_, hflag1, hflag2, fun hh => ⟨_, (hrest hh).2.2.1⟩⟩
  have hbody' : s'.posted = s.posted ++ [body] := hbody
  rcases hfr with ⟨p, _⟩ | ⟨p, q⟩
  · rw [p] at hbody'
    have := congrArg List.length hbody'
    simp at this
  · rw [p] at hbody'
    have hb : body = report_body_code
        (s.inverter_values.set (COMMAND_COUNT - 1) (be_value payload)) s.timeout := by
      have := List.append_cancel_left hbody'
      simpa using this.symm
    refine ⟨?_, q, ?_⟩
    · rw [hb]; exact has_groups_report_iff _ _
    · show body = report_body_code s'.inverter_values s.timeout
      rw [hiv]; exact hb

/-- Witness of C12 (amended): the final reply `01 2C` in `Awaiting(37)` after
boot (degraded flag set, allocations succeeding). -/
theorem final_report_groups_iff_degraded_witness :
    Awaiting (example_awaiting 37) (COMMAND_COUNT - 1) ∧
    (example_awaiting 37).timeout = true ∧ heap_succeeds (example_awaiting 37).heap ∧
    ∃ s' body, feed_bytes (example_awaiting 37) (reply_frame (COMMAND_COUNT - 1) [0x01, 0x2C])
        = some s' ∧
      s'.posted = (example_awaiting 37).posted ++ [body] ∧ has_groups body ∧
      s'.timeout = false :=
  ⟨by decide, rfl, by decide,
    let ⟨s', h1, h2, _, _, h3⟩ := final_report_groups_iff_degraded (example_awaiting 37)
      [0x01, 0x2C] (by decide) (by decide) (by decide) (by decide)
    let ⟨body, hb⟩ := h3 (by decide)
    ⟨s', body, h1, hb, (h2 body hb).1.mpr rfl, (h2 body hb).2.1⟩⟩

/-- C13 (as stated, refuted): the first sweep after boot, in which no timeout
event occurs (the transmit timer fires and the bytes of 38 well-formed replies
arrive), posts one normal report, and that report carries the `groups` field
although no response timeout occurred since boot: the degraded flag is
initialised to true. -/
theorem first_sweep_report_carries_groups :
    Event.timeout ∉ first_sweep_events ∧ State.init.timeout = true ∧
    ∃ s h body, run (boot [] []) {} first_sweep_events = some (s, h) ∧
      h.reports = [(body, false, false)] ∧ has_groups body := by
  refine ⟨by decide, rfl, ?_⟩
  have hrun := first_sweep_run
  cases hr : run (boot [] []) {} first_sweep_events with
  | none => rw [hr] at hrun; cases hrun
  | some r =>
    obtain ⟨s, h⟩ := r
    rw [hr] at hrun
    simp only [Option.map_some', Option.some.injEq] at hrun
    refine ⟨s, h, first_sweep_report, rfl, by rw [hrun], ?_⟩
    exact (has_groups_report_iff _ true).mpr rfl

/-- C13 (amended): in every execution from the boot state (any sequence of
transmit-timer, response-timeout and byte-arrival events, whatever the
allocator and the connection attempts answer), every normal report that
carries a `groups` field was posted when a response timeout had occurred since
boot and after the previous normal report, or when no normal report had been
posted since boot. -/
theorem groups_field_only_after_timeout_or_boot (heap : Heap) (results : List Int)
    (evs : List Event) (s : State) (h : History)
    (hrun : run (boot heap results) {} evs = some (s, h)) :
    ∀ r ∈ h.reports, has_groups r.1 → r.2.1 = true ∨ r.2.2 = false :=
  (history_invariant_run evs (boot heap results) {} s h
    ⟨fun _ => Or.inr rfl, fun r hr => by cases hr⟩ hrun).2

/-- Witness of C13 (amended): the first sweep after boot; its report carries
the `groups` field and no normal report had been posted before. -/
theorem groups_field_only_after_timeout_or_boot_witness :
    ∃ s h, run (boot [] []) {} first_sweep_events = some (s, h) ∧
      (first_sweep_report, false, false) ∈ h.reports ∧ has_groups first_sweep_report ∧
      (false = true ∨ false = false) := by
  have hrun := first_sweep_run
  cases hr : run (boot [] []) {} first_sweep_events with
  | none => rw [hr] at hrun; cases hrun
  | some r =>
    obtain ⟨s, h⟩ := r
    rw [hr] at hrun
    simp only [Option.map_some', Option.some.injEq] at hrun
    have hmem : (first_sweep_report, false, false) ∈ h.reports := by rw [hrun]; simp
    have hg : has_groups first_sweep_report := (has_groups_report_iff _ true).mpr rfl
    exact ⟨s, h, rfl, hmem, hg,
      groups_field_only_after_timeout_or_boot [] [] first_sweep_events s h hr _ hmem hg⟩

/-- C14: two packets that agree on every byte at the indices `1 .. end - 1`
have the same `calculate_crc16` value, whatever their bytes at index 0 are; in
particular replacing the leading byte of a packet never changes the
checksum. -/
theorem calculate_crc16_ignores_first_byte (p q : List Nat) (end_ : Nat)
    (hagree : ∀ i, 1 ≤ i → i < end_ → p[i]? = q[i]?) :
    calculate_crc16 p end_ = calculate_crc16 q end_ ∧
    ∀ (b0 b1 : Nat) (rest : List Nat),
      calculate_crc16 (b0 :: rest) end_ = calculate_crc16 (b1 :: rest) end_ := by
  refine ⟨?_, fun b0 b1 rest => crc_outer_cons b0 b1 rest _ 0 0⟩
  unfold calculate_crc16
  refine crc_outer_agree p q _ _ _ fun i h1 h2 => ?_
  rw [List.getD_eq_getElem?_getD, List.getD_eq_getElem?_getD, hagree i h1 (by omega)]

/-- Witness of C14: the packets `02 "123456789"` and `FF "123456789"`. -/
theorem calculate_crc16_ignores_first_byte_witness :
    (∀ i, 1 ≤ i → i < 10 → (0x02 :: cstr "123456789")[i]? = (0xFF :: cstr "123456789")[i]?) ∧
    calculate_crc16 (0x02 :: cstr "123456789") 10
      = calculate_crc16 (0xFF :: cstr "123456789") 10 :=
  have h : ∀ i, 1 ≤ i → i < 10 →
      (0x02 :: cstr "123456789")[i]? = (0xFF :: cstr "123456789")[i]? := by
    intro i h1 _
    obtain ⟨k, rfl⟩ : ∃ k, i = k + 1 := ⟨i - 1, by omega⟩
    rfl
  ⟨h, (calculate_crc16_ignores_first_byte _ _ 10 h).1⟩

/-- C15: for every packet of bytes, every length `end ≤ 255` within the packet
and every two distinct positions `j`, `k` in `[1, end)` holding unequal bytes
(two such positions exist only when `end` is at least 3), exchanging the bytes
at `j` and `k` changes the value of `calculate_crc16(packet, end)`. -/
theorem calculate_crc16_detects_swap (packet : List Nat) (end_ j k : Nat)
    (hb : ∀ b ∈ packet, b < 256) (hend : end_ ≤ 255) (hlen : end_ ≤ packet.length)
    (hj : 1 ≤ j) (hj' : j < end_) (hk : 1 ≤ k) (hk' : k < end_) (hjk : j ≠ k)
    (hne : packet.getD j 0 ≠ packet.getD k 0) :
    calculate_crc16 (swap_bytes packet j k) end_ ≠ calculate_crc16 packet end_ := by
  rcases Nat.lt_or_gt_of_ne hjk with h | h
  · exact crc_swap_ne_of_lt packet end_ j k hb hend hlen hj h hk' hne
  · have hs : swap_bytes packet j k = swap_bytes packet k j := by
      unfold swap_bytes
      exact List.set_comm _ _ _ hjk
    rw [hs]
    exact crc_swap_ne_of_lt packet end_ k j hb hend hlen hk h hj' (Ne.symm hne)

/-- Witness of C15: exchanging the bytes `1` and `2` of `02 "123456789"`. -/
theorem calculate_crc16_detects_swap_witness :
    swap_bytes (0x02 :: cstr "123456789") 1 2 = 0x02 :: cstr "213456789" ∧
    calculate_crc16 (swap_bytes (0x02 :: cstr "123456789") 1 2) 10
      ≠ calculate_crc16 (0x02 :: cstr "123456789") 10 :=
  ⟨by decide,
    calculate_crc16_detects_swap (0x02 :: cstr "123456789") 10 1 2 (by decide) (by decide)
      (by decide) (by decide) (by decide) (by decide) (by decide) (by decide) (by decide)⟩

/-- C16: for every packet, `calculate_crc16(packet, end)` is 0 when the
checksummed range is empty, that is for `end = 0` and for `end = 1` (no bytes
beyond the STX byte): the loop from index 1 does not run. -/
theorem calculate_crc16_empty_range (packet : List Nat) :
    calculate_crc16 packet 0 = 0 ∧ calculate_crc16 packet 1 = 0 :=
  ⟨rfl, rfl⟩

/-- C17: a zero byte that arrives while the receive accumulator is empty is
discarded. In every state in which a request has been sent (the expected
frame length is positive, as in every `Awaiting(i)`) `uart_rx_task` leaves the
state as it was: the accumulator stays empty and the byte does not count
toward the expected frame length; any number of such bytes in front of other
bytes changes nothing. In `Awaiting(i)` a well-formed reply preceded by a zero
byte ends in the same state as without it, and the reply is accepted: its
value is stored in `inverter_values[i]`. The last conjunct covers every state
`t` whatsoever (also before the first request, when the expected length is 0):
whenever the callback returns, the zero byte has not been stored. -/
theorem leading_zero_byte_is_discarded (s : State) (i : Nat) (payload : List Nat)
    (hA : Awaiting s i) (hempty : s.rx_buffer_len = 0)
    (hpl : payload.length = COMMAND_LENGTHS.getD i 0) (hbytes : ∀ b ∈ payload, b < 256) :
    uart_rx_task s 0 [0] = some s ∧
    (∀ (n : Nat) (bytes : List Nat),
      feed_bytes s (List.replicate n 0 ++ bytes) = feed_bytes s bytes) ∧
    feed_bytes s (0 :: reply_frame i payload) = feed_bytes s (reply_frame i payload) ∧
    (∃ s', feed_bytes s (0 :: reply_frame i payload) = some s' ∧
      s'.inverter_values[i]? = some (be_value payload) ∧ s'.rx_buffer_len = 0) ∧
    ∀ (t t' : State), t.rx_buffer_len = 0 → uart_rx_task t 0 [0] = some t' →
      t'.rx_buffer_len = 0 ∧ t'.rx_buffer = t.rx_buffer := by
  obtain ⟨hi, hwf, hidx, hdl, hexp⟩ := hA
  have hpos : 0 < s.expected_len := by omega
  have hlt : i < s.inverter_values.length := by rw [hwf.2.2.1]; exact hi
  refine ⟨?_, fun n bytes => feed_bytes_zeros s bytes n hempty hpos,
    feed_bytes_zero s _ hempty hpos, ?_, fun t t' ht hrun =>
      uart_rx_byte_zero_frame t t' 0 rfl ht (by rw [← uart_rx_task_single]; exact hrun)⟩
  · rw [uart_rx_task_single]
    exact uart_rx_byte_zero s 0 rfl hempty hpos
  · rw [feed_bytes_zero s _ hempty hpos,
      feed_reply_frame s i payload hi ⟨hi, hwf, hidx, hdl, hexp⟩ hempty hpl hbytes]
    by_cases h37 : i = COMMAND_COUNT - 1
    · rw [if_pos h37]
      obtain ⟨s', e', hex, _⟩ := process_response_report_spec
        { s with
          rx_buffer := reply_frame i payload ++ s.rx_buffer.drop (COMMAND_LENGTHS.getD i 0 + 9)
          rx_buffer_len := COMMAND_LENGTHS.getD i 0 + 9
          serial_rx_timer := none
          log := s.log ++ [Diag.accepted i]
          inverter_values := s.inverter_values.set i (be_value payload) }
        (by simp only [List.length_set]; exact hwf.2.2.1)
      have hiv : s'.inverter_values = s.inverter_values.set i (be_value payload) := by
        have := congrArg (fun t => t.2.2.2.1) hex
        simpa [State.exchange] using this
      rw [e']
      refine ⟨_, rfl, ?_, rfl⟩
      show s'.inverter_values[i]? = _
      rw [hiv]
      simp [List.getElem?_set, hlt]
    · rw [if_neg h37]
      have hi1 : i + 1 < COMMAND_COUNT := by unfold COMMAND_COUNT at hi h37 ⊢; omega
      rw [send_data_request_eq _ (i + 1) hi1 rfl]
      refine ⟨_, rfl, ?_, rfl⟩
      simp [List.getElem?_set, hlt]

/-- Witness of C17: a zero byte before the reply `01 2C` in `Awaiting(0)`. -/
theorem leading_zero_byte_is_discarded_witness :
    Awaiting (example_awaiting 0) 0 ∧ (example_awaiting 0).rx_buffer_len = 0 ∧
    uart_rx_task (example_awaiting 0) 0 [0] = some (example_awaiting 0) ∧
    feed_bytes (example_awaiting 0) (0 :: reply_frame 0 [0x01, 0x2C])
      = feed_bytes (example_awaiting 0) (reply_frame 0 [0x01, 0x2C]) :=
  ⟨by decide, by decide,
    let ⟨h1, _, h3, _⟩ := leading_zero_byte_is_discarded (example_awaiting 0) 0 [0x01, 0x2C]
      (by decide) (by decide) (by decide) (by decide)
    ⟨h1, h3⟩⟩

/-- C18: for every well-formed builder (`len < allocated`, block of
`allocated` bytes) and every NUL-free string `s`, whatever the allocator
answers: if `append_string_builder` returns true then the new `len` is the old
`len` plus the length of `s`, the first new-`len` bytes of the buffer are the
previous content followed by `s`, and at most one allocation (one growth) was
made, none when the capacity is unchanged; a growth happens only when `s` and
its terminator do not fit the free space. -/
theorem append_string_builder_appends (heap : Heap) (b : string_builder) (s : List Nat)
    (b1 : string_builder) (heap1 : Heap) (hwf : b.wf) (hnul : ∀ c ∈ s, c ≠ 0)
    (h : append_string_builder heap b s = some (true, b1, heap1)) :
    b1.len = b.len + s.length ∧
    b1.buf.take b1.len = b.buf.take b.len ++ s ∧
    (heap1 = heap ∨ heap1 = heap.tail) ∧
    ((b1.allocated = b.allocated ∧ heap1 = heap) ∨
      ((b.allocated : Int) - b.len - 1 < (s.length : Int) + 1 ∧ heap1 = heap.tail)) := by
  obtain ⟨hsl, hst⟩ := os_strlen_of_nul_free s hnul
  obtain ⟨_, l, t, g⟩ := append_string_builder_true heap b s hwf b1 heap1 h
  rw [hsl] at l g
  rw [hst] at t
  refine ⟨l, t, ?_, ?_⟩
  · rcases g with ⟨_, g⟩ | ⟨_, g, _⟩
    · exact Or.inl g
    · exact Or.inr g
  · rcases g with g | ⟨g1, g2, _⟩
    · exact Or.inl g
    · exact Or.inr ⟨g1, g2⟩

/-- Witness of C18: the 14 characters `defghijklmnopq` appended to a 16-byte
builder holding `abc`; the builder grows once, to 32 bytes. -/
theorem append_string_builder_appends_witness :
    append_string_builder [some (List.replicate 32 0xAA)]
        { buf := cstr "abc" ++ List.replicate 13 0, allocated := 16, len := 3 }
        (cstr "defghijklmnopq")
      = some (true,
          { buf := cstr "abcdefghijklmnopq" ++ [0xAA, 0] ++ List.replicate 13 0xAA,
            allocated := 32, len := 17 }, []) ∧
    (17 : Nat) = 3 + (cstr "defghijklmnopq").length ∧
    (cstr "abcdefghijklmnopq" ++ [0xAA, 0] ++ List.replicate 13 0xAA).take 17
      = (cstr "abc" ++ List.replicate 13 0).take 3 ++ cstr "defghijklmnopq" :=
  have h : append_string_builder [some (List.replicate 32 0xAA)]
        { buf := cstr "abc" ++ List.replicate 13 0, allocated := 16, len := 3 }
        (cstr "defghijklmnopq")
      = some (true,
          { buf := cstr "abcdefghijklmnopq" ++ [0xAA, 0] ++ List.replicate 13 0xAA,
            allocated := 32, len := 17 }, []) := by decide
  let ⟨h1, h2, _⟩ := append_string_builder_appends _ _ _ _ _ (by decide) (by decide) h
  ⟨h, h1, h2⟩

/-- C19 (the code diverges): with an allocator that hands out blocks filled
with `0xAA`, `create_string_builder(16)` yields the builder `fresh_builder 0xAA`
whose byte at index `len` is NUL; after `append_string_builder` of `"ab"`
returns true, `len` is 2 and the byte at index 2 is `0xAA`: the terminator was
stored at index 3. The same holds after `append_int32_string_builder` of 7
(`len` 1, byte `0xAA` at index 1), and `append_string_builder_to_string_builder`
copies the byte at the source's `len`, so appending that builder to a fresh
one leaves `0xAA` at index `len` as well. -/
theorem append_leaves_buffer_unterminated :
    (create_string_builder [some (List.replicate 12 0xAA), some (List.replicate 16 0xAA)] 16).1
      = some (fresh_builder 0xAA) ∧
    (fresh_builder 0xAA).buf[(fresh_builder 0xAA).len]? = some 0 ∧
    (append_string_builder [] (fresh_builder 0xAA) (cstr "ab")).map
        (fun r => (r.1, r.2.1.len, r.2.1.buf[r.2.1.len]?, r.2.1.buf[r.2.1.len + 1]?))
      = some (true, 2, some 0xAA, some 0) ∧
    (append_int32_string_builder [] (fresh_builder 0xAA) 7).map
        (fun r => (r.1, r.2.1.len, r.2.1.buf[r.2.1.len]?, r.2.1.buf[r.2.1.len + 1]?))
      = some (true, 1, some 0xAA, some 0) ∧
    ((append_string_builder [] (fresh_builder 0xAA) (cstr "ab")).bind fun r =>
        (append_string_builder_to_string_builder [] (fresh_builder 0xAA) r.2.1).map
          (fun t => (t.1, t.2.1.len, t.2.1.buf[t.2.1.len]?)))
      = some (true, 2, some 0xAA) := by
  decide

/-- C20 (the code diverges): a 16-byte builder with `len = 0` and a string of
40 characters. The append does not fit; the growth step allocates 32 bytes
(twice the old capacity) where the specification gives the larger of 32 and
`0 + 40 + 1 = 41`, and the stores of the append then fall outside the block.
With 100 characters the growth step allocates 86 bytes where the
specification gives 101. The first conjunct relates the growth step
`append_growth` to `append_string_builder`. -/
theorem growth_capacity_too_small :
    (∀ (heap : Heap) (b : string_builder) (str : List Nat),
      append_string_builder heap b str = (append_growth heap b str).bind fun r =>
        if r.1 = false then some (false, r.2.1, r.2.2)
        else
          (mem_write r.2.1.buf r.2.1.len (str.take (os_strlen str))).bind fun m1 =>
          (mem_write m1 (r.2.1.len + (os_strlen str + 1)) [0]).bind fun m2 =>
          some (true, { r.2.1 with buf := m2, len := r.2.1.len + os_strlen str }, r.2.2)) ∧
    (append_growth [] (fresh_builder 0) (List.replicate 40 97)).map
        (fun r => (r.1, r.2.1.allocated, r.2.1.buf.length)) = some (true, 32, 32) ∧
    grown_capacity_spec 16 0 40 = 41 ∧
    append_string_builder [] (fresh_builder 0) (List.replicate 40 97) = none ∧
    (append_growth [] (fresh_builder 0) (List.replicate 100 97)).map
        (fun r => (r.1, r.2.1.allocated, r.2.1.buf.length)) = some (true, 86, 86) ∧
    grown_capacity_spec 16 0 100 = 101 ∧
    append_string_builder [] (fresh_builder 0) (List.replicate 100 97) = none := by
  refine ⟨fun _ _ _ => rfl, ?_, ?_, ?_, ?_, ?_, ?_⟩ <;> decide

/-! ## Failing allocations, the HTTP request and the in-flight buffer -/

/-- C21: when the builder has to grow (the free space `allocated - len - 1` is
smaller than the characters to add plus one) and the allocation of the new
block fails (`os_malloc` answers `NULL`), `append_string_builder` and
`append_string_builder_to_string_builder` return false and the builder is as
before the call: same `len`, same `allocated`, same block contents. -/
theorem append_alloc_failure_keeps_builder (rest : Heap) (b source : string_builder)
    (str : List Nat)
    (hstr : (b.allocated : Int) - b.len - 1 < (os_strlen str : Int) + 1)
    (hsrc : (b.allocated : Int) - b.len - 1 < (source.len : Int) + 1) :
    append_string_builder (none :: rest) b str = some (false, b, rest) ∧
    append_string_builder_to_string_builder (none :: rest) b source = some (false, b, rest) :=
  ⟨append_string_builder_alloc_fails rest b str hstr,
    append_string_builder_to_string_builder_alloc_fails rest b source hsrc⟩

/-- Witness of C21: a 16-byte builder holding `abc`, to which the 14 characters
`defghijklmnopq`, or a builder holding them, are appended while the allocator
answers `NULL`. -/
theorem append_alloc_failure_keeps_builder_witness :
    append_string_builder [none]
        { buf := cstr "abc" ++ List.replicate 13 0, allocated := 16, len := 3 }
        (cstr "defghijklmnopq")
      = some (false,
          { buf := cstr "abc" ++ List.replicate 13 0, allocated := 16, len := 3 }, []) ∧
    append_string_builder_to_string_builder [none]
        { buf := cstr "abc" ++ List.replicate 13 0, allocated := 16, len := 3 }
        { buf := cstr "defghijklmnopq" ++ [0, 0], allocated := 16, len := 14 }
      = some (false,
          { buf := cstr "abc" ++ List.replicate 13 0, allocated := 16, len := 3 }, []) :=
  append_alloc_failure_keeps_builder []
    { buf := cstr "abc" ++ List.replicate 13 0, allocated := 16, len := 3 }
    { buf := cstr "defghijklmnopq" ++ [0, 0], allocated := 16, len := 14 }
    (cstr "defghijklmnopq") (by decide) (by decide)

/-- C22: for every payload `content` (a well-formed builder of at most
500000000 characters, so that the `int` arithmetic of the appends stays in
range) and with every allocation succeeding, `tagwriter_post` returns with
`value_buf` pointing to a builder whose characters are the fixed header, the
decimal numeral of the payload length, an empty line and the payload; its `len`
is the length of the header (93 characters, the numeral, 4 characters) plus the
length of the payload, and `connect_cb` hands exactly these bytes to
`espconn_send`. -/
theorem tagwriter_post_builds_request (s : State) (content : string_builder)
    (hwf : content.wf) (hlen : content.len ≤ 500000000) (hheap : heap_succeeds s.heap) :
    ∃ t sb, tagwriter_post s content = some t ∧ t.value_buf = some sb ∧
      sb.text = cstr "POST /tagwriter HTTP/1.1\r\nContent-Type: application/json\r\nConnection: close\r\nContent-Length: "
        ++ cstr (toString content.text.length) ++ cstr "\r\n\r\n" ++ content.text ∧
      sb.len = 93 + (cstr (toString content.text.length)).length + 4 + content.text.length ∧
      content.text.length = content.len ∧
      (connect_cb t).map State.net = some (t.net ++ [NetEvent.send sb.text]) := by
  obtain ⟨sb, hp, h, hw, ht, _⟩ := tagwriter_post_request s content hwf hlen hheap
  refine ⟨_, sb, h, rfl, ?_, ?_, text_length content hwf, ?_⟩
  · rw [ht]; rfl
  · rw [← text_length sb hw, ht, http_request_spec_length, HTTP_HEADER_length]
  · have hr : mem_read sb.buf sb.len = some sb.text := by
      unfold mem_read string_builder.text
      rw [if_pos]
      have := hw.1
      have := hw.2
      omega
    unfold connect_cb send_inverter_values
    simp only [hr, Option.map_some']

/-- Witness of C22: the payload `{}` posted from the state at boot; the request
has 100 characters. -/
theorem tagwriter_post_builds_request_witness :
    ∃ t sb, tagwriter_post State.init
        { buf := cstr "\x7b\x7d" ++ List.replicate 14 0, allocated := 16, len := 2 } = some t ∧
      t.value_buf = some sb ∧
      sb.text = cstr "POST /tagwriter HTTP/1.1\r\nContent-Type: application/json\r\nConnection: close\r\nContent-Length: 2\r\n\r\n\x7b\x7d" ∧
      sb.len = 100 :=
  let ⟨t, sb, h1, h2, h3, h4, _⟩ := tagwriter_post_builds_request State.init
    { buf := cstr "\x7b\x7d" ++ List.replicate 14 0, allocated := 16, len := 2 }
    (by decide) (by decide) (by decide)
  ⟨t, sb, h1, h2, h3.trans (by decide), h4.trans (by decide)⟩

/-- C23 (the code diverges): the payload `{}` is posted from the state at boot
and `espconn_connect` returns `ESPCONN_MEM` (-1). `send_inverter_values` only
prints the result, and when `tagwriter_post` returns `value_buf` still points
to the request: the buffer is not released on this path. -/
theorem connect_failure_keeps_value_buf :
    ∃ t sb, tagwriter_post (boot [] [-1])
        { buf := cstr "\x7b\x7d" ++ List.replicate 14 0, allocated := 16, len := 2 } = some t ∧
      t.net = [NetEvent.connect] ∧ t.log = [Diag.connect_result (-1)] ∧
      t.value_buf = some sb ∧
      sb.text = cstr "POST /tagwriter HTTP/1.1\r\nContent-Type: application/json\r\nConnection: close\r\nContent-Length: 2\r\n\r\n\x7b\x7d" :=
  let ⟨sb, _, h, _, ht, _⟩ := tagwriter_post_request (boot [] [-1])
    { buf := cstr "\x7b\x7d" ++ List.replicate 14 0, allocated := 16, len := 2 }
    (by decide) (by decide) (by decide)
  ⟨_, sb, h, rfl, rfl, rfl, ht.trans (by decide)⟩

/-- Whatever `espconn_connect` returns, `tagwriter_post` (payload and
allocations as in C22) returns with `value_buf` pointing to the request; a
non-zero result is only logged. `disconnect_cb`, `reconnect_cb` and
`disconnect_task` leave `value_buf` empty, and the next `tagwriter_post`
releases the builder `value_buf` points to before it builds its request. -/
theorem connect_result_only_logged (s : State) (content : string_builder)
    (hwf : content.wf) (hlen : content.len ≤ 500000000) (hheap : heap_succeeds s.heap) :
    ∃ t sb, tagwriter_post s content = some t ∧ t.value_buf = some sb ∧
      sb.text = http_request_spec content.text ∧
      t.net = s.net ++ [NetEvent.connect] ∧
      t.log = (if s.espconn_connect_results.headD 0 = 0 then s.log
        else s.log ++ [Diag.connect_result (s.espconn_connect_results.headD 0)]) ∧
      (disconnect_cb t).value_buf = none ∧ (disconnect_task t).value_buf = none ∧
      (∀ err, (reconnect_cb t err).value_buf = none) ∧
      (∀ (g : Gate) (id c : Nat) (sb_ok add_ok : Bool), g.value_buf = some id →
        BufferEvent.released id ∈ (g.tagwriter_post c sb_ok add_ok).events) := by
  obtain ⟨sb, hp, h, _, ht, _⟩ := tagwriter_post_request s content hwf hlen hheap
  refine ⟨_, sb, h, rfl, ht, rfl, rfl, rfl, rfl, fun _ => rfl, ?_⟩
  intro g id c sb_ok add_ok hv
  unfold Gate.tagwriter_post Gate.release_value_buf Gate.create_string_builder
    Gate.free_string_builder
  rw [hv]
  cases sb_ok <;> cases add_ok <;> simp

/-- An instance: the payload `{}` posted from the state at boot while
`espconn_connect` returns `ESPCONN_ISCONN` (-15). -/
theorem connect_result_only_logged_witness :
    ∃ t sb, tagwriter_post (boot [] [-15])
        { buf := cstr "\x7b\x7d" ++ List.replicate 14 0, allocated := 16, len := 2 } = some t ∧
      t.value_buf = some sb ∧ t.log = [Diag.connect_result (-15)] ∧
      (disconnect_cb t).value_buf = none :=
  let ⟨t, sb, h1, h2, _, _, h5, h6, _⟩ := connect_result_only_logged (boot [] [-15])
    { buf := cstr "\x7b\x7d" ++ List.replicate 14 0, allocated := 16, len := 2 }
    (by decide) (by decide) (by decide)
  ⟨t, sb, h1, h2, h5, h6⟩

/-- C24: with `value_buf` as an optional owned builder: `disconnect_cb`,
`reconnect_cb` and `disconnect_task` leave it empty in every state; and after
every sequence of reports (each creating a content builder and handing it to
`tagwriter_post`, whatever the allocator and the appends answer), `connect_cb`,
`response_cb`, `disconnect_task`, `disconnect_cb` and `reconnect_cb` calls from
boot, no builder was released twice and none was handed to `espconn_send` after
its release. -/
theorem in_flight_buffer_released_once (ops : List GateOp) :
    (released_ids (Gate.run ops).events).Nodup ∧
    never_sent_after_release (Gate.run ops).events ∧
    (∀ g : Gate, g.disconnect_cb.value_buf = none ∧ g.reconnect_cb.value_buf = none ∧
      g.disconnect_task.value_buf = none) ∧
    (∀ s : State, (disconnect_cb s).value_buf = none ∧ (disconnect_task s).value_buf = none ∧
      ∀ err, (reconnect_cb s err).value_buf = none) := by
  obtain ⟨_, h2, _, h4⟩ := Gate.run_inv ops
  refine ⟨h2, h4, ?_, ?_⟩
  · intro g
    exact ⟨Gate.release_value_buf_empty g, Gate.release_value_buf_empty g,
      Gate.release_value_buf_empty g⟩
  · intro s
    exact ⟨rfl, rfl, fun _ => rfl⟩

/-! ## The result table across sweeps, the index and the start of a sweep -/

/-- C26: in every state reached from the state at boot by a sequence of
`transmit_cb`, received-byte and `serial_timeout_cb` events (whatever the
allocator and `espconn_connect` answer), `current_command_index` is below
`COMMAND_COUNT` = 38 or is the sentinel `(uint8_t)-1` = 255. The executions
are those in which every callback returns: one in which `process_response`
runs with the sentinel index reads `COMMAND_LENGTHS[255]`, outside the table,
and reaches no state. -/
theorem index_valid_or_sentinel (heap : Heap) (results : List Int) (evs : List Event)
    (s : State) (h : exec (boot heap results) evs = some s) :
    COMMAND_COUNT = 38 ∧ to_u8 (-1) = 255 ∧
    (s.current_command_index < COMMAND_COUNT ∨ s.current_command_index = to_u8 (-1)) :=
  ⟨rfl, to_u8_neg_one,
    (exchange_invariant_exec evs _ s (exchange_invariant_boot heap results) h).1⟩

/-- Witness of C26: a sweep is started, one byte arrives and the timeout
occurs; the index is the sentinel. -/
theorem index_valid_or_sentinel_witness :
    ∃ s, exec (boot [] []) [Event.transmit, Event.rx 2, Event.timeout] = some s ∧
      s.current_command_index = 255 ∧
      (s.current_command_index < COMMAND_COUNT ∨ s.current_command_index = to_u8 (-1)) := by
  have hv : (exec (boot [] []) [Event.transmit, Event.rx 2, Event.timeout]).map
      (fun s => s.current_command_index) = some 255 := by decide!
  cases hr : exec (boot [] []) [Event.transmit, Event.rx 2, Event.timeout] with
  | none => rw [hr] at hv; cases hv
  | some s =>
    rw [hr] at hv
    simp only [Option.map_some', Option.some.injEq] at hv
    exact ⟨s, rfl, hv, (index_valid_or_sentinel [] [] _ s hr).2.2⟩

/-- C27: from every state `transmit_cb` returns with the index 0, the request
frame of catalog entry 0 (`02 05 01 02 10 01 a0 3c 03`) handed to the
transmitter after what was sent before, `data_len` = `COMMAND_LENGTHS[0]` = 2,
`expected_len` = `COMMAND_LENGTHS[0] + 9` = 11 and the receive timer armed for
10000 ms, not repeating, whatever its state before. -/
theorem transmit_cb_starts_sweep (s : State) :
    ∃ t, transmit_cb s = some t ∧ t.current_command_index = 0 ∧
      t.uart1_tx = s.uart1_tx ++ request_frame 0 ∧
      request_frame 0 = [0x02, 0x05, 0x01, 0x02, 0x10, 0x01, 0xA0, 0x3C, 0x03] ∧
      COMMANDS[0]? = some (0x10, 0x01) ∧ COMMAND_LENGTHS[0]? = some 2 ∧
      t.data_len = 2 ∧ t.expected_len = 2 + 9 ∧ t.expected_len = 11 ∧
      t.serial_rx_timer = some (10000, 0) ∧
      t.inverter_values = s.inverter_values ∧ t.rx_buffer = s.rx_buffer ∧
      t.rx_buffer_len = s.rx_buffer_len := by
  obtain ⟨t, ht, a1, a2, a3, a4, a5, a6, a7, a8⟩ := transmit_cb_some s
  exact ⟨t, ht, a1, a8, by decide, rfl, rfl, a6, a5, a5, a7, a2, a3, a4⟩

/-! ## The receive timer, the accumulator and the catalog -/

/-- C28 (the code diverges): `process_response` cancels the receive timer
before it looks at the frame, and the branch that rejects a frame for its
checksum returns without arming it again. So in `Awaiting(i)`, whatever the
timer was, after a completed frame is rejected the state is still `Awaiting(i)`,
the table is unchanged and the receive timer is not armed when
`process_response` returns. It returns whenever its framing-mismatch branch
stays inside its scratch block (`framing_dump_defined`, in particular for
every frame whose framing bytes match). -/
theorem rejected_frame_disarms_timeout (s : State) (i : Nat) (hA : Awaiting s i)
    (hlen : s.rx_buffer_len ≤ 16) (hdump : framing_dump_defined s)
    (hcrc : s.rx_buffer.getD (COMMAND_LENGTHS.getD i 0 + 6) 0
        + 256 * s.rx_buffer.getD (COMMAND_LENGTHS.getD i 0 + 7) 0
      ≠ calculate_crc16 s.rx_buffer (COMMAND_LENGTHS.getD i 0 + 6)) :
    ∃ t, process_response s = some t ∧ Awaiting t i ∧ t.serial_rx_timer = none ∧
      t.inverter_values = s.inverter_values := by
  obtain ⟨heap1, log1, e⟩ := process_response_rejects s i hA hlen hdump hcrc
  exact ⟨_, e, hA, rfl, rfl⟩

/-- Witness of C28: the state at boot after `transmit_cb` has the timer armed
for 10000 ms; once the eleven bytes of a reply to command 0 whose checksum
bytes are zero have arrived, the index is still 0 and the timer is not armed.
The same for the completed frame in `Awaiting(5)` with the timer armed. -/
theorem rejected_frame_disarms_timeout_witness :
    (exec (boot [] []) [Event.transmit]).map
        (fun s => (s.current_command_index, s.serial_rx_timer)) = some (0, some (10000, 0)) ∧
    (exec (boot [] []) (Event.transmit ::
        ([0x02, 0x06, 0x01, 0x04, 0x10, 0x01, 0x01, 0x2C, 0, 0, 3].map Event.rx))).map
        (fun s => (s.current_command_index, s.serial_rx_timer)) = some (0, none) ∧
    ∃ t, process_response { example_completed 5
          ([0x02, 0x06, 0x01, 0x04, 0x11, 0x03, 0x01, 0x2C] ++ [0, 0, 3]) with
          serial_rx_timer := some (10000, 0) } = some t ∧
      t.current_command_index = 5 ∧ t.serial_rx_timer = none :=
  ⟨by decide!, by decide!,
    let ⟨t, h1, h2, h3, _⟩ := rejected_frame_disarms_timeout
      { example_completed 5 ([0x02, 0x06, 0x01, 0x04, 0x11, 0x03, 0x01, 0x2C] ++ [0, 0, 3]) with
        serial_rx_timer := some (10000, 0) } 5 (by decide) (by decide) (by decide)
      (by decide!)
    ⟨t, h1, h2.2.2.1, h3⟩⟩

/-- C29: in every state reached from the state at boot by a sequence of
`transmit_cb`, received-byte and `serial_timeout_cb` events, `rx_buffer` has
its 16 bytes and `rx_buffer_len` is at most `RX_BUFFER_LENGTH` = 16 (it stays
below 16); in every state the one store of the receive loop into `rx_buffer`
is at an index below 16 and leaves a count of at most 16 in a state whose
count is; and with `rx_buffer_len >= RX_BUFFER_LENGTH` the received byte is not
stored: the if-chain leaves the state as it is and the whole loop body leaves
`rx_buffer` unchanged (the completion test that follows the if-chain then runs
as for every byte). -/
theorem rx_accumulator_bounded (heap : Heap) (results : List Int) (evs : List Event)
    (s : State) (h : exec (boot heap results) evs = some s) :
    RX_BUFFER_LENGTH = 16 ∧ s.rx_buffer.length = RX_BUFFER_LENGTH ∧
    s.rx_buffer_len ≤ RX_BUFFER_LENGTH ∧ s.rx_buffer_len < RX_BUFFER_LENGTH ∧
    (∀ (u : State) (b idx : Nat), (uart_rx_accumulate u (b % 256)).2 = some idx →
      idx < RX_BUFFER_LENGTH ∧ idx = u.rx_buffer_len ∧
      (uart_rx_accumulate u (b % 256)).1.rx_buffer_len ≤ RX_BUFFER_LENGTH) ∧
    (∀ (u : State) (b : Nat), u.rx_buffer_len ≥ RX_BUFFER_LENGTH →
      uart_rx_accumulate u (b % 256) = (u, none) ∧
      ∀ t, uart_rx_byte u b = some t → t.rx_buffer = u.rx_buffer) ∧
    (∀ (u : State) (b : Nat), uart_rx_byte u b =
      if (uart_rx_accumulate u (b % 256)).1.rx_buffer_len
          ≥ (uart_rx_accumulate u (b % 256)).1.expected_len then
        (process_response (uart_rx_accumulate u (b % 256)).1).map
          fun s2 => { s2 with rx_buffer_len := 0 }
      else some (uart_rx_accumulate u (b % 256)).1) := by
  obtain ⟨_, h16, _, hlt⟩ :=
    exchange_invariant_exec evs _ s (exchange_invariant_boot heap results) h
  refine ⟨rfl, h16, Nat.le_of_lt hlt, hlt, ?_, ?_, uart_rx_byte_eq_accumulate⟩
  · intro u b idx hidx
    obtain ⟨_, _, _, _, _, _, hc⟩ := uart_rx_accumulate_spec u (b % 256)
    rcases hc with ⟨hn, _⟩ | ⟨hs, hlt', _, hl⟩
    · rw [hn] at hidx; cases hidx
    · rw [hs] at hidx
      simp only [Option.some.injEq] at hidx
      subst hidx
      exact ⟨hlt', rfl, by rw [hl]; exact hlt'⟩
  · intro u b hfull
    have hacc : uart_rx_accumulate u (b % 256) = (u, none) := by
      unfold uart_rx_accumulate
      have hne : ¬ (b % 256 = 0 ∧ u.rx_buffer_len = 0) := by
        intro hc
        have := hc.2
        unfold RX_BUFFER_LENGTH at hfull
        omega
      rw [if_neg hne, if_pos hfull]
    refine ⟨hacc, ?_⟩
    intro t ht
    rw [uart_rx_byte_eq_accumulate, hacc] at ht
    simp only [] at ht
    split at ht
    · simp only [Option.map_eq_some'] at ht
      obtain ⟨t', ht', hfin⟩ := ht
      subst hfin
      exact (process_response_exchange u t' ht').1
    · simp only [Option.some.injEq] at ht
      rw [← ht]

/-- Witness of C29: after `transmit_cb` and the bytes `02 06` the accumulator
holds two bytes. -/
theorem rx_accumulator_bounded_witness :
    ∃ s, exec (boot [] []) [Event.transmit, Event.rx 2, Event.rx 6] = some s ∧
      s.rx_buffer_len = 2 ∧ s.rx_buffer.length = 16 ∧ s.rx_buffer_len ≤ RX_BUFFER_LENGTH := by
  have hv : (exec (boot [] []) [Event.transmit, Event.rx 2, Event.rx 6]).map
      (fun s => s.rx_buffer_len) = some 2 := by decide!
  cases hr : exec (boot [] []) [Event.transmit, Event.rx 2, Event.rx 6] with
  | none => rw [hr] at hv; cases hv
  | some s =>
    rw [hr] at hv
    simp only [Option.map_some', Option.some.injEq] at hv
    obtain ⟨_, h16, hle, _⟩ := rx_accumulator_bounded [] [] _ s hr
    exact ⟨s, rfl, hv, h16, hle⟩

/-- C30: for every catalog index `i` below `COMMAND_COUNT` = 38 the tables
`COMMANDS`, `COMMAND_LENGTHS` and `COMMAND_TAGS` have an entry `i`; the length
`L = COMMAND_LENGTHS[i]` is 1, 2 or 4; the frame length `L + PACKET_OVERHEAD +
COMMAND_LEN` = `L + 9` that `send_data_request` stores in `expected_len` is at
most `RX_BUFFER_LENGTH` = 16 and the offset `L + 8` of its last byte is below
16; so in `Awaiting(i)` with an empty accumulator the `L + 9` bytes of a frame
are all stored and `process_response` runs on the completed buffer. -/
theorem catalog_entries_fit_accumulator (i : Nat) (hi : i < COMMAND_COUNT) :
    COMMAND_COUNT = 38 ∧ RX_BUFFER_LENGTH = 16 ∧
    ∃ cmd l tag, COMMANDS[i]? = some cmd ∧ COMMAND_LENGTHS[i]? = some l ∧
      COMMAND_TAGS[i]? = some tag ∧ (l = 1 ∨ l = 2 ∨ l = 4) ∧
      l + PACKET_OVERHEAD + COMMAND_LEN = l + 9 ∧ l + 9 ≤ RX_BUFFER_LENGTH ∧
      l + 8 < RX_BUFFER_LENGTH ∧
      (∀ s : State, s.current_command_index = i →
        ∃ t, send_data_request s = some t ∧ t.data_len = l ∧ t.expected_len = l + 9) ∧
      (∀ (s : State) (bs : List Nat), Awaiting s i → s.rx_buffer_len = 0 →
        bs.length = l + 9 → (∀ b ∈ bs, b < 256) → bs.head? ≠ some 0 →
        feed_bytes s bs = (process_response { s with
          rx_buffer := bs ++ s.rx_buffer.drop (l + 9)
          rx_buffer_len := l + 9 }).map fun t => { t with rx_buffer_len := 0 }) := by
  have hL := COMMAND_LENGTHS_two_or_four i hi
  refine ⟨rfl, rfl, COMMANDS.getD i (0, 0), COMMAND_LENGTHS.getD i 0, COMMAND_TAGS.getD i "",
    COMMANDS_get i hi, COMMAND_LENGTHS_get i hi, (COMMAND_TAGS_get i hi).1, ?_, rfl, ?_, ?_,
    ?_, ?_⟩
  · rcases hL with h | h
    · exact Or.inr (Or.inl h)
    · exact Or.inr (Or.inr h)
  · unfold RX_BUFFER_LENGTH; omega
  · unfold RX_BUFFER_LENGTH; omega
  · intro s hidx
    rw [send_data_request_eq s i hi hidx]
    exact ⟨_, rfl, rfl, rfl⟩
  · intro s bs hA hempty hlen hbytes hhead
    obtain ⟨_, hwf, _, _, hexp⟩ := hA
    have hne : bs ≠ [] := by
      intro hc
      rw [hc] at hlen
      simp at hlen
    have h := feed_bytes_frame bs s 0 hempty hne (by rw [hexp, hlen]; omega)
      (by rw [hlen]; omega) hwf.1 hbytes (fun _ => hhead)
    rw [h, hlen]
    simp only [List.take_zero, List.nil_append, Nat.zero_add]

/-- Witness of C30: catalog entry 22. -/
theorem catalog_entries_fit_accumulator_witness :
    (22 : Nat) < COMMAND_COUNT ∧
    ∃ cmd l tag, COMMANDS[22]? = some cmd ∧ COMMAND_LENGTHS[22]? = some l ∧
      COMMAND_TAGS[22]? = some tag ∧ (l = 1 ∨ l = 2 ∨ l = 4) ∧ l + 9 ≤ RX_BUFFER_LENGTH :=
  ⟨by decide,
    let ⟨_, _, cmd, l, tag, h1, h2, h3, h4, _, h6, _⟩ :=
      catalog_entries_fit_accumulator 22 (by decide)
    ⟨cmd, l, tag, h1, h2, h3, h4, h6⟩⟩

/-! ## The server's answer, the stores of an append and the table accesses -/

/-- C31 (counterexample): the answer `HTTP/1.1 65736 OK` arrives while
`awaiting_response` is set; its digit run denotes 65736, not 200, and
`response_cb` prints no error (the `uint16_t` status wraps to 200). And the
answer `HTTP/1.1 404 Not Found` arriving while `awaiting_response` is clear is
ignored: nothing is printed and no disconnect is requested. -/
theorem response_cb_wrapped_status_and_guard :
    decimal_value (cstr "65736") = 65736 ∧
    response_cb State.init (cstr "HTTP/1.1 65736 OK\r\n") 19
      = some ({ State.init with awaiting_response := false }, [], [(DISCONNECT_PRI, 0, 0)]) ∧
    decimal_value (cstr "404") = 404 ∧
    response_cb { State.init with awaiting_response := false }
        (cstr "HTTP/1.1 404 Not Found\r\n") 24
      = some ({ State.init with awaiting_response := false }, [], []) := by
  refine ⟨by decide, by decide, by decide, by decide⟩

/-- C31 (amended): while `awaiting_response` is set, for every answer of fewer
than 65536 bytes (`len` is a `uint16_t`) that is `HTTP/1.`, any character, a
blank, a run of decimal digits and a rest that does not start with a digit,
`response_cb` returns having cleared `awaiting_response`, changed nothing else
(so nothing is sent again) and posted the disconnect task once; it prints
nothing if and only if the number the digit run denotes, reduced modulo 65536,
is 200, so for a run denoting less than 65536 if and only if that number is
200. While `awaiting_response` is clear every answer is ignored: the state is
unchanged, nothing is printed and no task is posted. -/
theorem response_cb_checks_status (s : State) (x : Nat) (digits rest : List Nat)
    (hawait : s.awaiting_response = true)
    (hdig : ∀ c ∈ digits, '0'.toNat ≤ c ∧ c ≤ '9'.toNat)
    (hrest : ∀ c, rest.head? = some c → ¬ ('0'.toNat ≤ c ∧ c ≤ '9'.toNat))
    (hlen : (http_response x digits rest).length < 65536) :
    (∃ log, response_cb s (http_response x digits rest) (http_response x digits rest).length
        = some ({ s with awaiting_response := false }, log, [(DISCONNECT_PRI, 0, 0)]) ∧
      (log = [] ↔ decimal_value digits % 65536 = 200) ∧
      (decimal_value digits < 65536 → (log = [] ↔ decimal_value digits = 200))) ∧
    (∀ (t : State) (data : List Nat) (len : Nat), t.awaiting_response = false →
      response_cb t data len = some (t, [], [])) := by
  refine ⟨⟨_, response_cb_http_response s x digits rest hawait hdig hrest hlen, ?_, ?_⟩, ?_⟩
  · by_cases h : decimal_value digits % 65536 = 200
    · simp [h]
    · simp [h]
  · intro hlt
    rw [Nat.mod_eq_of_lt hlt]
    by_cases h : decimal_value digits = 200
    · simp [h]
    · simp [h]
  · intro t data len ht
    unfold response_cb
    rw [if_pos ht]

/-- Witness of C31 (amended): the answers `HTTP/1.1 200 OK` and
`HTTP/1.1 404 Not Found` at boot, where `awaiting_response` is set. -/
theorem response_cb_checks_status_witness :
    response_cb State.init (cstr "HTTP/1.1 200 OK\r\n") 17
      = some ({ State.init with awaiting_response := false }, [], [(DISCONNECT_PRI, 0, 0)]) ∧
    ∃ log, response_cb State.init (http_response '1'.toNat (cstr "404") (cstr " Not Found\r\n"))
        (http_response '1'.toNat (cstr "404") (cstr " Not Found\r\n")).length
        = some ({ State.init with awaiting_response := false }, log, [(DISCONNECT_PRI, 0, 0)]) ∧
      log ≠ [] :=
  ⟨by decide,
    let ⟨⟨log, h1, _, h3⟩, _⟩ := response_cb_checks_status State.init '1'.toNat (cstr "404")
      (cstr " Not Found\r\n") rfl (by decide) (by decide) (by decide)
    ⟨log, h1, fun h => absurd ((h3 (by decide)).mp h) (by decide)⟩⟩

/-- C32 (the code diverges): a 16-byte builder with `len = 0 < allocated` and a
string of 31 characters, allocations succeeding. The string does not fit, the
growth step allocates 32 bytes; the append then stores the characters at the
indices 0 to 30 and the terminator at index 32, which is not below the
allocated size 32. The same for `append_string_builder_to_string_builder`
with a source of 32 characters: the growth step allocates 32 bytes and the
33 bytes copied go to the indices 0 to 32. In the embedding such a store has no
result. The growth steps and the stores are those of the two functions (the
two general conjuncts). -/
theorem append_stores_outside_grown_block :
    (fresh_builder 0).len < (fresh_builder 0).allocated ∧
    (append_growth [] (fresh_builder 0) (List.replicate 31 97)).map
        (fun r => (r.1, r.2.1.allocated, r.2.1.buf.length,
          append_string_builder_stores r.2.1 (List.replicate 31 97)))
      = some (true, 32, 32, List.range 31 ++ [32]) ∧
    append_string_builder [] (fresh_builder 0) (List.replicate 31 97) = none ∧
    (append_to_growth [] (fresh_builder 0)
        { buf := List.replicate 32 97 ++ List.replicate 32 0, allocated := 64, len := 32 }).map
        (fun r => (r.1, r.2.1.allocated, r.2.1.buf.length,
          append_string_builder_to_string_builder_stores r.2.1
            { buf := List.replicate 32 97 ++ List.replicate 32 0, allocated := 64, len := 32 }))
      = some (true, 32, 32, List.range 33) ∧
    append_string_builder_to_string_builder [] (fresh_builder 0)
        { buf := List.replicate 32 97 ++ List.replicate 32 0, allocated := 64, len := 32 }
      = none ∧
    (∀ (heap : Heap) (b : string_builder) (str : List Nat),
      append_string_builder heap b str = (append_growth heap b str).bind fun r =>
        if r.1 = false then some (false, r.2.1, r.2.2)
        else
          (mem_write r.2.1.buf r.2.1.len (str.take (os_strlen str))).bind fun m1 =>
          (mem_write m1 (r.2.1.len + (os_strlen str + 1)) [0]).bind fun m2 =>
          some (true, { r.2.1 with buf := m2, len := r.2.1.len + os_strlen str }, r.2.2)) ∧
    (∀ (heap : Heap) (b source : string_builder),
      append_string_builder_to_string_builder heap b source
        = (append_to_growth heap b source).bind fun r =>
          if r.1 = false then some (false, r.2.1, r.2.2)
          else
            (mem_read source.buf (source.len + 1)).bind fun src =>
            (mem_write r.2.1.buf r.2.1.len src).bind fun m =>
            some (true, { r.2.1 with buf := m, len := r.2.1.len + source.len }, r.2.2)) := by
  refine ⟨by decide, by decide, by decide, by decide, by decide, fun _ _ _ => rfl,
    fun _ _ _ => rfl⟩

/-- C33 (the code diverges): a sweep is started at boot, the timeout occurs
(the index becomes the sentinel 255, `expected_len` stays 11) and the reply to
the first request arrives late. Its first ten bytes are accumulated; with the
eleventh the frame is complete and `process_response` runs: its framing test
reads `COMMAND_LENGTHS[255]`, outside the 47-entry table, so the execution has
no result in the embedding. The last conjunct is the same for every state with
the sentinel index and a buffer that starts with the three framing bytes. -/
theorem late_reply_reads_table_at_sentinel :
    reply_frame 0 [1, 2] = [2, 6, 1, 4, 16, 1, 1, 2, 67, 64, 3] ∧
    (exec (boot [] []) ([Event.transmit, Event.timeout] ++
        [2, 6, 1, 4, 16, 1, 1, 2, 67, 64].map Event.rx)).map
        (fun s => (s.current_command_index, s.expected_len, s.rx_buffer_len,
          s.rx_buffer.take 10))
      = some (255, 11, 10, [2, 6, 1, 4, 16, 1, 1, 2, 67, 64]) ∧
    COMMAND_LENGTHS.length = 47 ∧ COMMAND_COUNT = 38 ∧ COMMAND_LENGTHS[255]? = none ∧
    exec (boot [] []) ([Event.transmit, Event.timeout] ++
        (reply_frame 0 [1, 2]).map Event.rx) = none ∧
    (∀ (s : State) (b3 : Nat), s.current_command_index = to_u8 (-1) →
      s.rx_buffer[0]? = some STX → s.rx_buffer[1]? = some GATEWAY_ADDR →
      s.rx_buffer[2]? = some INVERTER_ID → s.rx_buffer[3]? = some b3 →
      framing_mismatch s = none ∧ process_response s = none) := by
  refine ⟨by decide!, by decide!, by decide, rfl, by decide, by decide!, ?_⟩
  intro s b3 hidx h0 h1 h2 h3
  exact framing_mismatch_sentinel s b3 hidx h0 h1 h2 h3

/-! ## Bytes before the first sweep, corrupted frames and the scratch block -/

/-- C34 (the code diverges): at boot `expected_len` is 0, so the completion
test `rx_buffer_len >= expected_len` holds for the first byte delivered to
`uart_rx_task`, whatever it is. With the single byte `00` (discarded as a
leading zero) `process_response` runs on the empty accumulator and takes the
framing-mismatch branch. When the scratch block of that branch is not
allocated (`os_malloc` answers `NULL`), the checksum test follows and passes
(the checksum of a zero buffer is zero): 0 is stored in slot 0, the index
advances to 1, the request for catalog entry 1 is transmitted and the receive
timer is armed. The same happens with the single byte `02`. When the scratch
block is allocated, the branch stores outside it (index 10 of 8 bytes) and the
execution has no result. -/
theorem boot_byte_starts_exchange :
    State.init.current_command_index = 0 ∧ State.init.expected_len = 0 ∧
    State.init.uart1_tx = [] ∧ State.init.serial_rx_timer = none ∧
    (uart_rx_task (boot [none] []) 0 [0x00]).map
        (fun s => (s.current_command_index, s.uart1_tx, s.serial_rx_timer))
      = some (1, request_frame 1, some (10000, 0)) ∧
    (uart_rx_task (boot [none] []) 0 [0x00]).map
        (fun s => (s.expected_len, s.rx_buffer_len, s.inverter_values[0]?, s.log))
      = some (11, 0, some 0, [Diag.packet_mismatch, Diag.accepted 0]) ∧
    (uart_rx_task (boot [none] []) 0 [0x02]).map
        (fun s => (s.current_command_index, s.uart1_tx, s.serial_rx_timer))
      = some (1, request_frame 1, some (10000, 0)) ∧
    (uart_rx_task (boot [none] []) 0 [0x02]).map
        (fun s => (s.expected_len, s.rx_buffer_len, s.inverter_values[0]?, s.log))
      = some (11, 0, some 0, [Diag.packet_mismatch, Diag.accepted 0]) ∧
    uart_rx_task State.init 0 [0x00] = none ∧ uart_rx_task State.init 0 [0x02] = none ∧
    request_frame 1 = [0x02, 0x05, 0x01, 0x02, 0x10, 0x02, 0xE0, 0x3D, 0x03] := by
  refine ⟨rfl, rfl, rfl, rfl, by decide!, by decide!, by decide!, by decide!, by decide!,
    by decide!, by decide!⟩

/-- C36 (the code diverges): in `Awaiting(0)` a completed frame whose first
byte is not STX takes the framing-mismatch branch. The scratch block is
allocated with `current_command_index + 8` = 8 bytes; the branch stores at the
indices 0 to 5 and at `COMMAND_LENGTHS[0] + 8` = 10, and prints 11 bytes of it:
the store at index 10 is outside the block, so the branch and
`process_response` have no result. In `Awaiting(5)` the same kind of frame
finds a block of 13 bytes and stays inside it. For a catalog index `i` the
store at `COMMAND_LENGTHS[i] + 8` is inside the block of `i + 8` bytes only
from index 3 on, and in every state with a valid index and the block allocated
the branch has a result exactly when the block is large enough. -/
theorem expected_block_too_small :
    Awaiting (example_completed 0 [0xFF, 0x06, 0x01, 0x04, 0x10, 0x01, 0x01, 0x02, 67, 64, 0x03])
      0 ∧
    framing_mismatch
        (example_completed 0 [0xFF, 0x06, 0x01, 0x04, 0x10, 0x01, 0x01, 0x02, 67, 64, 0x03])
      = some true ∧
    (os_malloc
        (example_completed 0
          [0xFF, 0x06, 0x01, 0x04, 0x10, 0x01, 0x01, 0x02, 67, 64, 0x03]).heap (0 + 8)).1
      = some (List.replicate 8 0) ∧
    mem_write (List.replicate 8 0) 0
        [STX, GATEWAY_ADDR, INVERTER_ID, (2 + COMMAND_LEN) % 256, 0x10, 0x01]
      = some [0x02, 0x06, 0x01, 0x04, 0x10, 0x01, 0, 0] ∧
    COMMAND_LENGTHS[0]? = some 2 ∧
    mem_write [0x02, 0x06, 0x01, 0x04, 0x10, 0x01, 0, 0] (2 + 8) [ETX] = none ∧
    packet_mismatch_dump
        (example_completed 0 [0xFF, 0x06, 0x01, 0x04, 0x10, 0x01, 0x01, 0x02, 67, 64, 0x03])
      = none ∧
    process_response
        (example_completed 0 [0xFF, 0x06, 0x01, 0x04, 0x10, 0x01, 0x01, 0x02, 67, 64, 0x03])
      = none ∧
    (packet_mismatch_dump
        (example_completed 5
          [0xFF, 0x06, 0x01, 0x04, 0x11, 0x03, 0x01, 0x02, 67, 64, 0x03])).map (fun s => s.log)
      = some [Diag.packet_mismatch, Diag.expected_dump 13 [0, 1, 2, 3, 4, 5, 10] 11] ∧
    (∀ i < COMMAND_COUNT, (COMMAND_LENGTHS.getD i 0 + 8 < i + 8 ↔ 3 ≤ i)) ∧
    (∀ (s : State) (i : Nat), i < COMMAND_COUNT → s.current_command_index = i →
      s.rx_buffer_len ≤ s.rx_buffer.length →
      (os_malloc s.heap (s.current_command_index + 8)).1 ≠ none →
      ((∃ t, packet_mismatch_dump s = some t) ↔ expected_block_fits s)) := by
  refine ⟨by decide, by decide, by decide, by decide, by decide, by decide, by decide!,
    by decide!, by decide!, by decide, ?_⟩
  intro s i hi hidx hlen halloc
  constructor
  · intro ⟨t, ht⟩
    by_contra hfit
    rw [packet_mismatch_dump_overrun s i hi hidx halloc hfit] at ht
    cases ht
  · intro hfit
    obtain ⟨heap1, log1, e, _⟩ := packet_mismatch_dump_total s i hi hidx hlen (Or.inr hfit)
    exact ⟨_, e⟩

end DeltaReader
